import Mathlib

/-! # acb: frame codec, envelope cipher, storage, backup, restore and key generation

A shallow embedding of `internal/encryption` (`format.go`, `kms.go`),
`internal/storage` (`storage.go`, `local_storage.go`, `s3_storage.go`),
`internal/backup/pool.go`, `internal/restore`, the conversions of
`internal/aws/cognito.go`, `internal/config/config.go` and the commands of `cmd`
(`utils.go`, `backup.go`, `restore.go` from line 99, `generate_data_key.go`),
and theorems about them.

Conventions of the embedding:

* a Go `[]byte` is a `List Byte`, with `Byte = Fin 256`; a Go `string` is a
  `String`, and `[]byte(s)` the UTF-8 encoding of its characters;
* a Go `uint32` is a `Nat` reduced `% 2 ^ 32` wherever the source computes in
  32 bits; Go `int` is the 64-bit `int` of the supported targets, modelled in `Int`;
* a Go `(value, error)` result is an `Except`; `return nil, err` is `Except.error`;
  where a function can panic, its result says so (`Ending`, `Except Panic`);
* `bytes.Buffer`, `bytes.Reader`, `encoding/binary`, `io.ReadFull`,
  `encoding/base64`, `strings` and `path/filepath` (with `/` as separator)
  follow the Go standard library's behaviour on the calls the source makes;
* a Go `map[string]V` is an association list read with `mapGet` and written
  with `mapSet`; the order in which a `range` visits its keys is a parameter;
* the services outside the repository (key management, the directory, the
  file system, the object store, AES-GCM, JSON encoding and decoding, tar and
  gzip, the clock, the loading of the AWS configuration) are parameters: a
  service with a state answers each call with a result and a new state;
* the goroutines of `BackupPools` take their steps (a call on the directory, a
  `SaveJSON`, a send) interleaved in an order that is a parameter; a run in
  which two goroutines access the map of the storage has a data race and no
  defined result (`Run.dataRace`).
-/

namespace Acb

/-- One octet of a Go `[]byte`. -/
abbrev Byte := Fin 256

deriving instance DecidableEq for Except

/-- Errors of the `io` package the codec can meet. -/
inductive IOError where
  | EOF
  | ErrUnexpectedEOF
  deriving DecidableEq, Repr

set_option linter.dupNamespace false in
/-- The `EncryptedData` struct of `kms.go`. -/
structure EncryptedData where
  EncryptedDataKey : List Byte
  EncryptedData : List Byte
  deriving DecidableEq, Repr

/-- The errors `format.go` builds with `fmt.Errorf`, one constructor per message. -/
inductive FormatError where
  /-- failed to write encrypted data key length -/
  | writeKeyLen (e : IOError)
  /-- failed to write encrypted data length -/
  | writeDataLen (e : IOError)
  /-- failed to write encrypted data key -/
  | writeKey (e : IOError)
  /-- failed to write encrypted data -/
  | writeData (e : IOError)
  /-- data is too short: %d bytes -/
  | tooShort (len : Nat)
  /-- failed to read encrypted data key length -/
  | readKeyLen (e : IOError)
  /-- failed to read encrypted data length -/
  | readDataLen (e : IOError)
  /-- incomplete data: expected %d bytes, got %d bytes -/
  | incomplete (expected : Nat) (got : Int)
  /-- failed to read encrypted data key -/
  | readKey (e : IOError)
  /-- failed to read encrypted data -/
  | readData (e : IOError)
  deriving DecidableEq, Repr

/-! ## Go standard library pieces used by the codec -/

/-- The conversion `uint32(n)` of a non-negative Go `int`. -/
def uint32 (n : Nat) : Nat := n % 2 ^ 32

/-- The conversion `byte(v)` of an unsigned value. -/
def byte (v : Nat) : Byte := ⟨v % 256, Nat.mod_lt _ (by decide)⟩

/-- `binary.LittleEndian.PutUint32`: the four bytes of `v`, least significant first. -/
def PutUint32 (v : Nat) : List Byte :=
  [byte v, byte (v >>> 8), byte (v >>> 16), byte (v >>> 24)]

/-- `binary.LittleEndian.Uint32` on the four bytes read. -/
def Uint32 (b0 b1 b2 b3 : Byte) : Nat :=
  b0.val ||| b1.val <<< 8 ||| b2.val <<< 16 ||| b3.val <<< 24

/-- `bytes.Buffer.Write`: appends `p`; its error is always nil. -/
def Buffer.Write (buf p : List Byte) : Except IOError (List Byte × Nat) :=
  .ok (buf ++ p, p.length)

/-- `binary.Write(&buf, binary.LittleEndian, v)` for a `uint32` value: the
four bytes of `PutUint32` go through `Buffer.Write`. -/
def binaryWrite (buf : List Byte) (v : Nat) : Except IOError (List Byte) :=
  match Buffer.Write buf (PutUint32 v) with
  | .ok (buf, _) => .ok buf
  | .error e => .error e

/-- A `bytes.Reader`: the underlying slice and the read index. -/
structure Reader where
  s : List Byte
  i : Nat
  deriving DecidableEq, Repr

/-- `bytes.NewReader`. -/
def NewReader (data : List Byte) : Reader := ⟨data, 0⟩

/-- `bytes.Reader.Read(b)`: at the end of the input it returns `0, io.EOF`
(also for an empty `b`); otherwise it copies `min(len b, remaining)` bytes into
the front of `b` and advances. Returns the reader, the buffer, `n` and the error. -/
def Reader.Read (r : Reader) (b : List Byte) : Reader × List Byte × Nat × Option IOError :=
  if r.i ≥ r.s.length then (r, b, 0, some .EOF)
  else
    let src := r.s.drop r.i
    let n := min b.length src.length
    (⟨r.s, r.i + n⟩, src.take n ++ b.drop n, n, none)

/-- `make([]byte, n)`: `n` zero bytes. -/
def make (n : Nat) : List Byte := List.replicate n 0

/-- `io.ReadFull(r, b)` on a `bytes.Reader` and a non-empty `b`: one `Read`
delivers `min(len b, remaining)` bytes, so the loop of `io.ReadAtLeast` ends
with nil when the buffer was filled, with `io.EOF` when nothing was read and
with `io.ErrUnexpectedEOF` after a short read (the second `Read` hits the end). -/
def ReadFull (r : Reader) (b : List Byte) : Reader × List Byte × Option IOError :=
  match r.Read b with
  | (r1, b1, n, err) =>
    if n ≥ b.length then (r1, b1, none)
    else match err with
      | some e => (r1, b1, some e)
      | none => (r1, b1, some .ErrUnexpectedEOF)

/-- `binary.Read(buf, binary.LittleEndian, &v)` for `v : uint32`: four bytes
through `io.ReadFull`, decoded with `Uint32`. -/
def binaryRead (r : Reader) : Except IOError (Nat × Reader) :=
  match ReadFull r (make 4) with
  | (r1, [b0, b1, b2, b3], none) => .ok (Uint32 b0 b1 b2 b3, r1)
  | (_, _, some e) => .error e
  | (_, _, none) => .error .ErrUnexpectedEOF

/-! ## `format.go` -/

/-- `SerializeEncryptedData`. -/
def SerializeEncryptedData (encryptedData : EncryptedData) : Except FormatError (List Byte) :=
  let buf : List Byte := []
  let encKeyLen := uint32 encryptedData.EncryptedDataKey.length
  match binaryWrite buf encKeyLen with
  | .error e => .error (.writeKeyLen e)
  | .ok buf =>
  let dataLen := uint32 encryptedData.EncryptedData.length
  match binaryWrite buf dataLen with
  | .error e => .error (.writeDataLen e)
  | .ok buf =>
  match Buffer.Write buf encryptedData.EncryptedDataKey with
  | .error e => .error (.writeKey e)
  | .ok (buf, _) =>
  match Buffer.Write buf encryptedData.EncryptedData with
  | .error e => .error (.writeData e)
  | .ok (buf, _) => .ok buf

/-- `DeserializeEncryptedData`. The sum `encKeyLen+dataLen` is a `uint32` sum. -/
def DeserializeEncryptedData (data : List Byte) : Except FormatError EncryptedData :=
  if data.length < 8 then .error (.tooShort data.length)
  else
  let buf := NewReader data
  match binaryRead buf with
  | .error e => .error (.readKeyLen e)
  | .ok (encKeyLen, buf) =>
  match binaryRead buf with
  | .error e => .error (.readDataLen e)
  | .ok (dataLen, buf) =>
  let remainingData : Int := (data.length : Int) - 8
  if remainingData < ((uint32 (encKeyLen + dataLen) : Nat) : Int) then
    .error (.incomplete (uint32 (encKeyLen + dataLen)) remainingData)
  else
  match buf.Read (make encKeyLen) with
  | (_, _, _, some e) => .error (.readKey e)
  | (buf, encryptedDataKey, _, none) =>
  match buf.Read (make dataLen) with
  | (_, _, _, some e) => .error (.readData e)
  | (_, encryptedData, _, none) =>
    .ok { EncryptedDataKey := encryptedDataKey, EncryptedData := encryptedData }

/-- The wrapped-key length a frame header declares (bytes 0-3, little-endian). -/
def declaredKeyLen (data : List Byte) : Nat :=
  Uint32 (data.getD 0 0) (data.getD 1 0) (data.getD 2 0) (data.getD 3 0)

/-- The payload length a frame header declares (bytes 4-7, little-endian). -/
def declaredDataLen (data : List Byte) : Nat :=
  Uint32 (data.getD 4 0) (data.getD 5 0) (data.getD 6 0) (data.getD 7 0)

/-- The wire layout in the words of the format description: a 32-bit length
as four bytes, least significant first. -/
def LE32 (n : Nat) : List Byte :=
  [byte (n / 1), byte (n / 256), byte (n / 65536), byte (n / 16777216)]

/-! ## Environment of `kms.go`: key management, AES-GCM, randomness -/

/-- A Go `[]byte` whose nil-ness the source tests: `none` is the nil slice. -/
abbrev Slice := Option (List Byte)

/-- The bytes of a slice; a nil slice has none. -/
def Slice.bytes (s : Slice) : List Byte := s.getD []

/-- An error returned by the key-management SDK. -/
abbrev KMSError := String

/-- The fields of `kms.DecryptInput` the source sets. -/
structure DecryptInput where
  KeyId : String
  CiphertextBlob : Slice
  deriving DecidableEq, Repr

/-- The field of `kms.DecryptOutput` the source reads. -/
structure DecryptOutput where
  Plaintext : Slice
  deriving DecidableEq, Repr

/-- The fields of `kms.GenerateDataKeyInput` the source sets. -/
structure GenerateDataKeyInput where
  KeyId : String
  KeySpec : String
  deriving DecidableEq, Repr

/-- The key fields of `kms.GenerateDataKeyOutput`. -/
structure GenerateDataKeyOutput where
  Plaintext : Slice
  CiphertextBlob : Slice
  deriving DecidableEq, Repr

/-- An abstract key-management service: each request may fail, and may change
the service's state `σ` (key generation is not a function of its input). -/
structure KMSClient (σ : Type) where
  Decrypt : DecryptInput → σ → Except KMSError DecryptOutput × σ
  GenerateDataKey : GenerateDataKeyInput → σ → Except KMSError GenerateDataKeyOutput × σ

/-- A request sent to the key-management service. -/
inductive KMSCall where
  | decrypt (input : DecryptInput)
  | generateDataKey (input : GenerateDataKeyInput)
  deriving DecidableEq, Repr

/-- The same service, keeping a log of the requests it receives. -/
def KMSClient.recording {σ : Type} (kms : KMSClient σ) : KMSClient (σ × List KMSCall) where
  Decrypt := fun input st =>
    match kms.Decrypt input st.1 with
    | (r, w) => (r, (w, st.2 ++ [KMSCall.decrypt input]))
  GenerateDataKey := fun input st =>
    match kms.GenerateDataKey input st.1 with
    | (r, w) => (r, (w, st.2 ++ [KMSCall.generateDataKey input]))

/-- An abstract AEAD standing for AES-GCM with nil additional data: `Seal`
returns ciphertext and tag, `Open` returns `none` when authentication fails. -/
structure AESGCM where
  Seal : (key nonce plaintext : List Byte) → List Byte
  Open : (key nonce ciphertext : List Byte) → Option (List Byte)

/-- `aesGCM.NonceSize()` of the standard GCM that `cipher.NewGCM` builds. -/
def NonceSize : Nat := 12

/-- `aes.NewCipher(key)`: keys of 16, 24 or 32 bytes are accepted, any other
length is an `aes.KeySizeError`. The block is represented by its key. -/
def aesNewCipher (key : List Byte) : Except Nat (List Byte) :=
  if key.length = 16 ∨ key.length = 24 ∨ key.length = 32 then .ok key
  else .error key.length

/-- `cipher.NewGCM(block)`: fails only for a block size other than 16, which
an AES block never has. -/
def cipherNewGCM (block : List Byte) : Except Unit (List Byte) := .ok block

/-- `rand.Read(iv)` for `iv = make([]byte, n)`: the buffer is filled from
the entropy source, or the call fails when the source cannot fill it. -/
def randRead (entropy : List Byte) (n : Nat) : Except IOError (List Byte) :=
  if entropy.length < n then .error .ErrUnexpectedEOF else .ok (entropy.take n)

/-- The errors `kms.go` builds with `fmt.Errorf`, one constructor per site. -/
inductive EncryptError where
  /-- `GenerateDataKey`: the key-management request failed -/
  | generateDataKey (e : KMSError)
  /-- `Encrypt`: `GenerateDataKey` failed -/
  | dataKeyGeneration (e : EncryptError)
  /-- `Encrypt`, `Decrypt`: the unwrap request failed -/
  | dataKeyDecryption (e : KMSError)
  /-- `aes.NewCipher` failed -/
  | aesInit (keySize : Nat)
  /-- `cipher.NewGCM` failed -/
  | gcmInit
  /-- `rand.Read` failed -/
  | ivGeneration (e : IOError)
  /-- `Decrypt`: the payload is shorter than the nonce -/
  | invalidData
  /-- `Decrypt`: `aesGCM.Open` failed -/
  | dataDecryption
  deriving DecidableEq, Repr

/-! ## `kms.go` -/

/-- The `KMSEncryptor` struct; its `kmsClient` is passed to the methods. -/
structure KMSEncryptor where
  keyID : String
  dataKey : Slice
  deriving DecidableEq, Repr

/-- `NewKMSEncryptor`, once the client is built: no data key is installed. -/
def NewKMSEncryptor (keyID : String) : KMSEncryptor := { keyID := keyID, dataKey := none }

/-- `KMSEncryptor.SetDataKey`. -/
def KMSEncryptor.SetDataKey (e : KMSEncryptor) (dataKey : Slice) : KMSEncryptor :=
  { e with dataKey := dataKey }

/-- `KMSEncryptor.GenerateDataKey`. -/
def KMSEncryptor.GenerateDataKey {σ : Type} (kms : KMSClient σ) (e : KMSEncryptor) (w : σ) :
    Except EncryptError GenerateDataKeyOutput × σ :=
  match kms.GenerateDataKey { KeyId := e.keyID, KeySpec := "AES_256" } w with
  | (.error err, w) => (.error (.generateDataKey err), w)
  | (.ok output, w) => (.ok output, w)

/-- `KMSEncryptor.Encrypt`. Returns the result, the encryptor after the call
(the method assigns `e.dataKey`) and the service state. `entropy` feeds `rand.Read`. -/
def KMSEncryptor.Encrypt {σ : Type} (kms : KMSClient σ) (gcm : AESGCM) (e : KMSEncryptor) (w : σ)
    (entropy : List Byte) (data : List Byte) :
    Except EncryptError EncryptedData × KMSEncryptor × σ :=
  let generated : Except EncryptError Unit × KMSEncryptor × σ :=
    match e.dataKey with
    | none =>
      match e.GenerateDataKey kms w with
      | (.error err, w) => (.error (.dataKeyGeneration err), e, w)
      | (.ok dataKeyInfo, w) => (.ok (), { e with dataKey := dataKeyInfo.Plaintext }, w)
    | some _ => (.ok (), e, w)
  match generated with
  | (.error err, e, w) => (.error err, e, w)
  | (.ok (), e, w) =>
  match kms.Decrypt { KeyId := e.keyID, CiphertextBlob := e.dataKey } w with
  | (.error err, w) => (.error (.dataKeyDecryption err), e, w)
  | (.ok decryptOutput, w) =>
  let e := { e with dataKey := decryptOutput.Plaintext }
  match aesNewCipher e.dataKey.bytes with
  | .error err => (.error (.aesInit err), e, w)
  | .ok block =>
  match cipherNewGCM block with
  | .error _ => (.error .gcmInit, e, w)
  | .ok aesGCM =>
  match randRead entropy NonceSize with
  | .error err => (.error (.ivGeneration err), e, w)
  | .ok iv =>
  let ciphertext := iv ++ gcm.Seal aesGCM iv data
  (.ok { EncryptedDataKey := e.dataKey.bytes, EncryptedData := ciphertext }, e, w)

/-- `KMSEncryptor.Decrypt`. Returns the result, the encryptor after the call
and the service state. -/
def KMSEncryptor.Decrypt {σ : Type} (kms : KMSClient σ) (gcm : AESGCM) (e : KMSEncryptor) (w : σ)
    (encryptedData : EncryptedData) :
    Except EncryptError (List Byte) × KMSEncryptor × σ :=
  match kms.Decrypt { KeyId := e.keyID, CiphertextBlob := e.dataKey } w with
  | (.error err, w) => (.error (.dataKeyDecryption err), e, w)
  | (.ok decryptOutput, w) =>
  let e := { e with dataKey := decryptOutput.Plaintext }
  match aesNewCipher e.dataKey.bytes with
  | .error err => (.error (.aesInit err), e, w)
  | .ok block =>
  match cipherNewGCM block with
  | .error _ => (.error .gcmInit, e, w)
  | .ok aesGCM =>
  if encryptedData.EncryptedData.length < NonceSize then (.error .invalidData, e, w)
  else
  let iv := encryptedData.EncryptedData.take NonceSize
  let ciphertext := encryptedData.EncryptedData.drop NonceSize
  match gcm.Open aesGCM iv ciphertext with
  | none => (.error .dataDecryption, e, w)
  | some plaintext => (.ok plaintext, e, w)

/-! ## Tampering, and the properties asked of the environment -/

/-- Flipping bit `i` of a byte sequence: bit `i % 8` of the byte at index `i / 8`. -/
def flipBit (p : List Byte) (i : Nat) : List Byte :=
  p.modify (fun b => byte (b.val ^^^ 2 ^ (i % 8))) (i / 8)

/-- The AEAD opens what it sealed, under the same key and nonce. -/
def AESGCM.OpenInvertsSeal (gcm : AESGCM) : Prop :=
  ∀ key nonce plaintext, gcm.Open key nonce (gcm.Seal key nonce plaintext) = some plaintext

/-- The AEAD authenticates nonce, ciphertext and tag: after any single bit of
`nonce ++ Seal key nonce plaintext` is flipped, the result no longer opens under
the key it was sealed with. Nothing is asked of `Open` under another key. -/
def AESGCM.DetectsBitFlips (gcm : AESGCM) : Prop :=
  ∀ (key nonce plaintext : List Byte) (i : Nat), nonce.length = NonceSize →
    i < 8 * (nonce ++ gcm.Seal key nonce plaintext).length →
    gcm.Open key ((flipBit (nonce ++ gcm.Seal key nonce plaintext) i).take NonceSize)
      ((flipBit (nonce ++ gcm.Seal key nonce plaintext) i).drop NonceSize) = none

/-! ## A concrete environment, for evaluating the methods -/

/-- The sum of the bytes of a sequence. -/
def byteSum : List Byte → Nat
  | [] => 0
  | b :: l => b.val + byteSum l

/-- A small AEAD: the sealed text is the plaintext followed by a one-byte tag,
the sum of the nonce and plaintext bytes; `Open` checks the tag. -/
def sumGCM : AESGCM where
  Seal := fun _ nonce plaintext => plaintext ++ [byte (byteSum (nonce ++ plaintext))]
  Open := fun _ nonce ciphertext =>
    if (nonce ++ ciphertext).getLast? = some (byte (byteSum (nonce ++ ciphertext.dropLast)))
        ∧ ciphertext ≠ [] then
      some ciphertext.dropLast
    else none

/-- A small AEAD with a key: the sealed text is the plaintext followed by a
one-byte tag, the sum of the key, nonce and plaintext bytes; `Open` checks the
tag under its key. -/
def keyedGCM : AESGCM where
  Seal := fun key nonce plaintext =>
    plaintext ++ [byte (byteSum key + byteSum (nonce ++ plaintext))]
  Open := fun key nonce ciphertext =>
    if (nonce ++ ciphertext).getLast? =
          some (byte (byteSum key + byteSum (nonce ++ ciphertext.dropLast)))
        ∧ ciphertext ≠ [] then
      some ciphertext.dropLast
    else none

/-- The wrapped data key the stub service knows. -/
def stubWrappedKey : List Byte := [171, 205, 239]

/-- The 16-byte plaintext data key behind `stubWrappedKey`. -/
def stubPlaintextKey : List Byte := [1, 2, 3, 4, 5, 6, 7, 8, 9, 10, 11, 12, 13, 14, 15, 16]

/-- A key-management stub with one data key: generation returns the key in
both forms, unwrapping accepts the wrapped form only. -/
def stubKMS : KMSClient Unit where
  Decrypt := fun input _ =>
    if input.CiphertextBlob = some stubWrappedKey then
      (.ok { Plaintext := some stubPlaintextKey }, ())
    else (.error "InvalidCiphertextException", ())
  GenerateDataKey := fun _ _ =>
    (.ok { Plaintext := some stubPlaintextKey, CiphertextBlob := some stubWrappedKey }, ())

/-- An encryptor on which `stubWrappedKey` has been installed. -/
def stubEncryptor : KMSEncryptor :=
  (NewKMSEncryptor "alias/backup").SetDataKey (some stubWrappedKey)

/-- Twelve bytes of entropy. -/
def stubEntropy : List Byte := [20, 21, 22, 23, 24, 25, 26, 27, 28, 29, 30, 31]

/-- A key-management service that is down: every request fails. -/
def downKMS : KMSClient Unit where
  Decrypt := fun _ _ => (.error "KMSInternalException", ())
  GenerateDataKey := fun _ _ => (.error "KMSInternalException", ())

/-! ## `storage.go`: the encrypted-payload detector -/

/-- `isEncryptedData`. The two fields are `uint32` values assembled from bytes
0-3 and 4-7; `expectedMinSize` is computed in `int`. -/
def isEncryptedData (data : List Byte) : Bool :=
  if data.length < 8 then false
  else
    let ivLen := uint32 (data.getD 0 0).val ||| uint32 (data.getD 1 0).val <<< 8
      ||| uint32 (data.getD 2 0).val <<< 16 ||| uint32 (data.getD 3 0).val <<< 24
    let encKeyLen := uint32 (data.getD 4 0).val ||| uint32 (data.getD 5 0).val <<< 8
      ||| uint32 (data.getD 6 0).val <<< 16 ||| uint32 (data.getD 7 0).val <<< 24
    if ivLen = 12 ∧ encKeyLen ≥ 50 ∧ encKeyLen ≤ 2000 then
      let expectedMinSize := 8 + ivLen + encKeyLen + 16
      decide (data.length ≥ expectedMinSize)
    else false

/-! ## Go standard library pieces used by the storage and backup packages -/

/-- A Go `map[string]V` as an association list with distinct keys; the order
of the list has no meaning (Go iterates a map in an arbitrary order). -/
abbrev GoMap (V : Type) := List (String × V)

/-- The map read `v, exists := m[k]`: `none` when the key is absent. -/
def mapGet {V : Type} : GoMap V → String → Option V
  | [], _ => none
  | (k1, v) :: rest, k => if k1 = k then some v else mapGet rest k

/-- The map write `m[k] = v`. -/
def mapSet {V : Type} : GoMap V → String → V → GoMap V
  | [], k, v => [(k, v)]
  | (k1, v1) :: rest, k, v => if k1 = k then (k, v) :: rest else (k1, v1) :: mapSet rest k v

/-- The keys of a map. -/
def mapKeys {V : Type} (m : GoMap V) : List String := m.map Prod.fst

/-- One step of `filepath.Clean` on the path elements between separators, the
output kept in reverse: empty elements and `.` are dropped, `..` removes the
element before it, or is kept when there is none to remove and the path is not
rooted. -/
def cleanStep (rooted : Bool) (out : List (List Char)) (elem : List Char) : List (List Char) :=
  if elem = [] ∨ elem = ['.'] then out
  else if elem = ['.', '.'] then
    match out with
    | [] => if rooted then [] else [elem]
    | top :: rest => if top = ['.', '.'] then elem :: out else rest
  else elem :: out

/-- `filepath.Clean` with `/` as the separator (no volume names). -/
def filepathClean (path : List Char) : List Char :=
  if path = [] then ['.']
  else
    let rooted := path.head? = some '/'
    let out := ((path.splitOn '/').foldl (cleanStep rooted) []).reverse
    if rooted then '/' :: ['/'].intercalate out
    else if out = [] then ['.']
    else ['/'].intercalate out

/-- `filepath.Join` with `/` as the separator: the elements from the first
non-empty one on are joined with `/` and cleaned; no non-empty element gives `""`. -/
def filepathJoin (elem : List String) : String :=
  match elem.dropWhile (fun e => e = "") with
  | [] => ""
  | rest => String.mk (filepathClean (['/'].intercalate (rest.map String.toList)))

/-! ## `pkg/types` and the values handed to `json.MarshalIndent` -/

/-- `types.BackupMetadata`. -/
structure BackupMetadata where
  Version : String
  Timestamp : String
  SourceAccount : String
  SourceRegion : String
  UserPoolID : String
  BackupFiles : List String
  deriving DecidableEq, Repr

/-- `types.UserInfo`. An attribute map holds strings under its keys. -/
structure UserInfo where
  Username : String
  Attributes : List (GoMap String)
  Groups : List String
  MFASettings : Option (GoMap String)
  deriving DecidableEq, Repr

/-- `types.UsersBackup`. -/
structure UsersBackup where
  Users : List UserInfo
  deriving DecidableEq, Repr

/-- The SDK's `types.UserPoolType`, opaque to the backup. -/
abbrev UserPoolType := String

/-- The values the backup passes to `SaveJSON` as `data interface{}`. -/
inductive JSONValue where
  | backupMetadata (metadata : BackupMetadata)
  | userPool (userPool : UserPoolType)
  | usersBackup (usersBackup : UsersBackup)
  deriving DecidableEq, Repr

/-! ## `storage.go`, `local_storage.go`, `s3_storage.go`: the staging archive -/

/-- `storage.BackupFile`. -/
structure BackupFile where
  Name : String
  Content : List Byte
  deriving DecidableEq, Repr

/-- `storage.BackupData`: `Files` maps a user pool id to its files. -/
structure BackupData where
  Files : GoMap (List BackupFile)
  deriving DecidableEq, Repr

/-- `storage.NewBackupData`. -/
def NewBackupData : BackupData := { Files := [] }

/-- The errors of the storage package, one constructor per message. -/
inductive StorageError where
  /-- failed to encode JSON -/
  | encodeJSON (e : String)
  /-- failed to write tar header -/
  | tarHeader (e : String)
  /-- failed to write file content -/
  | tarContent (e : String)
  /-- failed to close tar writer -/
  | tarClose (e : String)
  /-- failed to close gzip writer -/
  | gzipClose (e : String)
  /-- failed to read file -/
  | readFile (e : String)
  /-- failed to deserialize encrypted data -/
  | deserialize (e : FormatError)
  /-- failed to decrypt data -/
  | decrypt (e : EncryptError)
  /-- failed to create directory -/
  | createDirectory (e : String)
  /-- failed to encrypt data -/
  | encrypt (e : EncryptError)
  /-- failed to serialize encrypted data -/
  | serialize (e : FormatError)
  /-- the error of `os.WriteFile`, returned as it is -/
  | osWriteFile (e : String)
  /-- failed to upload to S3 -/
  | upload (e : String)
  /-- failed to download from S3 -/
  | download (e : String)
  deriving DecidableEq, Repr

/-- `storage.LocalStorage`. -/
structure LocalStorage where
  backupData : BackupData
  encryptor : Option KMSEncryptor
  deriving DecidableEq, Repr

/-- `storage.NewLocalStorage`. -/
def NewLocalStorage : LocalStorage := { backupData := NewBackupData, encryptor := none }

/-- `storage.S3Storage`; the S3 client is outside the model. -/
structure S3Storage where
  bucket : String
  usePrefix : Bool
  backupData : BackupData
  encryptor : Option KMSEncryptor
  deriving DecidableEq, Repr

/-- `storage.NewS3Storage`, once the client is built. -/
def NewS3Storage (bucket : String) : S3Storage :=
  { bucket := bucket, usePrefix := false, backupData := NewBackupData, encryptor := none }

set_option linter.unusedVariables false in
/-- `LocalStorage.SaveJSON`; `MarshalIndent` stands for `json.MarshalIndent(data, "", "  ")`. -/
def LocalStorage.SaveJSON (MarshalIndent : JSONValue → Except String (List Byte))
    (s : LocalStorage) (pfx userPoolID filename : String) (data : JSONValue) :
    Except StorageError Unit × LocalStorage :=
  match MarshalIndent data with
  | .error err => (.error (.encodeJSON err), s)
  | .ok jsonData =>
    let Files := s.backupData.Files
    let Files := if (mapGet Files userPoolID).isNone then mapSet Files userPoolID [] else Files
    let Files := mapSet Files userPoolID
      ((mapGet Files userPoolID).getD [] ++ [{ Name := filename, Content := jsonData }])
    (.ok (), { s with backupData := { Files := Files } })

set_option linter.unusedVariables false in
/-- `S3Storage.SaveJSON`. -/
def S3Storage.SaveJSON (MarshalIndent : JSONValue → Except String (List Byte))
    (s : S3Storage) (pfx userPoolID filename : String) (data : JSONValue) :
    Except StorageError Unit × S3Storage :=
  match MarshalIndent data with
  | .error err => (.error (.encodeJSON err), s)
  | .ok jsonData =>
    let Files := s.backupData.Files
    let Files := if (mapGet Files userPoolID).isNone then mapSet Files userPoolID [] else Files
    let Files := mapSet Files userPoolID
      ((mapGet Files userPoolID).getD [] ++ [{ Name := filename, Content := jsonData }])
    (.ok (), { s with backupData := { Files := Files } })

/-- `LocalStorage.GetBackupData`. -/
def LocalStorage.GetBackupData (s : LocalStorage) : BackupData := s.backupData

/-- `S3Storage.GetBackupData`. -/
def S3Storage.GetBackupData (s : S3Storage) : BackupData := s.backupData

/-- The two map statements of `SaveJSON`: the entry of `userPoolID` is
created when absent, then the file appended to it. -/
def stageFile (Files : GoMap (List BackupFile)) (userPoolID : String) (file : BackupFile) :
    GoMap (List BackupFile) :=
  mapSet (if (mapGet Files userPoolID).isNone then mapSet Files userPoolID [] else Files)
    userPoolID
    ((mapGet (if (mapGet Files userPoolID).isNone then mapSet Files userPoolID [] else Files)
      userPoolID).getD [] ++ [file])

/-- A sequence of `LocalStorage.SaveJSON` calls for one resource, one call for
each file name and value, stopping at the first error. -/
def LocalStorage.SaveJSONs (MarshalIndent : JSONValue → Except String (List Byte))
    (pfx userPoolID : String) :
    List (String × JSONValue) → LocalStorage → Except StorageError Unit × LocalStorage
  | [], s => (.ok (), s)
  | (filename, data) :: calls, s =>
    match s.SaveJSON MarshalIndent pfx userPoolID filename data with
    | (.error err, s) => (.error err, s)
    | (.ok (), s) => LocalStorage.SaveJSONs MarshalIndent pfx userPoolID calls s

/-- A value of the `storage.Storage` interface. -/
inductive Storage where
  | localStorage (s : LocalStorage)
  | s3Storage (s : S3Storage)
  deriving DecidableEq, Repr

/-- `Storage.SaveJSON`, dispatched on the implementation. -/
def Storage.SaveJSON (MarshalIndent : JSONValue → Except String (List Byte)) (s : Storage)
    (pfx userPoolID filename : String) (data : JSONValue) : Except StorageError Unit × Storage :=
  match s with
  | .localStorage l =>
    match l.SaveJSON MarshalIndent pfx userPoolID filename data with
    | (r, l) => (r, .localStorage l)
  | .s3Storage l =>
    match l.SaveJSON MarshalIndent pfx userPoolID filename data with
    | (r, l) => (r, .s3Storage l)

/-- `Storage.GetBackupData`, dispatched on the implementation. -/
def Storage.GetBackupData : Storage → BackupData
  | .localStorage l => l.GetBackupData
  | .s3Storage l => l.GetBackupData

/-! ### The container of `CreateTarGz` -/

/-- The fields of `tar.Header` the source sets. -/
structure TarHeader where
  Name : String
  Size : Int
  Mode : Nat
  ModTime : String
  deriving DecidableEq, Repr

/-- One entry written to the `tar.Writer`: its header and its content. -/
structure TarEntry where
  header : TarHeader
  content : List Byte
  deriving DecidableEq, Repr

/-- `archive/tar` and `compress/gzip` as a black box: each call returns its
error, `none` for nil. -/
structure TarLib where
  WriteHeader : TarHeader → Option String
  Write : TarHeader → List Byte → Option String
  tarClose : List TarEntry → Option String
  gzipClose : List TarEntry → Option String

/-- The inner loop of `CreateTarGz`, `for _, file := range files`: one header
and one content write per file, appended to the entries `tw` already written.
`clock n` is what `time.Now()` returns when `n` entries have been written. -/
def tarWriteFiles (tar : TarLib) (clock : Nat → String) (userPoolID : String) :
    List BackupFile → List TarEntry → Except StorageError (List TarEntry)
  | [], tw => .ok tw
  | file :: files, tw =>
    let header : TarHeader :=
      { Name := filepathJoin [userPoolID, file.Name]
        Size := (file.Content.length : Int)
        Mode := 0o644
        ModTime := clock tw.length }
    match tar.WriteHeader header with
    | some err => .error (.tarHeader err)
    | none =>
      match tar.Write header file.Content with
      | some err => .error (.tarContent err)
      | none => tarWriteFiles tar clock userPoolID files (tw ++ [{ header := header, content := file.Content }])

/-- The outer loop of `CreateTarGz`, `for userPoolID, files := range s.backupData.Files`:
the keys are visited in the order `order` the runtime picks. -/
def tarWritePools (tar : TarLib) (clock : Nat → String) (Files : GoMap (List BackupFile)) :
    List String → List TarEntry → Except StorageError (List TarEntry)
  | [], tw => .ok tw
  | userPoolID :: order, tw =>
    match mapGet Files userPoolID with
    | none => tarWritePools tar clock Files order tw
    | some files =>
      match tarWriteFiles tar clock userPoolID files tw with
      | .error err => .error err
      | .ok tw => tarWritePools tar clock Files order tw

/-- `LocalStorage.CreateTarGz`, lines 83-117: the tar.gz container built in
memory, as the list of its entries. -/
def LocalStorage.tarGz (tar : TarLib) (clock : Nat → String) (s : LocalStorage)
    (order : List String) : Except StorageError (List TarEntry) :=
  match tarWritePools tar clock s.backupData.Files order [] with
  | .error err => .error err
  | .ok tw =>
    match tar.tarClose tw with
    | some err => .error (.tarClose err)
    | none =>
      match tar.gzipClose tw with
      | some err => .error (.gzipClose err)
      | none => .ok tw

/-- `S3Storage.CreateTarGz`, lines 80-114: the tar.gz container built in
memory, as the list of its entries. -/
def S3Storage.tarGz (tar : TarLib) (clock : Nat → String) (s : S3Storage)
    (order : List String) : Except StorageError (List TarEntry) :=
  match tarWritePools tar clock s.backupData.Files order [] with
  | .error err => .error err
  | .ok tw =>
    match tar.tarClose tw with
    | some err => .error (.tarClose err)
    | none =>
      match tar.gzipClose tw with
      | some err => .error (.gzipClose err)
      | none => .ok tw

/-- A plain path component: not empty, without `/`, and neither `.` nor `..`. -/
def plainName (s : String) : Prop :=
  s.toList ≠ [] ∧ '/' ∉ s.toList ∧ s.toList ≠ ['.'] ∧ s.toList ≠ ['.', '.']

/-- What a tar entry holds of a staged file: path, size and content. -/
def TarEntry.view (e : TarEntry) : String × Int × List Byte :=
  (e.header.Name, e.header.Size, e.content)

/-- What the entry of a staged file of a resource holds: the joined path, the
length of the content, and the content. -/
def stagedView (userPoolID : String) (file : BackupFile) : String × Int × List Byte :=
  (filepathJoin [userPoolID, file.Name], (file.Content.length : Int), file.Content)

/-- A tar library that accepts every header and every content. -/
def okTar : TarLib where
  WriteHeader := fun _ => none
  Write := fun _ _ => none
  tarClose := fun _ => none
  gzipClose := fun _ => none

/-! ## `internal/aws/cognito.go`: the directory client, at its method signatures -/

/-- The fields of the SDK's `types.UserPoolDescriptionType` the source reads. -/
structure UserPoolDescriptionType where
  Id : String
  Name : String
  deriving DecidableEq, Repr

/-- The SDK's `types.AttributeType`. -/
structure AttributeType where
  Name : String
  Value : String
  deriving DecidableEq, Repr

/-- The fields of the SDK's `types.UserType` the source reads. -/
structure UserType where
  Username : String
  Attributes : List AttributeType
  deriving DecidableEq, Repr

/-- The field of `cognito.DescribeUserPoolOutput` the source reads. -/
structure DescribeUserPoolOutput where
  UserPool : UserPoolType
  deriving DecidableEq, Repr

/-- The methods of `aws.CognitoClient` the backup calls, over an abstract
directory service with state `σ`: each call may fail and may change the state. -/
structure CognitoClient (σ : Type) where
  ListUserPools : String → σ → Except String (List UserPoolDescriptionType) × σ
  GetUserPoolConfiguration : String → σ → Except String DescribeUserPoolOutput × σ
  ListUsers : String → σ → Except String (List UserType) × σ
  ListUserGroups : String → String → σ → Except String (List String) × σ

/-- A call made on the directory client. -/
inductive CognitoCall where
  | listUserPools (pattern : String)
  | getUserPoolConfiguration (userPoolID : String)
  | listUsers (userPoolID : String)
  | listUserGroups (userPoolID username : String)
  deriving DecidableEq, Repr

/-- The same client, keeping a log of the calls it receives. -/
def CognitoClient.recording {σ : Type} (c : CognitoClient σ) :
    CognitoClient (σ × List CognitoCall) where
  ListUserPools := fun pattern st =>
    ((c.ListUserPools pattern st.1).1, (c.ListUserPools pattern st.1).2,
      st.2 ++ [CognitoCall.listUserPools pattern])
  GetUserPoolConfiguration := fun userPoolID st =>
    ((c.GetUserPoolConfiguration userPoolID st.1).1,
      (c.GetUserPoolConfiguration userPoolID st.1).2,
      st.2 ++ [CognitoCall.getUserPoolConfiguration userPoolID])
  ListUsers := fun userPoolID st =>
    ((c.ListUsers userPoolID st.1).1, (c.ListUsers userPoolID st.1).2,
      st.2 ++ [CognitoCall.listUsers userPoolID])
  ListUserGroups := fun userPoolID username st =>
    ((c.ListUserGroups userPoolID username st.1).1,
      (c.ListUserGroups userPoolID username st.1).2,
      st.2 ++ [CognitoCall.listUserGroups userPoolID username])

/-! ## `internal/backup/pool.go` -/

/-- The errors `backupSinglePool` returns, one constructor per message. -/
inductive PoolError where
  /-- failed to get user pool configuration -/
  | userPoolConfiguration (e : String)
  /-- failed to get user list -/
  | userList (e : String)
  /-- failed to get user groups -/
  | userGroups (e : String)
  /-- failed to save metadata -/
  | saveMetadata (e : StorageError)
  /-- failed to save pool configuration -/
  | savePoolConfiguration (e : StorageError)
  /-- failed to save user information -/
  | saveUserInformation (e : StorageError)
  deriving DecidableEq, Repr

/-- The error a goroutine of `BackupPools` sends to `errCh`:
failed to backup user pool %s, wrapping the error of `backupSinglePool`. -/
structure PoolFailure where
  pool : String
  cause : PoolError
  deriving DecidableEq, Repr

/-- The errors `BackupPools` returns, one constructor per message. -/
inductive BackupError where
  /-- failed to get user pool list -/
  | userPoolList (e : String)
  /-- no user pools found matching pattern: %s -/
  | noUserPools (pattern : String)
  /-- %d errors occurred during backup: %v -/
  | errorsOccurred (n : Nat) (errors : List PoolFailure)
  deriving DecidableEq, Repr

/-- The errors of `backupSinglePool` that come from a call on the directory client. -/
def PoolError.fromDirectory : PoolError → Bool
  | .userPoolConfiguration _ => true
  | .userList _ => true
  | .userGroups _ => true
  | _ => false

/-- What `backup.PoolBackupper` works with: the directory client, the JSON
encoder behind `SaveJSON`, and the clock (`Now w` is
`time.Now().UTC().Format(time.RFC3339)` in the state `w`). -/
structure BackupEnv (σ : Type) where
  cognitoClient : CognitoClient σ
  MarshalIndent : JSONValue → Except String (List Byte)
  Now : σ → String

/-- `backup.PoolBackupper`; its `cognitoClient` is in the `BackupEnv`. -/
structure PoolBackupper where
  storage : Storage
  deriving DecidableEq, Repr

/-- The loop of `backupSinglePool` over the users, `for _, user := range users`:
the groups of each user are fetched and a `UserInfo` appended to
`usersBackup.Users`; the first failing call ends the function. -/
def PoolBackupper.collectUsers {σ : Type} (env : BackupEnv σ) (userPoolID : String) :
    List UserType → UsersBackup → σ → Except PoolError UsersBackup × σ
  | [], usersBackup, w => (.ok usersBackup, w)
  | user :: users, usersBackup, w =>
    match env.cognitoClient.ListUserGroups userPoolID user.Username w with
    | (.error err, w) => (.error (.userGroups err), w)
    | (.ok groups, w) =>
      let attributes : List (GoMap String) :=
        user.Attributes.map (fun attr => [("Name", attr.Name), ("Value", attr.Value)])
      let userInfo : UserInfo :=
        { Username := user.Username, Groups := groups, Attributes := attributes,
          MFASettings := none }
      PoolBackupper.collectUsers env userPoolID users
        { usersBackup with Users := usersBackup.Users ++ [userInfo] } w

/-- `PoolBackupper.backupSinglePool`. Returns the error, the backupper (its
storage is written by `SaveJSON`) and the state of the directory service. -/
def PoolBackupper.backupSinglePool {σ : Type} (env : BackupEnv σ) (b : PoolBackupper) (w : σ)
    (userPoolID pfx : String) : Except PoolError Unit × PoolBackupper × σ :=
  match env.cognitoClient.GetUserPoolConfiguration userPoolID w with
  | (.error err, w) => (.error (.userPoolConfiguration err), b, w)
  | (.ok poolConfig, w) =>
  match env.cognitoClient.ListUsers userPoolID w with
  | (.error err, w) => (.error (.userList err), b, w)
  | (.ok users, w) =>
  match PoolBackupper.collectUsers env userPoolID users { Users := [] } w with
  | (.error err, w) => (.error err, b, w)
  | (.ok usersBackup, w) =>
  let metadata : BackupMetadata :=
    { Version := "1.0"
      Timestamp := env.Now w
      SourceAccount := ""
      SourceRegion := ""
      UserPoolID := userPoolID
      BackupFiles := ["pool-config.json", "users.json"] }
  match b.storage.SaveJSON env.MarshalIndent pfx userPoolID "metadata.json"
      (.backupMetadata metadata) with
  | (.error err, storage) => (.error (.saveMetadata err), { b with storage := storage }, w)
  | (.ok (), storage) =>
  match storage.SaveJSON env.MarshalIndent pfx userPoolID "pool-config.json"
      (.userPool poolConfig.UserPool) with
  | (.error err, storage) =>
    (.error (.savePoolConfiguration err), { b with storage := storage }, w)
  | (.ok (), storage) =>
  match storage.SaveJSON env.MarshalIndent pfx userPoolID "users.json"
      (.usersBackup usersBackup) with
  | (.error err, storage) => (.error (.saveUserInformation err), { b with storage := storage }, w)
  | (.ok (), storage) => (.ok (), { b with storage := storage }, w)

/-- How a run that launches goroutines ends: the function returns, or the run
has a data race. Under the Go memory model, accesses of two goroutines to one
map, one of them a write, with no synchronisation between them are a data race;
for such a run the language defines no result (the run-time may stop the
process with `fatal error: concurrent map writes`, or entries may be lost). -/
inductive Run (α : Type) where
  | returned (a : α)
  | dataRace
  deriving DecidableEq, Repr

/-- Where a goroutine of `BackupPools` stands in its body, the call of
`backupSinglePool` and the send to `errCh`: each constructor names what the
goroutine does next. -/
inductive PoolTask where
  /-- the call of `GetUserPoolConfiguration` -/
  | describePool
  /-- the call of `ListUsers` -/
  | listUsers (poolConfig : DescribeUserPoolOutput)
  /-- in `for _, user := range users`: the call of `ListUserGroups` for the
  first of `users`, or, when none is left, the reading of the clock for the
  metadata -/
  | listGroups (poolConfig : DescribeUserPoolOutput) (users : List UserType)
      (usersBackup : UsersBackup)
  /-- the `SaveJSON` of `metadata.json` -/
  | saveMetadata (poolConfig : DescribeUserPoolOutput) (usersBackup : UsersBackup)
      (metadata : BackupMetadata)
  /-- the `SaveJSON` of `pool-config.json` -/
  | savePoolConfig (poolConfig : DescribeUserPoolOutput) (usersBackup : UsersBackup)
  /-- the `SaveJSON` of `users.json` -/
  | saveUsers (usersBackup : UsersBackup)
  /-- `backupSinglePool` has returned `err`: the send of the wrapped error to `errCh` -/
  | failed (err : PoolError)
  /-- nothing: the goroutine has ended (`wg.Done()`) -/
  | done
  deriving DecidableEq, Repr

/-- A goroutine of `BackupPools`: the pool id it was launched with, where it
stands, and whether it has accessed the map `Files` of the storage. -/
structure Goroutine where
  pool : String
  task : PoolTask
  accessed : Bool
  deriving DecidableEq, Repr

/-- What the goroutines of `BackupPools` share: the storage of the backupper,
the channel `errCh` (its buffer holds one error per pool, a send never blocks)
and the directory service. -/
structure Shared (σ : Type) where
  storage : Storage
  errCh : List PoolFailure
  w : σ

/-- One step of a goroutine: the next call on the directory, the reading of the
clock, the next `SaveJSON`, or the send to `errCh`. A `SaveJSON` accesses the
map when the encoding has succeeded. A goroutine that has ended does nothing. -/
def Goroutine.step {σ : Type} (env : BackupEnv σ) (pfx : String) (g : Goroutine)
    (s : Shared σ) : Goroutine × Shared σ :=
  match g.task with
  | .describePool =>
    match env.cognitoClient.GetUserPoolConfiguration g.pool s.w with
    | (.error err, w) => ({ g with task := .failed (.userPoolConfiguration err) }, { s with w := w })
    | (.ok poolConfig, w) => ({ g with task := .listUsers poolConfig }, { s with w := w })
  | .listUsers poolConfig =>
    match env.cognitoClient.ListUsers g.pool s.w with
    | (.error err, w) => ({ g with task := .failed (.userList err) }, { s with w := w })
    | (.ok users, w) =>
      let usersBackup : UsersBackup := { Users := [] }
      ({ g with task := .listGroups poolConfig users usersBackup }, { s with w := w })
  | .listGroups poolConfig (user :: users) usersBackup =>
    match env.cognitoClient.ListUserGroups g.pool user.Username s.w with
    | (.error err, w) => ({ g with task := .failed (.userGroups err) }, { s with w := w })
    | (.ok groups, w) =>
      let attributes : List (GoMap String) :=
        user.Attributes.map (fun attr => [("Name", attr.Name), ("Value", attr.Value)])
      let userInfo : UserInfo :=
        { Username := user.Username, Groups := groups, Attributes := attributes,
          MFASettings := none }
      let usersBackup : UsersBackup :=
        { usersBackup with Users := usersBackup.Users ++ [userInfo] }
      ({ g with task := .listGroups poolConfig users usersBackup }, { s with w := w })
  | .listGroups poolConfig [] usersBackup =>
    let metadata : BackupMetadata :=
      { Version := "1.0"
        Timestamp := env.Now s.w
        SourceAccount := ""
        SourceRegion := ""
        UserPoolID := g.pool
        BackupFiles := ["pool-config.json", "users.json"] }
    ({ g with task := .saveMetadata poolConfig usersBackup metadata }, s)
  | .saveMetadata poolConfig usersBackup metadata =>
    match s.storage.SaveJSON env.MarshalIndent pfx g.pool "metadata.json"
        (.backupMetadata metadata) with
    | (.error err, storage) =>
      ({ g with task := .failed (.saveMetadata err) }, { s with storage := storage })
    | (.ok (), storage) =>
      ({ g with task := .savePoolConfig poolConfig usersBackup, accessed := true },
        { s with storage := storage })
  | .savePoolConfig poolConfig usersBackup =>
    match s.storage.SaveJSON env.MarshalIndent pfx g.pool "pool-config.json"
        (.userPool poolConfig.UserPool) with
    | (.error err, storage) =>
      ({ g with task := .failed (.savePoolConfiguration err) }, { s with storage := storage })
    | (.ok (), storage) =>
      ({ g with task := .saveUsers usersBackup, accessed := true }, { s with storage := storage })
  | .saveUsers usersBackup =>
    match s.storage.SaveJSON env.MarshalIndent pfx g.pool "users.json"
        (.usersBackup usersBackup) with
    | (.error err, storage) =>
      ({ g with task := .failed (.saveUserInformation err) }, { s with storage := storage })
    | (.ok (), storage) =>
      ({ g with task := .done, accessed := true }, { s with storage := storage })
  | .failed err =>
    ({ g with task := .done }, { s with errCh := s.errCh ++ [{ pool := g.pool, cause := err }] })
  | .done => (g, s)

/-- A number of steps of one goroutine, the others standing still. -/
def Goroutine.steps {σ : Type} (env : BackupEnv σ) (pfx : String) :
    Nat → Goroutine → Shared σ → Goroutine × Shared σ
  | 0, g, s => (g, s)
  | n + 1, g, s =>
    match g.step env pfx s with
    | (g, s) => Goroutine.steps env pfx n g s

/-- A bound on the steps a goroutine has left, once its list of users is known. -/
def PoolTask.stepsLeft : PoolTask → Nat
  | .describePool => 0
  | .listUsers _ => 0
  | .listGroups _ users _ => users.length + 6
  | .saveMetadata _ _ _ => 5
  | .savePoolConfig _ _ => 4
  | .saveUsers _ => 3
  | .failed _ => 1
  | .done => 0

/-- A goroutine run to its end, the others standing still: after two steps its
list of users is known, and `stepsLeft` steps end it. -/
def Goroutine.finish {σ : Type} (env : BackupEnv σ) (pfx : String) (g : Goroutine)
    (s : Shared σ) : Goroutine × Shared σ :=
  match Goroutine.steps env pfx 2 g s with
  | (g, s) => Goroutine.steps env pfx g.task.stepsLeft g s

/-- One step of the goroutine at index `i` of the list; nothing when there is none. -/
def stepAt {σ : Type} (env : BackupEnv σ) (pfx : String) :
    Nat → List Goroutine → Shared σ → List Goroutine × Shared σ
  | _, [], s => ([], s)
  | 0, g :: gs, s =>
    match g.step env pfx s with
    | (g, s) => (g :: gs, s)
  | i + 1, g :: gs, s =>
    match stepAt env pfx i gs s with
    | (gs, s) => (g :: gs, s)

/-- The goroutines stepped as the scheduler picks them: `schedule` lists, step
by step, the index of the goroutine that moves. -/
def runSchedule {σ : Type} (env : BackupEnv σ) (pfx : String) :
    List Nat → List Goroutine → Shared σ → List Goroutine × Shared σ
  | [], gs, s => (gs, s)
  | i :: schedule, gs, s =>
    match stepAt env pfx i gs s with
    | (gs, s) => runSchedule env pfx schedule gs s

/-- The goroutines that have not ended are run to their end, one after the
other (`wg.Wait()` returns when all have ended). -/
def drain {σ : Type} (env : BackupEnv σ) (pfx : String) :
    List Goroutine → Shared σ → List Goroutine × Shared σ
  | [], s => ([], s)
  | g :: gs, s =>
    match g.finish env pfx s with
    | (g, s) =>
      match drain env pfx gs s with
      | (gs, s) => (g :: gs, s)

/-- The goroutines of `BackupPools` from launch to `wg.Wait()`: they take their
steps interleaved as `schedule` says, then those that have not ended are run to
their end. Every interleaving of the steps is the run of some `schedule`. -/
def runGoroutines {σ : Type} (env : BackupEnv σ) (pfx : String) (schedule : List Nat)
    (gs : List Goroutine) (s : Shared σ) : List Goroutine × Shared σ :=
  match runSchedule env pfx schedule gs s with
  | (gs, s) => drain env pfx gs s

/-- The goroutines that have accessed the map `Files`. No goroutine
synchronises with another one (each only sends to `errCh` and calls
`wg.Done()`), so the accesses of two of them are a data race. -/
def writers (gs : List Goroutine) : List String :=
  (gs.filter (fun g => g.accessed)).map (fun g => g.pool)

/-- `PoolBackupper.BackupPools`. `schedule` is the interleaving of the steps of
the goroutines, which the scheduler picks. Returns the error, the backupper and
the state of the directory service; when two goroutines have accessed the map
of the storage the run has a data race, and nothing is returned for it. -/
def PoolBackupper.BackupPools {σ : Type} (env : BackupEnv σ) (schedule : List Nat)
    (b : PoolBackupper) (w : σ) (pattern pfx : String) :
    Run (Except BackupError Unit × PoolBackupper × σ) :=
  match env.cognitoClient.ListUserPools pattern w with
  | (.error err, w) => .returned (.error (.userPoolList err), b, w)
  | (.ok pools, w) =>
    if pools.length = 0 then .returned (.error (.noUserPools pattern), b, w)
    else
      match runGoroutines env pfx schedule
          (pools.map (fun pool => { pool := pool.Id, task := .describePool, accessed := false }))
          { storage := b.storage, errCh := [], w := w } with
      | (gs, s) =>
        if (writers gs).length ≥ 2 then .dataRace
        else
          let errors := s.errCh
          if errors.length > 0 then
            .returned (.error (.errorsOccurred errors.length errors),
              { b with storage := s.storage }, s.w)
          else .returned (.ok (), { b with storage := s.storage }, s.w)

/-- The environment with the directory client keeping a log of its calls. -/
def BackupEnv.recording {σ : Type} (env : BackupEnv σ) : BackupEnv (σ × List CognitoCall) where
  cognitoClient := env.cognitoClient.recording
  MarshalIndent := env.MarshalIndent
  Now := fun st => env.Now st.1

/-! ## `internal/restore`: the files the restore reads -/

/-- The errors of the restore package met while a file is read and parsed. -/
inductive RestoreError where
  /-- failed to read pool config -/
  | readPoolConfig (e : String)
  /-- failed to unmarshal pool config -/
  | unmarshalPoolConfig (e : String)
  /-- failed to read users data -/
  | readUsersData (e : String)
  /-- failed to unmarshal users data -/
  | unmarshalUsersData (e : String)
  /-- failed to create user pool -/
  | createUserPool (e : String)
  /-- failed to create user -/
  | createUser (e : String)
  deriving DecidableEq, Repr

/-- The `ReadFile` method of a `storage.Storage`, keeping a log of the keys read. -/
def recordingReadFile {σ : Type} (ReadFile : String → σ → Except String (List Byte) × σ) :
    String → σ × List String → Except String (List Byte) × (σ × List String) :=
  fun key st => ((ReadFile key st.1).1, (ReadFile key st.1).2, st.2 ++ [key])

/-- `Pool.RestorePool`, lines 30-43: the pool configuration is read from the
storage and parsed. `ReadFile` is the method of `p.storage`; `Unmarshal` stands
for `json.Unmarshal` into a `types.PoolConfiguration`, a type the read does not
look into. -/
def Pool.readPoolConfig {σ PoolConfiguration : Type}
    (ReadFile : String → σ → Except String (List Byte) × σ)
    (Unmarshal : List Byte → Except String PoolConfiguration) (metadata : BackupMetadata)
    (w : σ) : Except RestoreError PoolConfiguration × σ :=
  let configPath := filepathJoin [metadata.UserPoolID, "pool-config.json"]
  match ReadFile configPath w with
  | (.error err, w) => (.error (.readPoolConfig err), w)
  | (.ok configData, w) =>
    match Unmarshal configData with
    | .error err => (.error (.unmarshalPoolConfig err), w)
    | .ok poolConfig => (.ok poolConfig, w)

/-- `Users.RestoreUsers`, lines 31-44: the users file is read from the storage
and parsed. `ReadFile` is the method of `u.storage`; `Unmarshal` stands for
`json.Unmarshal` into a `types.UsersBackup`. -/
def Users.readUsersBackup {σ : Type}
    (ReadFile : String → σ → Except String (List Byte) × σ)
    (Unmarshal : List Byte → Except String UsersBackup) (metadata : BackupMetadata)
    (w : σ) : Except RestoreError UsersBackup × σ :=
  let usersPath := filepathJoin [metadata.UserPoolID, "users.json"]
  match ReadFile usersPath w with
  | (.error err, w) => (.error (.readUsersData err), w)
  | (.ok userData, w) =>
    match Unmarshal userData with
    | .error err => (.error (.unmarshalUsersData err), w)
    | .ok usersBackup => (.ok usersBackup, w)

/-! ## A concrete directory, for evaluating the backup -/

/-- A directory with the pools `A`, `B` and `C`, one user in each; listing the
users of `B` fails. -/
def stubCognito : CognitoClient Unit where
  ListUserPools := fun _ _ =>
    (.ok [{ Id := "A", Name := "pool-a" }, { Id := "B", Name := "pool-b" },
      { Id := "C", Name := "pool-c" }], ())
  GetUserPoolConfiguration := fun userPoolID _ => (.ok { UserPool := userPoolID }, ())
  ListUsers := fun userPoolID _ =>
    if userPoolID = "B" then (.error "InternalErrorException", ())
    else (.ok [{ Username := "alice", Attributes := [{ Name := "email", Value := "a@b.c" }] }], ())
  ListUserGroups := fun _ _ _ => (.ok ["admins"], ())

/-- A directory in which no pool matches. -/
def emptyCognito : CognitoClient Unit where
  ListUserPools := fun _ _ => (.ok [], ())
  GetUserPoolConfiguration := fun userPoolID _ => (.ok { UserPool := userPoolID }, ())
  ListUsers := fun _ _ => (.ok [], ())
  ListUserGroups := fun _ _ _ => (.ok [], ())

/-- A small encoder standing for `json.MarshalIndent`: one tag byte and one
byte of content. -/
def stubMarshal : JSONValue → Except String (List Byte)
  | .backupMetadata metadata => .ok [1, byte metadata.BackupFiles.length]
  | .userPool userPool => .ok [2, byte userPool.length]
  | .usersBackup usersBackup => .ok [3, byte usersBackup.Users.length]

/-- The environment of the sample backup. -/
def stubEnv : BackupEnv Unit where
  cognitoClient := stubCognito
  MarshalIndent := stubMarshal
  Now := fun _ => "2024-01-01T00:00:00Z"

/-- The sample backup with a directory in which no pool matches. -/
def emptyEnv : BackupEnv Unit where
  cognitoClient := emptyCognito
  MarshalIndent := stubMarshal
  Now := fun _ => "2024-01-01T00:00:00Z"

/-- A backupper on a fresh local storage. -/
def stubBackupper : PoolBackupper := { storage := .localStorage NewLocalStorage }

/-- A storage reader that finds no file. -/
def noFile : String → Unit → Except String (List Byte) × Unit :=
  fun _ _ => (.error "no such file", ())

/-! ## Go `strings` pieces used by the commands and the storage -/

/-- `strings.HasPrefix`. -/
def HasPrefix (s pfx : String) : Bool := pfx.toList.isPrefixOf s.toList

/-- `strings.TrimPrefix`: `s` without the leading `pfx`, or `s` itself. -/
def TrimPrefix (s pfx : String) : String :=
  if HasPrefix s pfx then String.mk (s.toList.drop pfx.toList.length) else s

/-- `strings.HasSuffix`. -/
def HasSuffix (s sfx : String) : Bool := sfx.toList.isSuffixOf s.toList

/-- `strings.TrimSuffix`: `s` without the trailing `sfx`, or `s` itself. -/
def TrimSuffix (s sfx : String) : String :=
  if HasSuffix s sfx then String.mk (s.toList.take (s.toList.length - sfx.toList.length)) else s

/-- The step of `strings.SplitN` for a one-character separator: the text before
the first `sep` and the text after it (`strings.Index`, then the two slices);
`none` when `sep` does not occur. -/
def cut (sep : Char) : List Char → Option (List Char × List Char)
  | [] => none
  | c :: s => if c = sep then some ([], s) else (cut sep s).map (fun r => (c :: r.1, r.2))

/-- `strings.SplitN(s, sep, n)` for a one-character separator and `n ≥ 0`, on
the characters: no substring for `n = 0`, otherwise at most `n` substrings, the
last one being the unsplit remainder. -/
def splitN (sep : Char) : Nat → List Char → List (List Char)
  | 0, _ => []
  | 1, s => [s]
  | n + 2, s =>
    match cut sep s with
    | none => [s]
    | some (a, rest) => a :: splitN sep (n + 1) rest

/-- `strings.SplitN(s, sep, n)` for a one-character separator. -/
def SplitN (s : String) (sep : Char) (n : Nat) : List String :=
  (splitN sep n s.toList).map String.mk

/-! ## `cmd/utils.go` -/

/-- The `storageInfo` struct. -/
structure storageInfo where
  storageType : String
  bucket : String
  path : String
  deriving DecidableEq, Repr

/-- The errors of `parseStorageURI`, one constructor per message. -/
inductive URIError where
  /-- URI is not specified -/
  | notSpecified
  /-- invalid S3 URI format: %s (the text after the scheme) -/
  | invalidS3 (uri : String)
  /-- invalid URI format: %s -/
  | invalidFormat (uri : String)
  deriving DecidableEq, Repr

/-- `parseStorageURI`. -/
def parseStorageURI (uri : String) : Except URIError storageInfo :=
  if uri = "" then .error .notSpecified
  else if HasPrefix uri "s3://" then
    let uri := TrimPrefix uri "s3://"
    let parts := SplitN uri '/' 2
    if parts.length < 2 then .error (.invalidS3 uri)
    else
      let bucket := parts.getD 0 ""
      let key := parts.getD 1 ""
      .ok { storageType := "s3", bucket := bucket, path := key }
  else if HasPrefix uri "file://" then
    let path := TrimPrefix uri "file://"
    .ok { storageType := "file", bucket := "", path := path }
  else .error (.invalidFormat uri)

/-! ## The services behind the storage: the file system and the object store -/

/-- `filepath.Dir` with `/` as the separator (no volume names): the path up to
and including its last separator, cleaned. -/
def filepathDir (path : String) : String :=
  String.mk (filepathClean (path.toList.reverse.dropWhile (fun c => c != '/')).reverse)

/-- The calls of package `os` the local storage makes, over a file system with
state `φ`; an `Option String` is the error returned, `none` for nil. -/
structure OS (φ : Type) where
  ReadFile : String → φ → Except String (List Byte) × φ
  MkdirAll : String → φ → Option String × φ
  WriteFile : String → List Byte → φ → Option String × φ

/-- The calls on `s3.Client` the S3 storage makes. `GetObject` answers with the
error of the request, or with what `io.ReadAll` gets from the body returned:
its error, or the bytes. -/
structure S3API (φ : Type) where
  PutObject : (bucket key : String) → List Byte → φ → Option String × φ
  GetObject : (bucket key : String) → φ → Except String (Except String (List Byte)) × φ

/-- What a storage works with besides its own fields: the file system, the
object store and the key-management service (sharing the state `φ`), the AEAD,
the tar and gzip library, the clock of `time.Now()`, and `Bytes`, the content
of `buf` once the entries are written and both writers closed. -/
structure StorageEnv (φ : Type) where
  os : OS φ
  s3 : S3API φ
  kmsClient : KMSClient φ
  gcm : AESGCM
  tar : TarLib
  clock : Nat → String
  Bytes : List TarEntry → List Byte

/-! ## `local_storage.go`, `s3_storage.go`: reading, sealing and writing -/

/-- `LocalStorage.SetEncryptor`. -/
def LocalStorage.SetEncryptor (s : LocalStorage) (encryptor : KMSEncryptor) : LocalStorage :=
  { s with encryptor := some encryptor }

/-- `S3Storage.SetEncryptor`. -/
def S3Storage.SetEncryptor (s : S3Storage) (encryptor : KMSEncryptor) : S3Storage :=
  { s with encryptor := some encryptor }

/-- `LocalStorage.WriteFile`. -/
def LocalStorage.WriteFile {φ : Type} (env : StorageEnv φ) (d : φ) (key : String)
    (data : List Byte) : Except StorageError Unit × φ :=
  let dir := filepathDir key
  match env.os.MkdirAll dir d with
  | (some err, d) => (.error (.createDirectory err), d)
  | (none, d) =>
    match env.os.WriteFile key data d with
    | (some err, d) => (.error (.osWriteFile err), d)
    | (none, d) => (.ok (), d)

/-- `S3Storage.WriteFile`. -/
def S3Storage.WriteFile {φ : Type} (env : StorageEnv φ) (s : S3Storage) (d : φ) (key : String)
    (data : List Byte) : Except StorageError Unit × φ :=
  match env.s3.PutObject s.bucket key data d with
  | (some err, d) => (.error (.upload err), d)
  | (none, d) => (.ok (), d)

/-- `LocalStorage.ReadFile`. Returns the result, the storage (`Decrypt` assigns
the data key of its encryptor) and the state of the services. -/
def LocalStorage.ReadFile {φ : Type} (env : StorageEnv φ) (s : LocalStorage) (d : φ)
    (key : String) : Except StorageError (List Byte) × LocalStorage × φ :=
  match env.os.ReadFile key d with
  | (.error err, d) => (.error (.readFile err), s, d)
  | (.ok data, d) =>
    match s.encryptor with
    | some encryptor =>
      if isEncryptedData data then
        match DeserializeEncryptedData data with
        | .error err => (.error (.deserialize err), s, d)
        | .ok encryptedData =>
          match encryptor.Decrypt env.kmsClient env.gcm d encryptedData with
          | (.error err, encryptor, d) =>
            (.error (.decrypt err), { s with encryptor := some encryptor }, d)
          | (.ok decryptedData, encryptor, d) =>
            (.ok decryptedData, { s with encryptor := some encryptor }, d)
      else (.ok data, s, d)
    | none => (.ok data, s, d)

/-- `S3Storage.ReadFile`. -/
def S3Storage.ReadFile {φ : Type} (env : StorageEnv φ) (s : S3Storage) (d : φ)
    (key : String) : Except StorageError (List Byte) × S3Storage × φ :=
  match env.s3.GetObject s.bucket key d with
  | (.error err, d) => (.error (.download err), s, d)
  | (.ok (.error err), d) => (.error (.readFile err), s, d)
  | (.ok (.ok data), d) =>
    match s.encryptor with
    | some encryptor =>
      if isEncryptedData data then
        match DeserializeEncryptedData data with
        | .error err => (.error (.deserialize err), s, d)
        | .ok encryptedData =>
          match encryptor.Decrypt env.kmsClient env.gcm d encryptedData with
          | (.error err, encryptor, d) =>
            (.error (.decrypt err), { s with encryptor := some encryptor }, d)
          | (.ok decryptedData, encryptor, d) =>
            (.ok decryptedData, { s with encryptor := some encryptor }, d)
      else (.ok data, s, d)
    | none => (.ok data, s, d)

/-- `LocalStorage.CreateTarGz`. `order` is the order in which the `range` visits
the keys of `Files`, `entropy` feeds the `rand.Read` of `Encrypt`. -/
def LocalStorage.CreateTarGz {φ : Type} (env : StorageEnv φ) (order : List String)
    (entropy : List Byte) (s : LocalStorage) (d : φ) (path : String) :
    Except StorageError Unit × LocalStorage × φ :=
  let path := TrimPrefix path "file://"
  let path := TrimSuffix path ".tar.gz"
  match s.tarGz env.tar env.clock order with
  | .error err => (.error err, s, d)
  | .ok tw =>
  let targetFile := path ++ ".tar.gz"
  let targetDir := filepathDir targetFile
  match env.os.MkdirAll targetDir d with
  | (some err, d) => (.error (.createDirectory err), s, d)
  | (none, d) =>
  let finalData := env.Bytes tw
  match s.encryptor with
  | some encryptor =>
    match encryptor.Encrypt env.kmsClient env.gcm d entropy finalData with
    | (.error err, encryptor, d) => (.error (.encrypt err), { s with encryptor := some encryptor }, d)
    | (.ok encryptedData, encryptor, d) =>
      match SerializeEncryptedData encryptedData with
      | .error err => (.error (.serialize err), { s with encryptor := some encryptor }, d)
      | .ok serializedData =>
        match LocalStorage.WriteFile env d targetFile serializedData with
        | (r, d) => (r, { s with encryptor := some encryptor }, d)
  | none =>
    match LocalStorage.WriteFile env d targetFile finalData with
    | (r, d) => (r, s, d)

/-- `S3Storage.CreateTarGz`. -/
def S3Storage.CreateTarGz {φ : Type} (env : StorageEnv φ) (order : List String)
    (entropy : List Byte) (s : S3Storage) (d : φ) (pfx : String) :
    Except StorageError Unit × S3Storage × φ :=
  match s.tarGz env.tar env.clock order with
  | .error err => (.error err, s, d)
  | .ok tw =>
  let finalData := env.Bytes tw
  match s.encryptor with
  | some encryptor =>
    match encryptor.Encrypt env.kmsClient env.gcm d entropy finalData with
    | (.error err, encryptor, d) => (.error (.encrypt err), { s with encryptor := some encryptor }, d)
    | (.ok encryptedData, encryptor, d) =>
      match SerializeEncryptedData encryptedData with
      | .error err => (.error (.serialize err), { s with encryptor := some encryptor }, d)
      | .ok serializedData =>
        match S3Storage.WriteFile env s d pfx serializedData with
        | (r, d) => (r, { s with encryptor := some encryptor }, d)
  | none =>
    match S3Storage.WriteFile env s d pfx finalData with
    | (r, d) => (r, s, d)

/-- `Storage.SetEncryptor`, dispatched on the implementation. -/
def Storage.SetEncryptor (s : Storage) (encryptor : KMSEncryptor) : Storage :=
  match s with
  | .localStorage l => .localStorage (l.SetEncryptor encryptor)
  | .s3Storage l => .s3Storage (l.SetEncryptor encryptor)

/-- `Storage.ReadFile`, dispatched on the implementation. -/
def Storage.ReadFile {φ : Type} (env : StorageEnv φ) (s : Storage) (d : φ) (key : String) :
    Except StorageError (List Byte) × Storage × φ :=
  match s with
  | .localStorage l =>
    match l.ReadFile env d key with
    | (r, l, d) => (r, .localStorage l, d)
  | .s3Storage l =>
    match l.ReadFile env d key with
    | (r, l, d) => (r, .s3Storage l, d)

/-- `Storage.CreateTarGz`, dispatched on the implementation. -/
def Storage.CreateTarGz {φ : Type} (env : StorageEnv φ) (order : List String)
    (entropy : List Byte) (s : Storage) (d : φ) (pfx : String) :
    Except StorageError Unit × Storage × φ :=
  match s with
  | .localStorage l =>
    match l.CreateTarGz env order entropy d pfx with
    | (r, l, d) => (r, .localStorage l, d)
  | .s3Storage l =>
    match l.CreateTarGz env order entropy d pfx with
    | (r, l, d) => (r, .s3Storage l, d)

/-! ## A concrete file system, for evaluating the storage -/

/-- A call that changes the file system, the object store or asks the
key-management service, as logged by `memEnv`. -/
inductive StorageCall where
  | mkdirAll (dir : String)
  | writeFile (name : String) (data : List Byte)
  | putObject (bucket key : String) (data : List Byte)
  | kms (call : KMSCall)
  deriving DecidableEq, Repr

/-- The state of `memEnv`: the files (and objects, under `bucket/key`), and
the log of the calls made. -/
structure MemState where
  files : GoMap (List Byte)
  log : List StorageCall
  deriving DecidableEq, Repr

/-- A small encoding standing for the tar and gzip writers: for each entry the
length of its path, then its content. -/
def stubBytes (tw : List TarEntry) : List Byte :=
  tw.flatMap (fun e => byte e.header.Name.length :: e.content)

/-- An in-memory environment: files are kept in a map and read back as
written, the key-management service is `stubKMS`, the AEAD is `sumGCM`, the
tar library accepts everything. Every call that is not a read is logged. -/
def memEnv : StorageEnv MemState where
  os :=
    { ReadFile := fun name d =>
        match mapGet d.files name with
        | some data => (.ok data, d)
        | none => (.error "no such file or directory", d)
      MkdirAll := fun dir d => (none, { d with log := d.log ++ [.mkdirAll dir] })
      WriteFile := fun name data d =>
        (none, { files := mapSet d.files name data, log := d.log ++ [.writeFile name data] }) }
  s3 :=
    { PutObject := fun bucket key data d =>
        (none, { files := mapSet d.files (bucket ++ "/" ++ key) data,
                 log := d.log ++ [.putObject bucket key data] })
      GetObject := fun bucket key d =>
        match mapGet d.files (bucket ++ "/" ++ key) with
        | some data => (.ok (.ok data), d)
        | none => (.error "NoSuchKey", d) }
  kmsClient :=
    { Decrypt := fun input d =>
        ((stubKMS.Decrypt input ()).1, { d with log := d.log ++ [.kms (.decrypt input)] })
      GenerateDataKey := fun input d =>
        ((stubKMS.GenerateDataKey input ()).1,
          { d with log := d.log ++ [.kms (.generateDataKey input)] }) }
  gcm := sumGCM
  tar := okTar
  clock := fun _ => "2024-01-01T00:00:00Z"
  Bytes := stubBytes

/-- A local storage with one staged file and the stub encryptor installed. -/
def sealedStorage : LocalStorage :=
  { backupData := { Files := [("A", [{ Name := "metadata.json", Content := [1, 2] }])] }
    encryptor := some stubEncryptor }

/-- The sample sealed run: `CreateTarGz` on `sealedStorage` in an empty file system. -/
def sealedRun : Except StorageError Unit × LocalStorage × MemState :=
  LocalStorage.CreateTarGz memEnv ["A"] stubEntropy sealedStorage ⟨[], []⟩
    "file:///tmp/backup.tar.gz"

/-! ## `cmd/cli.go`, `internal/config/config.go` -/

/-- The flags of the `backup` command, the `Backup` field of `CLI`. -/
structure BackupFlags where
  Pattern : String
  URI : String
  KMSRegion : String
  KMSKeyID : String
  DataKeyPath : String
  deriving DecidableEq, Repr

/-- The flags of the `generate-datakey` command, the `GenerateDatakey` field of `CLI`. -/
structure GenerateDatakeyFlags where
  KMSRegion : String
  KMSKeyID : String
  Output : String
  Format : String
  Spec : String
  Test : Bool
  deriving DecidableEq, Repr

/-- The `CLI` struct, with the commands modelled here. -/
structure CLI where
  Backup : BackupFlags
  GenerateDatakey : GenerateDatakeyFlags
  deriving DecidableEq, Repr

/-- `config.KMSConfig`. -/
structure KMSConfig where
  Enabled : Bool
  KeyID : String
  Region : String
  DataKeyPath : String
  deriving DecidableEq, Repr

/-- `config.Config`. -/
structure Config where
  AWSRegion : String
  KMS : KMSConfig
  deriving DecidableEq, Repr

/-- `config.LoadConfig`; `Getenv` is `os.Getenv`. Its error is always nil. -/
def LoadConfig (Getenv : String → String) : Config :=
  let region := Getenv "AWS_REGION"
  let region := if region = "" then "ap-northeast-1" else region
  let kmsKeyID := Getenv "KMS_KEY_ID"
  let kmsRegion := Getenv "KMS_REGION"
  let kmsRegion := if kmsRegion = "" then region else kmsRegion
  let kmsEnabled := decide (kmsKeyID ≠ "")
  let dataKeyPath := Getenv "KMS_DATA_KEY_PATH"
  { AWSRegion := region
    KMS := { Enabled := kmsEnabled, KeyID := kmsKeyID, Region := kmsRegion,
             DataKeyPath := dataKeyPath } }

/-! ## `cmd/utils.go`, `cmd/backup.go` -/

/-- What the commands work with: the environment of the collection (its
directory service has the state `σ`), the environment of the storage (its
services have the state `φ`), the process environment, and the outcome of each
step that loads the AWS configuration or builds a client, as the error it
returns (`none` for nil). -/
structure CommandEnv (σ φ : Type) where
  backup : BackupEnv σ
  storage : StorageEnv φ
  Getenv : String → String
  /-- `config.ValidateAWSCredentials` -/
  ValidateAWSCredentials : Option String
  /-- `aws.NewCognitoClient` -/
  NewCognitoClient : Option String
  /-- `storage.NewS3Storage`, which asks the object store for the bucket location -/
  NewS3Storage : String → φ → Option String × φ
  /-- `aws.NewS3Client` -/
  NewS3Client : Option String
  /-- `aws.S3Client.GetObject` -/
  S3ClientGetObject : (bucket key : String) → φ → Except String (List Byte) × φ
  /-- `encryption.NewKMSEncryptor` -/
  NewKMSEncryptor : Option String

/-- The errors of `readDataKey`, one constructor per return. -/
inductive DataKeyError where
  /-- the error of `aws.NewS3Client`, returned as it is -/
  | s3Client (e : String)
  /-- the error of `client.GetObject`, returned as it is -/
  | getObject (e : String)
  /-- failed to read data key file -/
  | readFile (e : String)
  /-- invalid storage type: %s -/
  | invalidStorageType (storageType : String)
  deriving DecidableEq, Repr

/-- `readDataKey`. -/
def readDataKey {σ φ : Type} (env : CommandEnv σ φ) (info : storageInfo) (d : φ) :
    Except DataKeyError (List Byte) × φ :=
  if info.storageType = "s3" then
    match env.NewS3Client with
    | some err => (.error (.s3Client err), d)
    | none =>
      match env.S3ClientGetObject info.bucket info.path d with
      | (.error err, d) => (.error (.getObject err), d)
      | (.ok encryptedDataKey, d) => (.ok encryptedDataKey, d)
  else if info.storageType = "file" then
    match env.storage.os.ReadFile info.path d with
    | (.error err, d) => (.error (.readFile err), d)
    | (.ok data, d) => (.ok data, d)
  else (.error (.invalidStorageType info.storageType), d)

/-- The errors `Backup` returns, one constructor per return. -/
inductive CommandError where
  /-- the error of `parseStorageURI(cli.Backup.URI)`, returned as it is -/
  | uri (e : URIError)
  /-- the error of `config.ValidateAWSCredentials`, returned as it is -/
  | credentials (e : String)
  /-- failed to initialize Cognito client -/
  | cognitoClient (e : String)
  /-- failed to parse data key path -/
  | dataKeyPath (e : URIError)
  /-- failed to initialize S3 storage -/
  | s3Storage (e : String)
  /-- the `store` left nil by the `switch`, on which a method call panics; not
  reachable, `parseStorageURI` returns the types `s3` and `file` only
  (`Backup_setup_builds_storage`) -/
  | nilStorage
  /-- failed to read data key file -/
  | readDataKey (e : DataKeyError)
  /-- failed to initialize KMS encryption -/
  | kmsEncryption (e : String)
  /-- backup failed -/
  | backupFailed (e : BackupError)
  /-- failed to compress backup -/
  | compress (e : StorageError)
  deriving DecidableEq, Repr

/-- `backup.NewPoolBackupper`; the client is in the `BackupEnv`. -/
def NewPoolBackupper (storage : Storage) : PoolBackupper := { storage := storage }

/-- `Backup`, lines 29-107: the URIs are parsed, the clients and the
configuration loaded, the storage built and, when KMS is enabled, the data key
read and the encryptor installed. Returns the parsed URI and the storage. -/
def Backup.setup {σ φ : Type} (env : CommandEnv σ φ) (cli : CLI) (d : φ) :
    Except CommandError (storageInfo × Storage) × φ :=
  match parseStorageURI cli.Backup.URI with
  | .error err => (.error (.uri err), d)
  | .ok info =>
  match (if info.storageType = "s3" then env.ValidateAWSCredentials else none) with
  | some err => (.error (.credentials err), d)
  | none =>
  match env.NewCognitoClient with
  | some err => (.error (.cognitoClient err), d)
  | none =>
  let cfg := LoadConfig env.Getenv
  let cfg := if cli.Backup.KMSKeyID ≠ "" then
      { cfg with KMS := { cfg.KMS with Enabled := true, KeyID := cli.Backup.KMSKeyID } }
    else cfg
  let cfg := if cli.Backup.DataKeyPath ≠ "" then
      { cfg with KMS := { cfg.KMS with DataKeyPath := cli.Backup.DataKeyPath } }
    else cfg
  match parseStorageURI cli.Backup.DataKeyPath with
  | .error err => (.error (.dataKeyPath err), d)
  | .ok dataKeyInfo =>
  let built : Except CommandError Storage × φ :=
    if info.storageType = "s3" then
      match env.NewS3Storage info.bucket d with
      | (some err, d) => (.error (.s3Storage err), d)
      | (none, d) => (.ok (.s3Storage (NewS3Storage info.bucket)), d)
    else if info.storageType = "file" then (.ok (.localStorage NewLocalStorage), d)
    else (.error .nilStorage, d)
  match built with
  | (.error err, d) => (.error err, d)
  | (.ok store, d) =>
  if cfg.KMS.Enabled then
    match readDataKey env dataKeyInfo d with
    | (.error err, d) => (.error (.readDataKey err), d)
    | (.ok dataKey, d) =>
      match env.NewKMSEncryptor with
      | some err => (.error (.kmsEncryption err), d)
      | none =>
        let encryptor := (NewKMSEncryptor cfg.KMS.KeyID).SetDataKey (some dataKey)
        (.ok (info, store.SetEncryptor encryptor), d)
  else (.ok (info, store), d)

/-- `Backup`, lines 109-123: the pools are collected into the storage, then the
archive is built, sealed and written. Returns the error, the storage, and the
states of the directory and of the storage services. A run of `BackupPools`
with a data race is a run of `Backup` with a data race: nothing is defined of
what follows it. -/
def Backup.execute {σ φ : Type} (env : CommandEnv σ φ) (schedule : List Nat)
    (order : List String) (entropy : List Byte) (store : Storage) (w : σ) (d : φ)
    (pattern path : String) : Run (Except CommandError Unit × Storage × σ × φ) :=
  let backupper := NewPoolBackupper store
  match backupper.BackupPools env.backup schedule w pattern path with
  | .dataRace => .dataRace
  | .returned (.error err, backupper, w) =>
    .returned (.error (.backupFailed err), backupper.storage, w, d)
  | .returned (.ok (), backupper, w) =>
    match backupper.storage.CreateTarGz env.storage order entropy d path with
    | (.error err, store, d) => .returned (.error (.compress err), store, w, d)
    | (.ok (), store, d) => .returned (.ok (), store, w, d)

/-- `Backup`. `schedule` is the interleaving of the goroutines of `BackupPools`,
`order` the order in which `CreateTarGz` visits the staged pools, `entropy`
feeds `rand.Read`. The lines the command prints are left out. -/
def Backup {σ φ : Type} (env : CommandEnv σ φ) (schedule : List Nat)
    (order : List String) (entropy : List Byte) (cli : CLI) (w : σ) (d : φ) :
    Run (Except CommandError Unit × σ × φ) :=
  match Backup.setup env cli d with
  | (.error err, d) => .returned (.error err, w, d)
  | (.ok (info, store), d) =>
    match Backup.execute env schedule order entropy store w d cli.Backup.Pattern info.path with
    | .dataRace => .dataRace
    | .returned (r, _, w, d) => .returned (r, w, d)

/-- The environment of the sample commands: the sample directory, the
in-memory storage services, no environment variable set, every client built. -/
def stubCommandEnv : CommandEnv Unit MemState where
  backup := stubEnv
  storage := memEnv
  Getenv := fun _ => ""
  ValidateAWSCredentials := none
  NewCognitoClient := none
  NewS3Storage := fun _ d => (none, d)
  NewS3Client := none
  S3ClientGetObject := fun bucket key d =>
    match mapGet d.files (bucket ++ "/" ++ key) with
    | some data => (.ok data, d)
    | none => (.error "NoSuchKey", d)
  NewKMSEncryptor := none

/-- The flags of a backup to a local archive with no KMS key and no data key path. -/
def plainBackupCLI : CLI where
  Backup := { Pattern := ".*", URI := "file:///tmp/backup.tar.gz", KMSRegion := "ap-northeast-1",
              KMSKeyID := "", DataKeyPath := "" }
  GenerateDatakey := { KMSRegion := "ap-northeast-1", KMSKeyID := "", Output := "",
                       Format := "json", Spec := "AES_256", Test := false }

/-! ## Run-time panics, JSON values and `types.PoolConfiguration` -/

/-- A run-time panic, with its message. -/
structure Panic where
  msg : String
  deriving DecidableEq, Repr

/-- How a call of a Go function that returns an `error` ends: it returns nil,
it returns an error, or it panics. -/
inductive Ending (ε : Type) where
  | nil
  | error (err : ε)
  | panic (p : Panic)
  deriving DecidableEq, Repr

/-- What `json.Unmarshal` stores in an `interface{}`: nil, a `bool`, a number
(kept as an integer), a `string`, a `[]interface{}` or a `map[string]interface{}`. -/
inductive JSON where
  | null
  | bool (b : Bool)
  | number (n : Int)
  | string (s : String)
  | array (elems : List JSON)
  | object (fields : List (String × JSON))

/-- `types.PoolConfiguration`; `none` is a nil map or slice. -/
structure PoolConfiguration where
  Policies : Option (GoMap JSON)
  MFAConfiguration : Option (GoMap JSON)
  CustomAttributes : Option (List JSON)
  Triggers : Option (GoMap JSON)

/-- The name of the dynamic type of an interface value, as the run-time prints
it (`none`: the key is absent, the value is the nil interface). -/
def dynamicType : Option JSON → String
  | none => "nil"
  | some .null => "nil"
  | some (.bool _) => "bool"
  | some (.number _) => "float64"
  | some (.string _) => "string"
  | some (.array _) => "[]interface {}"
  | some (.object _) => "map[string]interface {}"

/-- The panic of a failed type assertion `v.(T)`. -/
def conversionPanic (v : Option JSON) (T : String) : Panic :=
  ⟨"interface conversion: interface {} is " ++ dynamicType v ++ ", not " ++ T⟩

/-- The type assertion `v.(map[string]interface{})` on a map element or a slice
element. -/
def assertObject : Option JSON → Except Panic (GoMap JSON)
  | some (.object fields) => .ok fields
  | v => .error (conversionPanic v "map[string]interface {}")

/-- The type assertion `v.(string)`. -/
def assertString : Option JSON → Except Panic String
  | some (.string s) => .ok s
  | v => .error (conversionPanic v "string")

/-- The type assertion `v.(bool)`. -/
def assertBool : Option JSON → Except Panic Bool
  | some (.bool b) => .ok b
  | v => .error (conversionPanic v "bool")

/-- The type assertion `v.(float64)`. -/
def assertFloat64 : Option JSON → Except Panic Int
  | some (.number n) => .ok n
  | v => .error (conversionPanic v "float64")

/-- The checked type assertion `s, ok := v.(string)`: `none` when `ok` is false. -/
def stringOk : Option JSON → Option String
  | some (.string s) => some s
  | _ => none

/-! ## `internal/aws/cognito.go`: the conversions and the calls of the restore -/

/-- The SDK's `types.PasswordPolicyType`, with the fields the source sets;
`MinimumLength` holds the number read (its conversion to `int32` is not modelled). -/
structure PasswordPolicyType where
  MinimumLength : Int
  RequireUppercase : Bool
  RequireLowercase : Bool
  RequireNumbers : Bool
  RequireSymbols : Bool
  deriving DecidableEq, Repr

/-- The SDK's `types.UserPoolPolicyType`. -/
structure UserPoolPolicyType where
  PasswordPolicy : Option PasswordPolicyType
  deriving DecidableEq, Repr

/-- The SDK's `types.SchemaAttributeType`, with the fields the source sets. -/
structure SchemaAttributeType where
  Name : String
  AttributeDataType : String
  Mutable : Bool
  Required : Bool
  deriving DecidableEq, Repr

/-- The SDK's `types.LambdaConfigType`, with the fields the source sets. -/
structure LambdaConfigType where
  PreSignUp : Option String
  PostConfirmation : Option String
  PreAuthentication : Option String
  PostAuthentication : Option String
  deriving DecidableEq, Repr

/-- `toPasswordPolicy`. -/
def toPasswordPolicy (policy : Option (GoMap JSON)) : Except Panic (Option PasswordPolicyType) :=
  match policy with
  | none => .ok none
  | some policy => do
    let minimumLength ← assertFloat64 (mapGet policy "minimum_length")
    let requireUppercase ← assertBool (mapGet policy "require_uppercase")
    let requireLowercase ← assertBool (mapGet policy "require_lowercase")
    let requireNumbers ← assertBool (mapGet policy "require_numbers")
    let requireSymbols ← assertBool (mapGet policy "require_symbols")
    return some
      { MinimumLength := minimumLength
        RequireUppercase := requireUppercase
        RequireLowercase := requireLowercase
        RequireNumbers := requireNumbers
        RequireSymbols := requireSymbols }

/-- `ToPoolPolicies`. -/
def ToPoolPolicies (policies : Option (GoMap JSON)) : Except Panic (Option UserPoolPolicyType) :=
  match policies with
  | none => .ok none
  | some policies => do
    let policy ← assertObject (mapGet policies "password_policy")
    let passwordPolicy ← toPasswordPolicy (some policy)
    return some { PasswordPolicy := passwordPolicy }

/-- `ToMFAConfig`; the result is the SDK's `types.UserPoolMfaType`, a string. -/
def ToMFAConfig (config : Option (GoMap JSON)) : Except Panic String :=
  match config with
  | none => .ok "OFF"
  | some config => do
    let mfaType ← assertString (mapGet config "mfa_type")
    return if mfaType = "OFF" then "OFF"
      else if mfaType = "ON" then "ON"
      else if mfaType = "OPTIONAL" then "OPTIONAL"
      else "OFF"

/-- The loop of `ToSchemaAttributes`, `for _, attr := range attributes`. -/
def schemaAttrs : List JSON → Except Panic (List SchemaAttributeType)
  | [] => .ok []
  | attr :: attributes => do
    let attrMap ← assertObject (some attr)
    let name ← assertString (mapGet attrMap "name")
    let attrType ← assertString (mapGet attrMap "type")
    let mutable ← assertBool (mapGet attrMap "mutable")
    let required ← assertBool (mapGet attrMap "required")
    let rest ← schemaAttrs attributes
    return { Name := name, AttributeDataType := attrType, Mutable := mutable,
             Required := required } :: rest

/-- `ToSchemaAttributes`; `none` is the nil slice, also returned when nothing
was appended. -/
def ToSchemaAttributes (attributes : Option (List JSON)) :
    Except Panic (Option (List SchemaAttributeType)) :=
  match attributes with
  | none => .ok none
  | some attributes => do
    let converted ← schemaAttrs attributes
    return if converted = [] then none else some converted

/-- `ToLambdaConfig`: its type assertions are the checked ones. -/
def ToLambdaConfig (config : Option (GoMap JSON)) : Option LambdaConfigType :=
  match config with
  | none => none
  | some config =>
    some
      { PreSignUp := stringOk (mapGet config "pre_sign_up")
        PostConfirmation := stringOk (mapGet config "post_confirmation")
        PreAuthentication := stringOk (mapGet config "pre_authentication")
        PostAuthentication := stringOk (mapGet config "post_authentication") }

/-- The fields of `cognitoidentityprovider.CreateUserPoolInput` the source sets. -/
structure CreateUserPoolInput where
  PoolName : String
  Policies : Option UserPoolPolicyType
  MfaConfiguration : String
  Schema : Option (List SchemaAttributeType)
  LambdaConfig : Option LambdaConfigType
  deriving DecidableEq, Repr

/-- The fields of `cognitoidentityprovider.AdminCreateUserInput` the source sets. -/
structure AdminCreateUserInput where
  UserPoolId : String
  Username : String
  UserAttributes : List AttributeType
  MessageAction : String
  DesiredDeliveryMediums : List String
  deriving DecidableEq, Repr

/-- The fields of `cognitoidentityprovider.AdminAddUserToGroupInput`. -/
structure AdminAddUserToGroupInput where
  UserPoolId : String
  Username : String
  GroupName : String
  deriving DecidableEq, Repr

/-- The methods of `aws.CognitoClient` the restore calls, over a directory
service with state `σ`. `CreateUserPool` answers with the id of the pool created. -/
structure CognitoRestoreClient (σ : Type) where
  CreateUserPool : CreateUserPoolInput → σ → Except String String × σ
  CreateUser : AdminCreateUserInput → σ → Except String Unit × σ
  AddUserToGroup : AdminAddUserToGroupInput → σ → Except String Unit × σ

/-! ## `internal/restore`, `cmd/restore.go` -/

/-- What the restore works with: the directory client, the `ReadFile` method
of the storage, and `json.Unmarshal` into each of the three types. The
directory and the storage share the state `σ`. -/
structure RestoreEnv (σ : Type) where
  cognito : CognitoRestoreClient σ
  ReadFile : String → σ → Except String (List Byte) × σ
  UnmarshalMetadata : List Byte → Except String BackupMetadata
  UnmarshalPoolConfig : List Byte → Except String PoolConfiguration
  UnmarshalUsers : List Byte → Except String UsersBackup

/-- The lines the restore prints, one constructor per `Printf` or `Println` of
`cmd/restore.go` (lines 99-143) and of package `restore`. -/
inductive RestoreLine where
  /-- Backups to restore: %d -/
  | backupsToRestore (n : Nat)
  /-- Warning: Failed to read metadata (%s): %v -/
  | warnReadMetadata (backupPath err : String)
  /-- Warning: Failed to parse metadata (%s): %v -/
  | warnParseMetadata (backupPath err : String)
  /-- Starting restoration of user pool %s... -/
  | starting (userPoolID : String)
  /-- Successfully restored user pool: %s -/
  | restoredPool (id : String)
  /-- Warning: Failed to restore user pool (%s): %v -/
  | warnRestorePool (userPoolID : String) (err : RestoreError)
  /-- Warning: failed to add user %s to group %s: %v -/
  | warnAddUserToGroup (username groupName err : String)
  /-- Warning: failed to restore user %s: %v -/
  | warnRestoreUser (username : String) (err : RestoreError)
  /-- Warning: Failed to restore user information (%s): %v -/
  | warnRestoreUsers (userPoolID : String) (err : RestoreError)
  /-- Restoration of user pool %s completed -/
  | completed (userPoolID : String)
  /-- Restoration completed -/
  | restorationCompleted
  deriving DecidableEq, Repr

/-- `Pool.RestorePool`. Returns how the call ends, the lines printed and the
state of the services. -/
def Pool.RestorePool {σ : Type} (env : RestoreEnv σ) (metadata : BackupMetadata) (w : σ) :
    Ending RestoreError × List RestoreLine × σ :=
  match Pool.readPoolConfig env.ReadFile env.UnmarshalPoolConfig metadata w with
  | (.error err, w) => (.error err, [], w)
  | (.ok poolConfig, w) =>
  match ToPoolPolicies poolConfig.Policies with
  | .error p => (.panic p, [], w)
  | .ok policies =>
  match ToMFAConfig poolConfig.MFAConfiguration with
  | .error p => (.panic p, [], w)
  | .ok mfaConfiguration =>
  match ToSchemaAttributes poolConfig.CustomAttributes with
  | .error p => (.panic p, [], w)
  | .ok schema =>
  let input : CreateUserPoolInput :=
    { PoolName := metadata.UserPoolID
      Policies := policies
      MfaConfiguration := mfaConfiguration
      Schema := schema
      LambdaConfig := ToLambdaConfig poolConfig.Triggers }
  match env.cognito.CreateUserPool input w with
  | (.error err, w) => (.error (.createUserPool err), [], w)
  | (.ok id, w) => (.nil, [.restoredPool id], w)

/-- The first loop of `restoreUser`, `for _, attr := range user.Attributes`:
both type assertions panic on an attribute map without the key. -/
def Users.userAttrs : List (GoMap String) → Except Panic (List AttributeType)
  | [] => .ok []
  | attr :: attributes =>
    match mapGet attr "Name" with
    | none => .error ⟨"interface conversion: interface {} is nil, not string"⟩
    | some name =>
      match mapGet attr "Value" with
      | none => .error ⟨"interface conversion: interface {} is nil, not string"⟩
      | some value =>
        match Users.userAttrs attributes with
        | .error p => .error p
        | .ok rest => .ok ({ Name := name, Value := value } :: rest)

/-- The second loop of `restoreUser`, `for _, groupName := range user.Groups`:
an error of `AddUserToGroup` is printed and the loop goes on. -/
def Users.addToGroups {σ : Type} (env : RestoreEnv σ) (userPoolID username : String) :
    List String → σ → List RestoreLine × σ
  | [], w => ([], w)
  | groupName :: groups, w =>
    match env.cognito.AddUserToGroup
        { UserPoolId := userPoolID, Username := username, GroupName := groupName } w with
    | (.error err, w) =>
      match Users.addToGroups env userPoolID username groups w with
      | (out, w) => (.warnAddUserToGroup username groupName err :: out, w)
    | (.ok (), w) => Users.addToGroups env userPoolID username groups w

/-- `Users.restoreUser`. -/
def Users.restoreUser {σ : Type} (env : RestoreEnv σ) (userPoolID : String) (user : UserInfo)
    (w : σ) : Ending RestoreError × List RestoreLine × σ :=
  match Users.userAttrs user.Attributes with
  | .error p => (.panic p, [], w)
  | .ok userAttrs =>
  let input : AdminCreateUserInput :=
    { UserPoolId := userPoolID
      Username := user.Username
      UserAttributes := userAttrs
      MessageAction := "SUPPRESS"
      DesiredDeliveryMediums := ["EMAIL"] }
  match env.cognito.CreateUser input w with
  | (.error err, w) => (.error (.createUser err), [], w)
  | (.ok (), w) =>
    match Users.addToGroups env userPoolID user.Username user.Groups w with
    | (out, w) => (.nil, out, w)

/-- The loop of `RestoreUsers`, `for _, user := range usersBackup.Users`: an
error of `restoreUser` is printed and the loop goes on; a panic ends it. -/
def Users.restoreEach {σ : Type} (env : RestoreEnv σ) (userPoolID : String) :
    List UserInfo → σ → Ending RestoreError × List RestoreLine × σ
  | [], w => (.nil, [], w)
  | user :: users, w =>
    match Users.restoreUser env userPoolID user w with
    | (.panic p, out, w) => (.panic p, out, w)
    | (.error err, out, w) =>
      match Users.restoreEach env userPoolID users w with
      | (r, out2, w) => (r, out ++ .warnRestoreUser user.Username err :: out2, w)
    | (.nil, out, w) =>
      match Users.restoreEach env userPoolID users w with
      | (r, out2, w) => (r, out ++ out2, w)

/-- `Users.RestoreUsers`. -/
def Users.RestoreUsers {σ : Type} (env : RestoreEnv σ) (metadata : BackupMetadata) (w : σ) :
    Ending RestoreError × List RestoreLine × σ :=
  match Users.readUsersBackup env.ReadFile env.UnmarshalUsers metadata w with
  | (.error err, w) => (.error err, [], w)
  | (.ok usersBackup, w) => Users.restoreEach env metadata.UserPoolID usersBackup.Users w

/-- The loop of `Restore`, `for _, backupPath := range backups`: each failure is
printed as a warning and the loop goes on to the next location; a panic ends
it. Returns the panic, if any, the lines printed and the state of the services. -/
def Restore.restoreEach {σ : Type} (env : RestoreEnv σ) :
    List String → σ → Option Panic × List RestoreLine × σ
  | [], w => (none, [], w)
  | backupPath :: backups, w =>
    let metadataPath := filepathJoin [backupPath, "metadata.json"]
    match env.ReadFile metadataPath w with
    | (.error err, w) =>
      match Restore.restoreEach env backups w with
      | (r, out, w) => (r, .warnReadMetadata backupPath err :: out, w)
    | (.ok metadataData, w) =>
    match env.UnmarshalMetadata metadataData with
    | .error err =>
      match Restore.restoreEach env backups w with
      | (r, out, w) => (r, .warnParseMetadata backupPath err :: out, w)
    | .ok metadata =>
    match Pool.RestorePool env metadata w with
    | (.panic p, out, w) => (some p, .starting metadata.UserPoolID :: out, w)
    | (.error err, out, w) =>
      match Restore.restoreEach env backups w with
      | (r, out2, w) =>
        (r, .starting metadata.UserPoolID :: out ++
          .warnRestorePool metadata.UserPoolID err :: out2, w)
    | (.nil, out, w) =>
    match Users.RestoreUsers env metadata w with
    | (.panic p, out1, w) => (some p, .starting metadata.UserPoolID :: out ++ out1, w)
    | (.error err, out1, w) =>
      match Restore.restoreEach env backups w with
      | (r, out2, w) =>
        (r, .starting metadata.UserPoolID :: out ++ out1 ++
          .warnRestoreUsers metadata.UserPoolID err :: out2, w)
    | (.nil, out1, w) =>
      match Restore.restoreEach env backups w with
      | (r, out2, w) =>
        (r, .starting metadata.UserPoolID :: out ++ out1 ++
          .completed metadata.UserPoolID :: out2, w)

/-- The error of `Restore`, lines 99-143: no backups found matching the
specified pattern. -/
inductive RestoreCommandError where
  | noBackups
  deriving DecidableEq, Repr

/-- `Restore`, lines 99-143: the restore of the locations `backups` that lines
13-97 have listed, through the storage they have built. -/
def Restore.run {σ : Type} (env : RestoreEnv σ) (backups : List String) (w : σ) :
    Ending RestoreCommandError × List RestoreLine × σ :=
  if backups.length = 0 then (.error .noBackups, [], w)
  else
    match Restore.restoreEach env backups w with
    | (some p, out, w) => (.panic p, .backupsToRestore backups.length :: out, w)
    | (none, out, w) =>
      (.nil, .backupsToRestore backups.length :: out ++ [.restorationCompleted], w)

/-! ## A concrete environment, for evaluating the restore -/

/-- A call the restore makes on the storage or on the directory, as logged by
`restoreStub`. -/
inductive RestoreCall where
  | readFile (key : String)
  | createUserPool (input : CreateUserPoolInput)
  | createUser (input : AdminCreateUserInput)
  | addUserToGroup (input : AdminAddUserToGroupInput)
  deriving DecidableEq, Repr

/-- The metadata of the sample backup of a pool. -/
def stubMetadata (userPoolID : String) : BackupMetadata :=
  { Version := "1.0", Timestamp := "2024-01-01T00:00:00Z", SourceAccount := "",
    SourceRegion := "", UserPoolID := userPoolID,
    BackupFiles := ["pool-config.json", "users.json"] }

/-- A member with one well-formed attribute. -/
def stubUser (username : String) (groups : List String) : UserInfo :=
  { Username := username, Attributes := [[("Name", "email"), ("Value", "a@b.c")]],
    Groups := groups, MFASettings := none }

/-- A restore environment over the files `files`; its state is the log of the
calls made. A file holds one tag byte, which the decoders stand for: `1` and
`2` are the metadata of the pools `A` and `B`; `10` is a pool configuration
whose `policies` object is empty, `11` one with no field set; `20` is a member
list `alice`, `bob`, `carol` in which an attribute of `bob` has no `Name`, `21`
the list `alice`, `carol`; any other content does not parse. The directory
creates every pool, refuses the member `carol` and the group `staff`. -/
def restoreStub (files : GoMap (List Byte)) : RestoreEnv (List RestoreCall) where
  cognito :=
    { CreateUserPool := fun input log =>
        (.ok ("new-" ++ input.PoolName), log ++ [.createUserPool input])
      CreateUser := fun input log =>
        (if input.Username = "carol" then .error "failed to create user: UsernameExistsException"
          else .ok (), log ++ [.createUser input])
      AddUserToGroup := fun input log =>
        (if input.GroupName = "staff" then
            .error "failed to add user to group: ResourceNotFoundException"
          else .ok (), log ++ [.addUserToGroup input]) }
  ReadFile := fun key log =>
    (match mapGet files key with
      | some data => .ok data
      | none => .error "NoSuchKey", log ++ [.readFile key])
  UnmarshalMetadata := fun data =>
    if data = [1] then .ok (stubMetadata "A")
    else if data = [2] then .ok (stubMetadata "B")
    else .error "invalid character"
  UnmarshalPoolConfig := fun data =>
    if data = [10] then
      .ok { Policies := some [], MFAConfiguration := none, CustomAttributes := none,
            Triggers := none }
    else if data = [11] then
      .ok { Policies := none, MFAConfiguration := none, CustomAttributes := none,
            Triggers := none }
    else .error "invalid character"
  UnmarshalUsers := fun data =>
    if data = [20] then
      .ok { Users := [stubUser "alice" ["admins", "staff", "ops"],
                      { Username := "bob", Attributes := [[("Value", "b@b.c")]],
                        Groups := ["admins"], MFASettings := none },
                      stubUser "carol" ["admins"]] }
    else if data = [21] then
      .ok { Users := [stubUser "carol" ["admins"], stubUser "alice" ["admins", "staff", "ops"]] }
    else .error "invalid character"

/-- Two locations: the pool configuration of the first has a `policies` object
without `password_policy`; the second is complete. -/
def filesBadPolicies : GoMap (List Byte) :=
  [("L1/metadata.json", [1]), ("A/pool-config.json", [10]), ("A/users.json", [21]),
   ("L2/metadata.json", [2]), ("B/pool-config.json", [11]), ("B/users.json", [21])]

/-- Two locations: the `metadata.json` of the first is corrupted; the second is
complete. -/
def filesBadMetadata : GoMap (List Byte) :=
  [("L1/metadata.json", [99]), ("A/pool-config.json", [11]), ("A/users.json", [21]),
   ("L2/metadata.json", [2]), ("B/pool-config.json", [11]), ("B/users.json", [21])]

/-- One location whose member list holds a member with an attribute without `Name`. -/
def filesBadMember : GoMap (List Byte) :=
  [("L2/metadata.json", [2]), ("B/pool-config.json", [11]), ("B/users.json", [20])]

/-! ## `encoding/base64`, and text as bytes -/

/-- The alphabet of `base64.StdEncoding`. -/
def base64Alphabet : List Char :=
  "ABCDEFGHIJKLMNOPQRSTUVWXYZabcdefghijklmnopqrstuvwxyz0123456789+/".toList

/-- The character of a six-bit value. -/
def base64Char (n : Nat) : Char := base64Alphabet.getD n '='

/-- `base64.StdEncoding.EncodeToString`, on the characters: four characters for
each group of three bytes, the last group padded with `=`. -/
def base64Encode : List Byte → List Char
  | [] => []
  | [a] => [base64Char (a.val / 4), base64Char (a.val % 4 * 16), '=', '=']
  | [a, b] =>
    [base64Char (a.val / 4), base64Char (a.val % 4 * 16 + b.val / 16),
     base64Char (b.val % 16 * 4), '=']
  | a :: b :: c :: rest =>
    base64Char (a.val / 4) :: base64Char (a.val % 4 * 16 + b.val / 16) ::
      base64Char (b.val % 16 * 4 + c.val / 64) :: base64Char (c.val % 64) :: base64Encode rest

/-- `base64.StdEncoding.EncodeToString`. -/
def EncodeToString (src : List Byte) : String := String.mk (base64Encode src)

/-- The conversion `[]byte(s)` of a text: the UTF-8 encoding of its characters. -/
def stringBytes (s : String) : List Byte :=
  s.toList.flatMap (fun c => (String.utf8EncodeChar c).map (fun b => b.val))

/-! ## `cmd/generate_data_key.go` -/

/-- The `DataKeyResult` struct. -/
structure DataKeyResult where
  KMSKeyID : String
  EncryptedDataKey : String
  PlaintextDataKey : String
  KeySpec : String
  GeneratedAt : String
  deriving DecidableEq, Repr

/-- The errors of `GenerateDatakey` and `generateTestDatakey`, one constructor
per return. -/
inductive GenerateError where
  /-- the error of `config.ValidateAWSCredentials`, returned as it is -/
  | credentials (e : String)
  /-- failed to initialize KMSEncryptor -/
  | kmsEncryptor (e : String)
  /-- failed to generate data key -/
  | generateDataKey (e : EncryptError)
  /-- failed to generate test data key -/
  | testDataKey (e : IOError)
  /-- failed to generate test encrypted key -/
  | testEncryptedKey (e : IOError)
  /-- failed to convert to JSON -/
  | convertJSON (e : String)
  /-- failed to write file -/
  | writeFile (e : String)
  deriving DecidableEq, Repr

/-- What `generate-datakey` works with: the key-management service and the file
system (in `storage`), the steps that load the AWS configuration, as the error
each returns, the clock (`Now` is `time.Now().UTC().Format(time.RFC3339)`), and
`json.MarshalIndent(result, "", "  ")`. -/
structure GenerateEnv (φ : Type) where
  storage : StorageEnv φ
  ValidateAWSCredentials : Option String
  NewKMSEncryptor : Option String
  Now : String
  MarshalIndent : DataKeyResult → Except String String

/-- The end of both commands: the output text is written to the file
`cli.GenerateDatakey.Output`, or printed when no file is given. `saved` is the
line printed after the file is written. Returns the error, the text printed and
the state of the services. -/
def writeOutput {φ : Type} (env : GenerateEnv φ) (cli : CLI) (saved output : String) (d : φ) :
    Except GenerateError Unit × List String × φ :=
  if cli.GenerateDatakey.Output ≠ "" then
    match env.storage.os.WriteFile cli.GenerateDatakey.Output (stringBytes output) d with
    | (some err, d) => (.error (.writeFile err), [], d)
    | (none, d) => (.ok (), [saved ++ cli.GenerateDatakey.Output ++ "\n"], d)
  else (.ok (), [output], d)

/-- `generateTestDatakey`. `entropy` feeds the two `rand.Read`. The plaintext
key is zeroed after the output text is composed and before it is written. -/
def generateTestDatakey {φ : Type} (env : GenerateEnv φ) (entropy : List Byte) (cli : CLI)
    (d : φ) : Except GenerateError Unit × List String × φ :=
  match randRead entropy 32 with
  | .error err => (.error (.testDataKey err), [], d)
  | .ok plaintextKey =>
  match randRead (entropy.drop 32) 128 with
  | .error err => (.error (.testEncryptedKey err), [], d)
  | .ok encryptedKey =>
  let result : DataKeyResult :=
    { KMSKeyID := cli.GenerateDatakey.KMSKeyID ++ "-TEST"
      EncryptedDataKey := EncodeToString encryptedKey
      PlaintextDataKey := ""
      KeySpec := cli.GenerateDatakey.Spec
      GeneratedAt := env.Now }
  let composed : Except GenerateError String :=
    if cli.GenerateDatakey.Format = "json" then
      let result := { result with PlaintextDataKey := EncodeToString plaintextKey }
      match env.MarshalIndent result with
      | .error err => .error (.convertJSON err)
      | .ok jsonData => .ok jsonData
    else if cli.GenerateDatakey.Format = "base64" then
      .ok ("# Test Encrypted Data Key (Base64)\n" ++ EncodeToString encryptedKey ++
        "\n\n# Test Plaintext Data Key (Base64)\n" ++ EncodeToString plaintextKey ++ "\n")
    else .ok ""
  match composed with
  | .error err => (.error err, [], d)
  | .ok output => writeOutput env cli "Test data key saved to " output d

/-- `GenerateDatakey`. The plaintext key is zeroed after the output text is
composed and before it is written. -/
def GenerateDatakey {φ : Type} (env : GenerateEnv φ) (entropy : List Byte) (cli : CLI) (d : φ) :
    Except GenerateError Unit × List String × φ :=
  if cli.GenerateDatakey.Test then generateTestDatakey env entropy cli d
  else
  match env.ValidateAWSCredentials with
  | some err => (.error (.credentials err), [], d)
  | none =>
  match env.NewKMSEncryptor with
  | some err => (.error (.kmsEncryptor err), [], d)
  | none =>
  let encryptor := NewKMSEncryptor cli.GenerateDatakey.KMSKeyID
  match encryptor.GenerateDataKey env.storage.kmsClient d with
  | (.error err, d) => (.error (.generateDataKey err), [], d)
  | (.ok dataKeyInfo, d) =>
  let result : DataKeyResult :=
    { KMSKeyID := cli.GenerateDatakey.KMSKeyID
      EncryptedDataKey := EncodeToString dataKeyInfo.CiphertextBlob.bytes
      PlaintextDataKey := ""
      KeySpec := cli.GenerateDatakey.Spec
      GeneratedAt := env.Now }
  let composed : Except GenerateError String :=
    if cli.GenerateDatakey.Format = "json" then
      let result := { result with PlaintextDataKey := EncodeToString dataKeyInfo.Plaintext.bytes }
      match env.MarshalIndent result with
      | .error err => .error (.convertJSON err)
      | .ok jsonData => .ok jsonData
    else if cli.GenerateDatakey.Format = "base64" then
      .ok ("# Encrypted Data Key (Base64)\n" ++ EncodeToString dataKeyInfo.CiphertextBlob.bytes ++
        "\n\n# Plaintext Data Key (Base64) - Handle with care\n" ++
        EncodeToString dataKeyInfo.Plaintext.bytes ++ "\n")
    else .ok ""
  match composed with
  | .error err => (.error err, [], d)
  | .ok output => writeOutput env cli "Data key saved to " output d

/-- A small encoder standing for `json.MarshalIndent` of a `DataKeyResult`: the
values of the fields, one per line, a field tagged `omitempty` left out when empty. -/
def stubMarshalResult (result : DataKeyResult) : Except String String :=
  .ok (result.KMSKeyID ++ "\n" ++ result.EncryptedDataKey ++ "\n" ++
    (if result.PlaintextDataKey = "" then "" else result.PlaintextDataKey ++ "\n") ++
    result.KeySpec ++ "\n" ++ result.GeneratedAt ++ "\n")

/-- The environment of the sample `generate-datakey`: the in-memory storage
services, every client built. -/
def stubGenerateEnv : GenerateEnv MemState where
  storage := memEnv
  ValidateAWSCredentials := none
  NewKMSEncryptor := none
  Now := "2024-01-01T00:00:00Z"
  MarshalIndent := stubMarshalResult

/-- The flags of a `generate-datakey` run that writes to `key.out`. -/
def generateCLI (format spec : String) (test : Bool) : CLI where
  Backup := { Pattern := ".*", URI := "", KMSRegion := "ap-northeast-1", KMSKeyID := "",
              DataKeyPath := "" }
  GenerateDatakey := { KMSRegion := "ap-northeast-1", KMSKeyID := "alias/backup",
                       Output := "key.out", Format := format, Spec := spec, Test := test }

/-- The entropy of the sample test run: 160 bytes, numbered from 0. -/
def testEntropy : List Byte := (List.range 160).map byte

/-! ## The goroutines of `BackupPools`: what is asked of a pool, and samples -/

/-- The errors `backupSinglePool` returns before it has accessed the map
`Files`: those of the directory calls, and that of the first `SaveJSON`, which
returns on the encoding error before it reaches the map. -/
def PoolError.beforeAccess : PoolError → Bool
  | .saveMetadata _ => true
  | err => err.fromDirectory

/-- The pool `p` can be collected: the directory calls for it succeed in every
state of the service, and every metadata record is encoded by `MarshalIndent`. -/
def BackupEnv.collects {σ : Type} (env : BackupEnv σ) (p : String) : Prop :=
  (∀ w, ∃ poolConfig w1, env.cognitoClient.GetUserPoolConfiguration p w = (.ok poolConfig, w1)) ∧
  (∀ w, ∃ users w1, env.cognitoClient.ListUsers p w = (.ok users, w1)) ∧
  (∀ username w, ∃ groups w1,
    env.cognitoClient.ListUserGroups p username w = (.ok groups, w1)) ∧
  (∀ metadata, ∃ jsonData, env.MarshalIndent (.backupMetadata metadata) = .ok jsonData)

/-- The goroutine is before its first access to the map `Files`, with no
error met, or it has accessed the map. -/
def Goroutine.onTrack (g : Goroutine) : Bool :=
  g.accessed ||
    match g.task with
    | .describePool => true
    | .listUsers _ => true
    | .listGroups _ _ _ => true
    | .saveMetadata _ _ _ => true
    | _ => false

/-- A directory with the pools `A`, `B` and `C` in which listing the users fails
for `B` and for `C`. -/
def flakyCognito : CognitoClient Unit where
  ListUserPools := stubCognito.ListUserPools
  GetUserPoolConfiguration := stubCognito.GetUserPoolConfiguration
  ListUsers := fun userPoolID _ =>
    if userPoolID = "C" then (.error "TooManyRequestsException", ())
    else stubCognito.ListUsers userPoolID ()
  ListUserGroups := stubCognito.ListUserGroups

/-- The sample backup on the directory `flakyCognito`. -/
def flakyEnv : BackupEnv Unit where
  cognitoClient := flakyCognito
  MarshalIndent := stubMarshal
  Now := fun _ => "2024-01-01T00:00:00Z"

/-- The goroutines `BackupPools` launches for the pools `A`, `B` and `C`. -/
def sampleGoroutines : List Goroutine :=
  ["A", "B", "C"].map (fun pool => { pool := pool, task := .describePool, accessed := false })

/-- The state the goroutines of the sample backup start in: a fresh local
storage and an empty `errCh`. -/
def sampleShared : Shared Unit := { storage := stubBackupper.storage, errCh := [], w := () }

/-! # Theorems -/

/-! ## Little-endian length fields -/

theorem or_shiftLeft_eq_add (a b i : Nat) (h : a < 2 ^ i) :
    a ||| b <<< i = a + 2 ^ i * b := by
  rw [Nat.shiftLeft_eq, Nat.mul_comm b, Nat.or_comm, ← Nat.mul_add_lt_is_or h, Nat.add_comm]

theorem Uint32_eq_sum (b0 b1 b2 b3 : Byte) :
    Uint32 b0 b1 b2 b3 = b0.val + 256 * b1.val + 65536 * b2.val + 16777216 * b3.val := by
  have h0 := b0.isLt
  have h1 := b1.isLt
  have h2 := b2.isLt
  have h3 := b3.isLt
  unfold Uint32
  rw [or_shiftLeft_eq_add _ _ 8 (by omega), or_shiftLeft_eq_add _ _ 16 (by omega),
    or_shiftLeft_eq_add _ _ 24 (by omega)]
  omega

theorem Uint32_lt (b0 b1 b2 b3 : Byte) : Uint32 b0 b1 b2 b3 < 2 ^ 32 := by
  rw [Uint32_eq_sum]
  have h0 := b0.isLt
  have h1 := b1.isLt
  have h2 := b2.isLt
  have h3 := b3.isLt
  omega

theorem Uint32_PutUint32 (v : Nat) (hv : v < 2 ^ 32) :
    Uint32 (byte v) (byte (v >>> 8)) (byte (v >>> 16)) (byte (v >>> 24)) = v := by
  rw [Uint32_eq_sum]
  simp only [byte, Nat.shiftRight_eq_div_pow]
  omega


theorem Read_eof (s : List Byte) (i : Nat) (b : List Byte) (h : s.length ≤ i) :
    Reader.Read ⟨s, i⟩ b = (⟨s, i⟩, b, 0, some .EOF) := by
  simp [Reader.Read, h]

theorem Read_make (s : List Byte) (i n : Nat) (h : i < s.length) :
    Reader.Read ⟨s, i⟩ (make n) =
      (⟨s, i + min n (s.length - i)⟩,
        (s.drop i).take n ++ List.replicate (n - (s.length - i)) 0,
        min n (s.length - i), none) := by
  have h' : ¬ s.length ≤ i := by omega
  simp only [Reader.Read, make, ge_iff_le, h', if_false, List.length_replicate, List.length_drop,
    List.drop_replicate]
  have e1 : n - min n (s.length - i) = n - (s.length - i) := by omega
  have e2 : List.take (min n (s.length - i)) (List.drop i s) = List.take n (List.drop i s) := by
    rcases Nat.le_total n (s.length - i) with hn | hn
    · rw [Nat.min_eq_left hn]
    · rw [Nat.min_eq_right hn, List.take_of_length_le (by simp),
        List.take_of_length_le (by simp; omega)]
  rw [e1, e2]

theorem binaryRead_ok (s : List Byte) (i : Nat) (b0 b1 b2 b3 : Byte) (t : List Byte)
    (h : s.drop i = b0 :: b1 :: b2 :: b3 :: t) :
    binaryRead ⟨s, i⟩ = .ok (Uint32 b0 b1 b2 b3, ⟨s, i + 4⟩) := by
  have hlen : (s.drop i).length = t.length + 4 := by rw [h]; simp
  rw [List.length_drop] at hlen
  have hi : i < s.length := by omega
  unfold binaryRead ReadFull
  rw [Read_make s i 4 hi]
  have hm : min 4 (s.length - i) = 4 := by omega
  have hz : 4 - (s.length - i) = 0 := by omega
  simp [hm, hz, h, make]


theorem Deserialize_cons (b0 b1 b2 b3 b4 b5 b6 b7 : Byte) (rest : List Byte) :
    DeserializeEncryptedData (b0 :: b1 :: b2 :: b3 :: b4 :: b5 :: b6 :: b7 :: rest) =
      if rest.length < uint32 (Uint32 b0 b1 b2 b3 + Uint32 b4 b5 b6 b7) then
        .error (.incomplete (uint32 (Uint32 b0 b1 b2 b3 + Uint32 b4 b5 b6 b7)) rest.length)
      else if rest = [] then .error (.readKey .EOF)
      else if rest.length ≤ Uint32 b0 b1 b2 b3 then .error (.readData .EOF)
      else .ok
        { EncryptedDataKey := rest.take (Uint32 b0 b1 b2 b3)
          EncryptedData := (rest.drop (Uint32 b0 b1 b2 b3)).take (Uint32 b4 b5 b6 b7) ++
            List.replicate (Uint32 b4 b5 b6 b7 - (rest.length - Uint32 b0 b1 b2 b3)) 0 } := by
  generalize hd : b0 :: b1 :: b2 :: b3 :: b4 :: b5 :: b6 :: b7 :: rest = data
  have hlen : data.length = rest.length + 8 := by rw [← hd]; simp
  have hdrop8 : data.drop 8 = rest := by rw [← hd]; rfl
  have r1 : binaryRead (NewReader data) = .ok (Uint32 b0 b1 b2 b3, ⟨data, 4⟩) :=
    binaryRead_ok data 0 b0 b1 b2 b3 (b4 :: b5 :: b6 :: b7 :: rest) (by rw [← hd]; rfl)
  have r2 : binaryRead ⟨data, 4⟩ = .ok (Uint32 b4 b5 b6 b7, ⟨data, 8⟩) :=
    binaryRead_ok data 4 b4 b5 b6 b7 rest (by rw [← hd]; rfl)
  generalize Uint32 b0 b1 b2 b3 = kl at *
  generalize Uint32 b4 b5 b6 b7 = pl at *
  unfold DeserializeEncryptedData
  have h8 : ¬ data.length < 8 := by omega
  simp only [h8, if_false, r1, r2]
  have hrem : (data.length : Int) - 8 = (rest.length : Int) := by omega
  rw [hrem]
  by_cases hc : rest.length < uint32 (kl + pl)
  · have hc' : (rest.length : Int) < ((uint32 (kl + pl) : Nat) : Int) := by exact_mod_cast hc
    simp only [hc, hc', if_true]
  · have hc' : ¬ (rest.length : Int) < ((uint32 (kl + pl) : Nat) : Int) := by exact_mod_cast hc
    simp only [hc, hc', if_false]
    by_cases he : rest = []
    · have : data.length ≤ 8 := by rw [hlen, he]; simp
      simp only [he, if_true, Read_eof data 8 _ this]
    · have hpos : 0 < rest.length := List.length_pos.mpr he
      simp only [he, if_false, Read_make data 8 kl (by omega)]
      by_cases hk : rest.length ≤ kl
      · have : data.length ≤ 8 + min kl (data.length - 8) := by omega
        simp only [hk, if_true, Read_eof data _ _ this]
      · have hm : min kl (data.length - 8) = kl := by omega
        have hz : kl - (data.length - 8) = 0 := by omega
        simp only [hk, if_false, hm, Read_make data (8 + kl) pl (by omega), hdrop8, hz,
          List.replicate_zero, List.append_nil]
        have e1 : List.drop (8 + kl) data = List.drop kl rest := by
          rw [← hdrop8, List.drop_drop]
        have e2 : data.length - (8 + kl) = rest.length - kl := by omega
        rw [e1, e2]

theorem exists_header (data : List Byte) (h : 8 ≤ data.length) :
    ∃ b0 b1 b2 b3 b4 b5 b6 b7 rest,
      data = b0 :: b1 :: b2 :: b3 :: b4 :: b5 :: b6 :: b7 :: rest := by
  match data, h with
  | b0 :: b1 :: b2 :: b3 :: b4 :: b5 :: b6 :: b7 :: rest, _ =>
    exact ⟨b0, b1, b2, b3, b4, b5, b6, b7, rest, rfl⟩

theorem LE32_eq_PutUint32 (n : Nat) : LE32 n = PutUint32 (uint32 n) := by
  simp only [LE32, PutUint32, byte, uint32, Nat.shiftRight_eq_div_pow, List.cons.injEq,
    Fin.mk.injEq, and_true]
  refine ⟨?_, ?_, ?_, ?_⟩ <;> omega

theorem Serialize_eq (w p : List Byte) :
    SerializeEncryptedData ⟨w, p⟩ =
      .ok (PutUint32 (uint32 w.length) ++ PutUint32 (uint32 p.length) ++ w ++ p) := by
  simp [SerializeEncryptedData, binaryWrite, Buffer.Write]

/-! ## The frame codec: `SerializeEncryptedData` and `DeserializeEncryptedData` -/

/-- The round trip of the codec for a frame whose payload is not empty:
deserialising the serialised frame returns the wrapped key and the payload. -/
theorem Deserialize_Serialize_of_payload_ne_nil (w p : List Byte) (hw : w.length < 2 ^ 32)
    (hp : p.length < 2 ^ 32) (hne : p ≠ []) :
    ∃ out, SerializeEncryptedData ⟨w, p⟩ = .ok out ∧
      DeserializeEncryptedData out = .ok ⟨w, p⟩ := by
  refine ⟨_, Serialize_eq w p, ?_⟩
  have hpos : 0 < p.length := List.length_pos.mpr hne
  have e1 : uint32 w.length = w.length := Nat.mod_eq_of_lt hw
  have e2 : uint32 p.length = p.length := Nat.mod_eq_of_lt hp
  rw [e1, e2]
  simp only [PutUint32, List.cons_append, List.nil_append, List.append_assoc]
  rw [Deserialize_cons, Uint32_PutUint32 _ hw, Uint32_PutUint32 _ hp]
  have hs : uint32 (w.length + p.length) ≤ w.length + p.length := Nat.mod_le _ _
  have h1 : ¬ (w ++ p).length < uint32 (w.length + p.length) := by
    rw [List.length_append]; omega
  have h2 : ¬ (w ++ p = []) := by simp [hne]
  have h3 : ¬ (w ++ p).length ≤ w.length := by rw [List.length_append]; omega
  simp only [h1, h2, h3, if_false]
  simp

/-- C1: the round trip fails on a frame with an empty payload. Serialising
the wrapped key `[1, 2]` with the empty payload gives the ten bytes
`2 0 0 0 0 0 0 0 1 2`; deserialising them returns the error of the payload
read (`io.EOF`: the reader is at the end of the input), not the frame. -/
theorem Deserialize_Serialize_empty_payload :
    SerializeEncryptedData ⟨[1, 2], []⟩ = .ok [2, 0, 0, 0, 0, 0, 0, 0, 1, 2] ∧
    DeserializeEncryptedData [2, 0, 0, 0, 0, 0, 0, 0, 1, 2] = .error (.readData .EOF) := by
  constructor <;> decide

/-- C2: for a wrapped key `w` and a payload `p` shorter than `2 ^ 32` bytes,
`SerializeEncryptedData` succeeds with exactly `LE32 (len w) ++ LE32 (len p) ++ w ++ p`,
whose length is `8 + len w + len p` and whose two length fields read back as
`len w` and `len p`. -/
theorem Serialize_layout (w p : List Byte) (hw : w.length < 2 ^ 32) (hp : p.length < 2 ^ 32) :
    SerializeEncryptedData ⟨w, p⟩ = .ok (LE32 w.length ++ LE32 p.length ++ w ++ p) ∧
    (LE32 w.length ++ LE32 p.length ++ w ++ p).length = 8 + w.length + p.length ∧
    declaredKeyLen (LE32 w.length ++ LE32 p.length ++ w ++ p) = w.length ∧
    declaredDataLen (LE32 w.length ++ LE32 p.length ++ w ++ p) = p.length := by
  refine ⟨?_, ?_, ?_, ?_⟩
  · rw [Serialize_eq, LE32_eq_PutUint32, LE32_eq_PutUint32]
  · simp [LE32]; omega
  · have e1 : uint32 w.length = w.length := Nat.mod_eq_of_lt hw
    rw [LE32_eq_PutUint32, e1]
    simp only [PutUint32, declaredKeyLen, List.cons_append, List.getD_cons_zero,
      List.getD_cons_succ]
    exact Uint32_PutUint32 _ hw
  · have e2 : uint32 p.length = p.length := Nat.mod_eq_of_lt hp
    rw [LE32_eq_PutUint32, LE32_eq_PutUint32, e2]
    simp only [PutUint32, declaredDataLen, List.cons_append, List.getD_cons_zero,
      List.getD_cons_succ, List.nil_append]
    exact Uint32_PutUint32 _ hp

/-- C2 at the wrapped key `[7, 8, 9]` and the payload `[1, 2]`. -/
theorem Serialize_layout_witness :
    SerializeEncryptedData ⟨[7, 8, 9], [1, 2]⟩ =
        .ok (LE32 3 ++ LE32 2 ++ [7, 8, 9] ++ [1, 2]) ∧
      (LE32 3 ++ LE32 2 ++ [7, 8, 9] ++ [1, 2] : List Byte).length = 8 + 3 + 2 ∧
      declaredKeyLen (LE32 3 ++ LE32 2 ++ [7, 8, 9] ++ [1, 2]) = 3 ∧
      declaredDataLen (LE32 3 ++ LE32 2 ++ [7, 8, 9] ++ [1, 2]) = 2 :=
  Serialize_layout [7, 8, 9] [1, 2] (by decide) (by decide)

/-- Declared lengths whose sum, taken in the natural numbers, stays below
`2 ^ 32` and exceeds the bytes that follow the header are rejected. -/
theorem Deserialize_incomplete_of_no_wrap (data : List Byte) (h8 : 8 ≤ data.length)
    (hfit : declaredKeyLen data + declaredDataLen data < 2 ^ 32)
    (hlong : data.length - 8 < declaredKeyLen data + declaredDataLen data) :
    ∃ e, DeserializeEncryptedData data = .error e := by
  obtain ⟨b0, b1, b2, b3, b4, b5, b6, b7, rest, rfl⟩ := exists_header data h8
  simp only [declaredKeyLen, declaredDataLen, List.getD_cons_zero, List.getD_cons_succ,
    List.length_cons] at hfit hlong
  rw [Deserialize_cons]
  have e : uint32 (Uint32 b0 b1 b2 b3 + Uint32 b4 b5 b6 b7)
      = Uint32 b0 b1 b2 b3 + Uint32 b4 b5 b6 b7 := Nat.mod_eq_of_lt hfit
  have h1 : rest.length < uint32 (Uint32 b0 b1 b2 b3 + Uint32 b4 b5 b6 b7) := by
    rw [e]; omega
  simp only [h1, if_true]
  exact ⟨_, rfl⟩

/-- C3: declared lengths whose 32-bit sum wraps around pass the length check.
The ten-byte input declares a wrapped key of 1 byte and a payload of
`4294967295` bytes, far more than the 2 bytes that follow the header; their
`uint32` sum is 0, and `DeserializeEncryptedData` returns a frame whose payload
is the one byte left followed by `4294967294` zero bytes. -/
theorem Deserialize_wrapped_sum_accepted :
    8 ≤ ([1, 0, 0, 0, 255, 255, 255, 255, 7, 9] : List Byte).length ∧
    declaredKeyLen [1, 0, 0, 0, 255, 255, 255, 255, 7, 9] = 1 ∧
    declaredDataLen [1, 0, 0, 0, 255, 255, 255, 255, 7, 9] = 4294967295 ∧
    ([1, 0, 0, 0, 255, 255, 255, 255, 7, 9] : List Byte).length - 8 < 1 + 4294967295 ∧
    DeserializeEncryptedData [1, 0, 0, 0, 255, 255, 255, 255, 7, 9] =
      .ok ⟨[7], 9 :: List.replicate 4294967294 0⟩ := by
  have hk : Uint32 1 0 0 0 = 1 := by decide
  have hp : Uint32 255 255 255 255 = 4294967295 := by decide
  refine ⟨by decide, hk, hp, by decide, ?_⟩
  rw [Deserialize_cons, hk, hp]
  have hs : uint32 (1 + 4294967295) = 0 := by decide
  rw [hs, if_neg (by decide), if_neg (by decide), if_neg (by decide)]
  have a : List.take 4294967295 (List.drop 1 ([7, 9] : List Byte)) = [9] := rfl
  have b : 4294967295 - (([7, 9] : List Byte).length - 1) = 4294967294 := by decide
  rw [a, b]
  rfl

/-- C4 as stated fails: an input with one byte beyond the declared total
(key length 1, payload length 1, 11 bytes) is accepted and the extra byte dropped. -/
theorem Deserialize_trailing_byte_accepted :
    8 ≤ ([1, 0, 0, 0, 1, 0, 0, 0, 7, 9, 5] : List Byte).length ∧
    8 + declaredKeyLen [1, 0, 0, 0, 1, 0, 0, 0, 7, 9, 5]
        + declaredDataLen [1, 0, 0, 0, 1, 0, 0, 0, 7, 9, 5]
      < ([1, 0, 0, 0, 1, 0, 0, 0, 7, 9, 5] : List Byte).length ∧
    DeserializeEncryptedData [1, 0, 0, 0, 1, 0, 0, 0, 7, 9, 5] = .ok ⟨[7], [9]⟩ := by
  decide

/-- C4, amended: an input of at least 8 bytes that is longer than
`8 + kl + pl` is accepted: `DeserializeEncryptedData` returns the `kl` bytes at
offset 8 as the wrapped key and the `pl` bytes after them as the payload, and
drops the bytes beyond the declared total. -/
theorem Deserialize_ignores_trailing_bytes (data : List Byte) (h8 : 8 ≤ data.length)
    (ht : 8 + declaredKeyLen data + declaredDataLen data < data.length) :
    DeserializeEncryptedData data =
      .ok ⟨(data.drop 8).take (declaredKeyLen data),
        (data.drop (8 + declaredKeyLen data)).take (declaredDataLen data)⟩ := by
  obtain ⟨b0, b1, b2, b3, b4, b5, b6, b7, rest, rfl⟩ := exists_header data h8
  simp only [declaredKeyLen, declaredDataLen, List.getD_cons_zero, List.getD_cons_succ,
    List.length_cons] at ht ⊢
  rw [Deserialize_cons]
  generalize Uint32 b0 b1 b2 b3 = kl at *
  generalize Uint32 b4 b5 b6 b7 = pl at *
  have hs : uint32 (kl + pl) ≤ kl + pl := Nat.mod_le _ _
  have h1 : ¬ rest.length < uint32 (kl + pl) := by omega
  have h2 : ¬ rest = [] := by
    intro h; rw [h] at ht; simp at ht; omega
  have h3 : ¬ rest.length ≤ kl := by omega
  have hz : pl - (rest.length - kl) = 0 := by omega
  have hd : List.drop (8 + kl) (b0 :: b1 :: b2 :: b3 :: b4 :: b5 :: b6 :: b7 :: rest)
      = List.drop kl rest := by
    rw [← List.drop_drop]; rfl
  simp only [h1, h2, h3, if_false, hz, List.replicate_zero, List.append_nil, hd]
  rfl

/-- C4, amended, at an input with two trailing bytes. -/
theorem Deserialize_ignores_trailing_bytes_witness :
    DeserializeEncryptedData [1, 0, 0, 0, 2, 0, 0, 0, 7, 8, 9, 5, 6] =
      .ok ⟨(([1, 0, 0, 0, 2, 0, 0, 0, 7, 8, 9, 5, 6] : List Byte).drop 8).take
          (declaredKeyLen [1, 0, 0, 0, 2, 0, 0, 0, 7, 8, 9, 5, 6]),
        (([1, 0, 0, 0, 2, 0, 0, 0, 7, 8, 9, 5, 6] : List Byte).drop
          (8 + declaredKeyLen [1, 0, 0, 0, 2, 0, 0, 0, 7, 8, 9, 5, 6])).take
          (declaredDataLen [1, 0, 0, 0, 2, 0, 0, 0, 7, 8, 9, 5, 6])⟩ :=
  Deserialize_ignores_trailing_bytes [1, 0, 0, 0, 2, 0, 0, 0, 7, 8, 9, 5, 6]
    (by decide) (by decide)

/-- C5: an input shorter than 8 bytes, the empty input included, is rejected
with the too-short error and no frame. -/
theorem Deserialize_too_short (data : List Byte) (h : data.length < 8) :
    DeserializeEncryptedData data = .error (.tooShort data.length) := by
  simp [DeserializeEncryptedData, h]

/-- C5 at the empty input and at a seven-byte input. -/
theorem Deserialize_too_short_witness :
    DeserializeEncryptedData [] = .error (.tooShort ([] : List Byte).length) ∧
    DeserializeEncryptedData [1, 0, 0, 0, 0, 0, 0] =
      .error (.tooShort ([1, 0, 0, 0, 0, 0, 0] : List Byte).length) :=
  ⟨Deserialize_too_short [] (by decide), Deserialize_too_short [1, 0, 0, 0, 0, 0, 0] (by decide)⟩

/-! ## The sample AEAD has the two properties asked of an AEAD -/

theorem byteSum_append (l1 l2 : List Byte) : byteSum (l1 ++ l2) = byteSum l1 + byteSum l2 := by
  induction l1 with
  | nil => simp [byteSum]
  | cons b l ih => simp [byteSum, ih]; omega

theorem byteSum_modify (f : Byte → Byte) (l : List Byte) (j : Nat) (h : j < l.length) :
    ∃ b : Byte, byteSum (l.modify f j) + b.val = byteSum l + (f b).val := by
  induction l generalizing j with
  | nil => simp at h
  | cons a l ih =>
    cases j with
    | zero => exact ⟨a, by simp only [List.modify_zero_cons, byteSum]; omega⟩
    | succ j =>
      obtain ⟨b, hb⟩ := ih j (by simpa using h)
      refine ⟨b, ?_⟩
      rw [List.modify_succ_cons]
      simp only [byteSum]
      omega

theorem modify_concat (f : Byte → Byte) (body : List Byte) (t : Byte) (j : Nat)
    (h : j ≤ body.length) :
    (body ++ [t]).modify f j =
      if j < body.length then body.modify f j ++ [t] else body ++ [f t] := by
  induction body generalizing j with
  | nil =>
    have : j = 0 := by simpa using h
    subst this
    simp
  | cons a l ih =>
    cases j with
    | zero => simp
    | succ j =>
      have hj : j ≤ l.length := by simpa using h
      simp only [List.cons_append, List.modify_succ_cons, ih j hj, List.length_cons,
        Nat.add_lt_add_iff_right]
      split <;> rfl

theorem flip_ne (b : Byte) (k : Nat) (hk : k < 8) : byte (b.val ^^^ 2 ^ k) ≠ b := by
  intro h
  have hb : b.val < 2 ^ 8 := b.isLt
  have hp : 2 ^ k < 2 ^ 8 := Nat.pow_lt_pow_right (by decide) hk
  have hx : b.val ^^^ 2 ^ k < 256 := Nat.xor_lt_two_pow hb hp
  have hv : (b.val ^^^ 2 ^ k) % 256 = b.val := congrArg Fin.val h
  rw [Nat.mod_eq_of_lt hx] at hv
  have h0 : b.val ^^^ 2 ^ k = b.val ^^^ 0 := by rw [hv, Nat.xor_zero]
  have : 2 ^ k = 0 := Nat.xor_right_inj.mp h0
  have : 0 < 2 ^ k := Nat.pos_pow_of_pos k (by decide)
  omega

theorem sumGCM_OpenInvertsSeal : sumGCM.OpenInvertsSeal := by
  intro key nonce plaintext
  simp [sumGCM, ← List.append_assoc]

theorem sumGCM_Open_eq_none (key q : List Byte) (n : Nat)
    (hq : q.getLast? ≠ some (byte (byteSum q.dropLast))) :
    sumGCM.Open key (q.take n) (q.drop n) = none := by
  simp only [sumGCM, List.take_append_drop, ite_eq_right_iff, reduceCtorEq, imp_false, not_and,
    Decidable.not_not]
  intro h
  by_contra hne
  apply hq
  rw [h]
  congr 3
  rw [← List.dropLast_append_of_ne_nil _ hne, List.take_append_drop]

theorem byte_byteSum_modify_ne (body : List Byte) (i : Nat) (h : i / 8 < body.length) :
    byte (byteSum body) ≠
      byte (byteSum (body.modify (fun b => byte (b.val ^^^ 2 ^ (i % 8))) (i / 8))) := by
  obtain ⟨b, hb⟩ := byteSum_modify (fun b => byte (b.val ^^^ 2 ^ (i % 8))) body (i / 8) h
  have hne := flip_ne b (i % 8) (Nat.mod_lt _ (by decide))
  intro heq
  have hv : byteSum body % 256 = byteSum
      (body.modify (fun b => byte (b.val ^^^ 2 ^ (i % 8))) (i / 8)) % 256 := congrArg Fin.val heq
  apply hne
  apply Fin.ext
  have h1 := b.isLt
  have h2 := (byte (b.val ^^^ 2 ^ (i % 8))).isLt
  omega

theorem sumGCM_DetectsBitFlips : sumGCM.DetectsBitFlips := by
  intro key nonce plaintext i _ hi
  have hseal : nonce ++ sumGCM.Seal key nonce plaintext =
      (nonce ++ plaintext) ++ [byte (byteSum (nonce ++ plaintext))] := by
    simp [sumGCM]
  rw [hseal] at hi ⊢
  generalize nonce ++ plaintext = body at *
  have hj : i / 8 ≤ body.length := by
    simp only [List.length_append, List.length_cons, List.length_nil] at hi
    omega
  apply sumGCM_Open_eq_none
  unfold flipBit
  rw [modify_concat _ body _ _ hj]
  by_cases hlt : i / 8 < body.length
  · simp only [hlt, if_true, List.getLast?_concat, List.dropLast_concat, ne_eq,
      Option.some.injEq]
    exact byte_byteSum_modify_ne body i hlt
  · simp only [hlt, if_false, List.getLast?_concat, List.dropLast_concat, ne_eq,
      Option.some.injEq]
    exact flip_ne _ _ (Nat.mod_lt _ (by decide))

theorem keyedGCM_Open_eq_none (key q : List Byte) (n : Nat)
    (hq : q.getLast? ≠ some (byte (byteSum key + byteSum q.dropLast))) :
    keyedGCM.Open key (q.take n) (q.drop n) = none := by
  simp only [keyedGCM, List.take_append_drop, ite_eq_right_iff, reduceCtorEq, imp_false,
    not_and, Decidable.not_not]
  intro h
  by_contra hne
  apply hq
  rw [h]
  congr 4
  rw [← List.dropLast_append_of_ne_nil _ hne, List.take_append_drop]

theorem byte_add_byteSum_modify_ne (k : Nat) (body : List Byte) (i : Nat)
    (h : i / 8 < body.length) :
    byte (k + byteSum body) ≠
      byte (k + byteSum (body.modify (fun b => byte (b.val ^^^ 2 ^ (i % 8))) (i / 8))) := by
  obtain ⟨b, hb⟩ := byteSum_modify (fun b => byte (b.val ^^^ 2 ^ (i % 8))) body (i / 8) h
  have hne := flip_ne b (i % 8) (Nat.mod_lt _ (by decide))
  intro heq
  have hv : (k + byteSum body) % 256 = (k + byteSum
      (body.modify (fun b => byte (b.val ^^^ 2 ^ (i % 8))) (i / 8))) % 256 :=
    congrArg Fin.val heq
  apply hne
  apply Fin.ext
  have h1 := b.isLt
  have h2 := (byte (b.val ^^^ 2 ^ (i % 8))).isLt
  omega

/-- The keyed sample AEAD detects bit flips under the sealing key. -/
theorem keyedGCM_DetectsBitFlips : keyedGCM.DetectsBitFlips := by
  intro key nonce plaintext i _ hi
  have hseal : nonce ++ keyedGCM.Seal key nonce plaintext =
      (nonce ++ plaintext) ++ [byte (byteSum key + byteSum (nonce ++ plaintext))] := by
    simp [keyedGCM]
  rw [hseal] at hi ⊢
  generalize nonce ++ plaintext = body at *
  have hj : i / 8 ≤ body.length := by
    simp only [List.length_append, List.length_cons, List.length_nil] at hi
    omega
  apply keyedGCM_Open_eq_none
  unfold flipBit
  rw [modify_concat _ body _ _ hj]
  by_cases hlt : i / 8 < body.length
  · simp only [hlt, if_true, List.getLast?_concat, List.dropLast_concat, ne_eq,
      Option.some.injEq]
    exact byte_add_byteSum_modify_ne (byteSum key) body i hlt
  · simp only [hlt, if_false, List.getLast?_concat, List.dropLast_concat, ne_eq,
      Option.some.injEq]
    exact flip_ne _ _ (Nat.mod_lt _ (by decide))

/-- Under another key the keyed sample AEAD does not open what was sealed,
unless the two keys have the same byte sum modulo 256. -/
theorem keyedGCM_wrong_key (key key2 nonce plaintext : List Byte)
    (h : byte (byteSum key) ≠ byte (byteSum key2)) :
    keyedGCM.Open key2 nonce (keyedGCM.Seal key nonce plaintext) = none := by
  simp only [keyedGCM, ← List.append_assoc, List.getLast?_concat, List.dropLast_concat,
    ite_eq_right_iff, reduceCtorEq, imp_false, not_and, Option.some.injEq]
  intro heq
  exfalso
  apply h
  have hv : (byteSum key + byteSum (nonce ++ plaintext)) % 256 =
      (byteSum key2 + byteSum (nonce ++ plaintext)) % 256 := congrArg Fin.val heq
  apply Fin.ext
  show byteSum key % 256 = byteSum key2 % 256
  omega

/-! ## The envelope cipher: `KMSEncryptor.Encrypt` and `KMSEncryptor.Decrypt` -/

theorem aesNewCipher_ok (key block : List Byte) (h : aesNewCipher key = .ok block) :
    block = key := by
  unfold aesNewCipher at h
  split at h
  · injection h with h; exact h.symm
  · cases h

theorem cipherNewGCM_ok (block aesGCM : List Byte) (h : cipherNewGCM block = .ok aesGCM) :
    aesGCM = block := by
  unfold cipherNewGCM at h
  injection h with h; exact h.symm

theorem randRead_ok (entropy iv : List Byte) (n : Nat) (h : randRead entropy n = .ok iv) :
    iv = entropy.take n ∧ iv.length = n := by
  unfold randRead at h
  split at h
  · cases h
  · injection h with h
    subst h
    exact ⟨rfl, by rw [List.length_take]; omega⟩

/-- On every successful `Encrypt`, the `EncryptedDataKey` of the frame is the
encryptor's `dataKey` after the call, which is the `Plaintext` answered by the
unwrap request, and it is the key the payload was sealed with. -/
theorem Encrypt_ok_frame {σ : Type} (kms : KMSClient σ) (gcm : AESGCM) (e : KMSEncryptor) (w : σ)
    (entropy data : List Byte) (frame : EncryptedData) (e1 : KMSEncryptor) (w1 : σ)
    (h : KMSEncryptor.Encrypt kms gcm e w entropy data = (.ok frame, e1, w1)) :
    frame.EncryptedDataKey = e1.dataKey.bytes ∧
    (entropy.take NonceSize).length = NonceSize ∧
    frame.EncryptedData =
      entropy.take NonceSize ++ gcm.Seal frame.EncryptedDataKey (entropy.take NonceSize) data ∧
    ∃ input w0, kms.Decrypt input w0 = (.ok { Plaintext := e1.dataKey }, w1) := by
  unfold KMSEncryptor.Encrypt at h
  simp only at h
  split at h
  · cases h
  · rename_i e0 w0 hgen
    split at h
    · cases h
    · rename_i out w2 hdec
      split at h
      · cases h
      · rename_i block hblock
        split at h
        · cases h
        · rename_i aesGCM hgcm
          split at h
          · cases h
          · rename_i iv hiv
            have hb := aesNewCipher_ok _ _ hblock
            have hg := cipherNewGCM_ok _ _ hgcm
            obtain ⟨hiv1, hiv2⟩ := randRead_ok _ _ _ hiv
            simp only [Prod.mk.injEq, Except.ok.injEq] at h
            obtain ⟨hf, he, hw⟩ := h
            subst hf he hw hg hb hiv1
            exact ⟨rfl, hiv2, rfl, _, _, hdec⟩

/-- C6: the frame `Encrypt` returns carries the plaintext data key. With the
wrapped key `stubWrappedKey` installed, `Encrypt` unwraps it to
`stubPlaintextKey`, seals with that key, and returns it as `EncryptedDataKey`;
the wrapped form is not in the frame. -/
theorem Encrypt_frame_carries_plaintext_key :
    stubEncryptor.dataKey = some stubWrappedKey ∧
    stubKMS.Decrypt { KeyId := "alias/backup", CiphertextBlob := some stubWrappedKey } () =
      (.ok { Plaintext := some stubPlaintextKey }, ()) ∧
    (KMSEncryptor.Encrypt stubKMS sumGCM stubEncryptor () stubEntropy [1, 2, 3]).1 =
      .ok { EncryptedDataKey := stubPlaintextKey,
            EncryptedData := stubEntropy ++ sumGCM.Seal stubPlaintextKey stubEntropy [1, 2, 3] } ∧
    stubPlaintextKey ≠ stubWrappedKey := by
  decide

/-- C7: `Decrypt` after `Encrypt` on the same encryptor fails. The stub's unwrap
inverts its wrap and the AEAD opens what it seals; `Encrypt` succeeds and leaves
the plaintext key in `dataKey`; `Decrypt` then sends that plaintext key to the
service as `CiphertextBlob`, the service rejects it, and no plaintext comes back. -/
theorem Decrypt_after_Encrypt_fails :
    (stubKMS.GenerateDataKey { KeyId := "alias/backup", KeySpec := "AES_256" } ()).1 =
      .ok { Plaintext := some stubPlaintextKey, CiphertextBlob := some stubWrappedKey } ∧
    stubKMS.Decrypt { KeyId := "alias/backup", CiphertextBlob := some stubWrappedKey } () =
      (.ok { Plaintext := some stubPlaintextKey }, ()) ∧
    sumGCM.OpenInvertsSeal ∧
    KMSEncryptor.Encrypt stubKMS sumGCM stubEncryptor () stubEntropy [1, 2, 3] =
      (.ok { EncryptedDataKey := stubPlaintextKey,
             EncryptedData := [20, 21, 22, 23, 24, 25, 26, 27, 28, 29, 30, 31, 1, 2, 3, 56] },
        { keyID := "alias/backup", dataKey := some stubPlaintextKey }, ()) ∧
    (KMSEncryptor.Decrypt stubKMS sumGCM
        { keyID := "alias/backup", dataKey := some stubPlaintextKey } ()
        { EncryptedDataKey := stubPlaintextKey,
          EncryptedData := [20, 21, 22, 23, 24, 25, 26, 27, 28, 29, 30, 31, 1, 2, 3, 56] }).1 =
      .error (.dataKeyDecryption "InvalidCiphertextException") :=
  ⟨by decide, by decide, sumGCM_OpenInvertsSeal, by decide, by decide⟩

/-- The round trip holds when the wrapped key is installed again before
`Decrypt`, as the decrypt command does: with a service whose unwrap request is
answered the same way both times and an AEAD that opens what it seals,
`Decrypt` returns the plaintext given to `Encrypt`. -/
theorem Decrypt_Encrypt_of_reinstalled_key {σ : Type} (kms : KMSClient σ) (gcm : AESGCM)
    (hgcm : gcm.OpenInvertsSeal) (keyID : String) (wrapped : List Byte) (w w2 : σ)
    (entropy data : List Byte) (frame : EncryptedData) (e1 : KMSEncryptor) (w1 : σ)
    (henc : KMSEncryptor.Encrypt kms gcm ⟨keyID, some wrapped⟩ w entropy data = (.ok frame, e1, w1))
    (hsame : (kms.Decrypt ⟨keyID, some wrapped⟩ w2).1 = (kms.Decrypt ⟨keyID, some wrapped⟩ w).1) :
    (KMSEncryptor.Decrypt kms gcm ⟨keyID, some wrapped⟩ w2 frame).1 = .ok data := by
  unfold KMSEncryptor.Encrypt at henc
  simp only at henc
  unfold KMSEncryptor.Decrypt
  rcases hd : kms.Decrypt ⟨keyID, some wrapped⟩ w with ⟨r, w3⟩
  rcases hd2 : kms.Decrypt ⟨keyID, some wrapped⟩ w2 with ⟨r2, w4⟩
  rw [hd, hd2] at hsame
  simp only at hsame
  subst hsame
  rw [hd] at henc
  cases r2 with
  | error err => simp at henc
  | ok out =>
    simp only at henc ⊢
    split at henc
    · cases henc
    · rename_i block hblock
      simp only [cipherNewGCM] at henc ⊢
      split at henc
      · cases henc
      · rename_i iv hiv
        obtain ⟨hiv1, hiv2⟩ := randRead_ok _ _ _ hiv
        simp only [Prod.mk.injEq, Except.ok.injEq] at henc
        obtain ⟨hf, -, -⟩ := henc
        subst hf
        have hl : ¬ (iv ++ gcm.Seal block iv data).length < NonceSize := by
          rw [List.length_append]; omega
        simp only [hl, if_false]
        have ht : List.take NonceSize (iv ++ gcm.Seal block iv data) = iv := by
          rw [List.take_append_of_le_length (by omega), List.take_of_length_le (by omega)]
        have hdr : List.drop NonceSize (iv ++ gcm.Seal block iv data) = gcm.Seal block iv data := by
          rw [← hiv2, List.drop_left]
        rw [ht, hdr, hgcm]

/-- C8 as stated fails: `Decrypt` sends the encryptor's installed key to the
service, not the frame's `EncryptedDataKey`. The frame carries the key
`[9, 9, 9]`; the one request the service receives is the unwrap of `stubWrappedKey`. -/
theorem Decrypt_request_not_on_frame_key :
    (KMSEncryptor.Decrypt stubKMS.recording sumGCM stubEncryptor ((), [])
        { EncryptedDataKey := [9, 9, 9],
          EncryptedData := [20, 21, 22, 23, 24, 25, 26, 27, 28, 29, 30, 31, 1, 2, 3, 56] }).2.2.2 =
      [KMSCall.decrypt { KeyId := "alias/backup", CiphertextBlob := some stubWrappedKey }] ∧
    some ([9, 9, 9] : List Byte) ≠ some stubWrappedKey := by
  decide

/-- C8, amended: the one request `Decrypt` makes is the unwrap of the
encryptor's installed data key; the frame's `EncryptedDataKey` is not read;
and when the service answers the request with `out` and `Decrypt` then returns
a plaintext, the payload has at least 12 bytes and the plaintext is what the
AEAD opens, under the key `out.Plaintext`, from the nonce formed by the first
12 bytes of the payload and the ciphertext formed by the rest. -/
theorem Decrypt_unwraps_installed_key {σ : Type} (kms : KMSClient σ) (gcm : AESGCM)
    (e : KMSEncryptor) (w : σ) (log : List KMSCall) (frame : EncryptedData)
    (out : DecryptOutput) (w1 : σ)
    (hkms : kms.Decrypt { KeyId := e.keyID, CiphertextBlob := e.dataKey } w = (.ok out, w1)) :
    (KMSEncryptor.Decrypt kms.recording gcm e (w, log) frame).2.2.2 =
      log ++ [KMSCall.decrypt { KeyId := e.keyID, CiphertextBlob := e.dataKey }] ∧
    (∀ key, KMSEncryptor.Decrypt kms gcm e w { frame with EncryptedDataKey := key } =
      KMSEncryptor.Decrypt kms gcm e w frame) ∧
    (∀ plaintext, (KMSEncryptor.Decrypt kms gcm e w frame).1 = .ok plaintext ↔
      (aesNewCipher out.Plaintext.bytes = .ok out.Plaintext.bytes ∧
        NonceSize ≤ frame.EncryptedData.length ∧
        gcm.Open out.Plaintext.bytes (frame.EncryptedData.take NonceSize)
          (frame.EncryptedData.drop NonceSize) = some plaintext)) := by
  refine ⟨?_, ?_, ?_⟩
  · unfold KMSEncryptor.Decrypt
    simp only [KMSClient.recording, hkms]
    repeat' split
    all_goals rfl
  · intro key
    rfl
  · intro plaintext
    unfold KMSEncryptor.Decrypt
    simp only [hkms, cipherNewGCM]
    unfold aesNewCipher
    by_cases hlen : out.Plaintext.bytes.length = 16 ∨ out.Plaintext.bytes.length = 24 ∨
        out.Plaintext.bytes.length = 32
    · simp only [hlen, if_true, true_and]
      by_cases hshort : frame.EncryptedData.length < NonceSize
      · simp only [hshort, if_true]
        constructor
        · intro h; cases h
        · intro h; omega
      · simp only [hshort, if_false]
        rcases hopen : gcm.Open out.Plaintext.bytes (List.take NonceSize frame.EncryptedData)
            (List.drop NonceSize frame.EncryptedData) with _ | pt
        · simp
        · simp only [Except.ok.injEq, Option.some.injEq]
          constructor
          · intro h; exact ⟨by omega, h⟩
          · intro h; exact h.2
    · simp only [hlen, if_false]
      constructor
      · intro h; cases h
      · intro h; cases h.1

/-- C8, amended, on the stub service: the request is the unwrap of the
installed key, and the frame sealed under `stubPlaintextKey` opens to `[1, 2, 3]`. -/
theorem Decrypt_unwraps_installed_key_witness :
    (KMSEncryptor.Decrypt stubKMS.recording sumGCM stubEncryptor ((), [])
        { EncryptedDataKey := [9, 9, 9],
          EncryptedData := [20, 21, 22, 23, 24, 25, 26, 27, 28, 29, 30, 31, 1, 2, 3, 56] }).2.2.2 =
      [] ++ [KMSCall.decrypt
        { KeyId := stubEncryptor.keyID, CiphertextBlob := stubEncryptor.dataKey }] ∧
    (KMSEncryptor.Decrypt stubKMS sumGCM stubEncryptor ()
        { EncryptedDataKey := [9, 9, 9],
          EncryptedData := [20, 21, 22, 23, 24, 25, 26, 27, 28, 29, 30, 31, 1, 2, 3, 56] }).1 =
      .ok [1, 2, 3] :=
  have h := Decrypt_unwraps_installed_key stubKMS sumGCM stubEncryptor () []
    { EncryptedDataKey := [9, 9, 9],
      EncryptedData := [20, 21, 22, 23, 24, 25, 26, 27, 28, 29, 30, 31, 1, 2, 3, 56] }
    { Plaintext := some stubPlaintextKey } () (by decide)
  ⟨h.1, (h.2.2 [1, 2, 3]).mpr (by decide)⟩

/-- C9: tamper detection. With an AEAD that detects bit flips under the sealing
key, for every frame a successful `Encrypt` returns, `Decrypt` of the frame with
any single bit of its payload flipped returns an error, on any encryptor and
service state in which the key the service unwraps for `Decrypt` is the key the
payload was sealed with (when the unwrap fails, `Decrypt` fails as well); and
whenever `Decrypt` returns a plaintext, the AEAD opened the payload to exactly
that plaintext under the encryptor's key, so a failed tag check yields no
plaintext. -/
theorem Decrypt_detects_tampering {σ : Type} (kms : KMSClient σ) (gcm : AESGCM)
    (hgcm : gcm.DetectsBitFlips) (e : KMSEncryptor) (w : σ) (entropy data : List Byte)
    (frame : EncryptedData) (e1 : KMSEncryptor) (w1 : σ)
    (henc : KMSEncryptor.Encrypt kms gcm e w entropy data = (.ok frame, e1, w1)) :
    (∀ (e2 : KMSEncryptor) (w2 : σ) (i : Nat), i < 8 * frame.EncryptedData.length →
      (∀ out w3, kms.Decrypt { KeyId := e2.keyID, CiphertextBlob := e2.dataKey } w2
          = (.ok out, w3) → out.Plaintext.bytes = frame.EncryptedDataKey) →
      ∃ err, (KMSEncryptor.Decrypt kms gcm e2 w2
        { frame with EncryptedData := flipBit frame.EncryptedData i }).1 = .error err) ∧
    (∀ (e2 : KMSEncryptor) (w2 : σ) (tampered : EncryptedData) (plaintext : List Byte),
      (KMSEncryptor.Decrypt kms gcm e2 w2 tampered).1 = .ok plaintext →
      gcm.Open (KMSEncryptor.Decrypt kms gcm e2 w2 tampered).2.1.dataKey.bytes
        (tampered.EncryptedData.take NonceSize) (tampered.EncryptedData.drop NonceSize)
        = some plaintext) := by
  obtain ⟨-, hiv, hpayload, -⟩ := Encrypt_ok_frame kms gcm e w entropy data frame e1 w1 henc
  constructor
  · intro e2 w2 i hi hkey
    rw [hpayload] at hi
    have hnone := hgcm frame.EncryptedDataKey _ data i hiv hi
    rw [← hpayload] at hnone
    unfold KMSEncryptor.Decrypt
    rcases hdec : kms.Decrypt { KeyId := e2.keyID, CiphertextBlob := e2.dataKey } w2
      with ⟨r, w3⟩
    cases r with
    | error err => exact ⟨_, rfl⟩
    | ok out =>
      have hk := hkey out w3 hdec
      simp only [hk, cipherNewGCM]
      cases hblock : aesNewCipher frame.EncryptedDataKey with
      | error n => exact ⟨_, rfl⟩
      | ok block =>
        have hb := aesNewCipher_ok _ _ hblock
        subst hb
        simp only [hnone]
        split <;> exact ⟨_, rfl⟩
  · intro e2 w2 tampered plaintext
    unfold KMSEncryptor.Decrypt
    rcases kms.Decrypt { KeyId := e2.keyID, CiphertextBlob := e2.dataKey } w2 with ⟨r, w3⟩
    cases r with
    | error err => intro h; cases h
    | ok out =>
      simp only [cipherNewGCM]
      unfold aesNewCipher
      by_cases hlen : out.Plaintext.bytes.length = 16 ∨ out.Plaintext.bytes.length = 24 ∨
          out.Plaintext.bytes.length = 32
      · simp only [hlen, if_true]
        by_cases hshort : tampered.EncryptedData.length < NonceSize
        · simp only [hshort, if_true]
          intro h; cases h
        · simp only [hshort, if_false]
          rcases hopen : gcm.Open out.Plaintext.bytes
              (List.take NonceSize tampered.EncryptedData)
              (List.drop NonceSize tampered.EncryptedData) with _ | pt
          · intro h; cases h
          · intro h
            simp only [Except.ok.injEq] at h
            rw [← h]
            exact hopen
      · simp only [hlen, if_false]
        intro h; cases h

/-- C9 on the stub service and the keyed sample AEAD: the encryptor with the
wrapped key installed has the service unwrap the sealing key, and flipping bit
100 of the payload of the frame `Encrypt` returned makes its `Decrypt` fail. -/
theorem Decrypt_detects_tampering_witness :
    keyedGCM.DetectsBitFlips ∧
    (stubKMS.Decrypt
        { KeyId := stubEncryptor.keyID, CiphertextBlob := stubEncryptor.dataKey } ()).1 =
      .ok { Plaintext := some stubPlaintextKey } ∧
    KMSEncryptor.Encrypt stubKMS keyedGCM stubEncryptor () stubEntropy [1, 2, 3] =
      (.ok { EncryptedDataKey := stubPlaintextKey,
             EncryptedData := [20, 21, 22, 23, 24, 25, 26, 27, 28, 29, 30, 31, 1, 2, 3, 192] },
        { keyID := "alias/backup", dataKey := some stubPlaintextKey }, ()) ∧
    ∃ err, (KMSEncryptor.Decrypt stubKMS keyedGCM stubEncryptor ()
      { EncryptedDataKey := stubPlaintextKey,
        EncryptedData :=
          flipBit [20, 21, 22, 23, 24, 25, 26, 27, 28, 29, 30, 31, 1, 2, 3, 192] 100 }).1
      = .error err :=
  ⟨keyedGCM_DetectsBitFlips, by decide, by decide,
    (Decrypt_detects_tampering stubKMS keyedGCM keyedGCM_DetectsBitFlips stubEncryptor ()
      stubEntropy [1, 2, 3]
      { EncryptedDataKey := stubPlaintextKey,
        EncryptedData := [20, 21, 22, 23, 24, 25, 26, 27, 28, 29, 30, 31, 1, 2, 3, 192] }
      { keyID := "alias/backup", dataKey := some stubPlaintextKey } () (by decide)).1
      stubEncryptor () 100 (by decide) (fun out w3 h => by cases h; rfl)⟩

/-- C10: for a frame whose payload is shorter than the 12-byte nonce,
`Decrypt` returns an error and no plaintext, whatever the service answers. -/
theorem Decrypt_short_payload {σ : Type} (kms : KMSClient σ) (gcm : AESGCM) (e : KMSEncryptor)
    (w : σ) (frame : EncryptedData) (h : frame.EncryptedData.length < 12) :
    ∃ err, (KMSEncryptor.Decrypt kms gcm e w frame).1 = .error err := by
  have h12 : frame.EncryptedData.length < NonceSize := h
  unfold KMSEncryptor.Decrypt
  simp only [h12, if_true]
  repeat' split
  all_goals exact ⟨_, rfl⟩

/-- C10 on the stub service, for an empty payload and for an 11-byte payload;
the service answers the unwrap request with a valid key. -/
theorem Decrypt_short_payload_witness :
    (∃ err, (KMSEncryptor.Decrypt stubKMS sumGCM stubEncryptor ()
      { EncryptedDataKey := stubWrappedKey, EncryptedData := [] }).1 = .error err) ∧
    (KMSEncryptor.Decrypt stubKMS sumGCM stubEncryptor ()
      { EncryptedDataKey := stubWrappedKey,
        EncryptedData := [20, 21, 22, 23, 24, 25, 26, 27, 28, 29, 30] }).1
      = .error .invalidData :=
  ⟨Decrypt_short_payload stubKMS sumGCM stubEncryptor ()
      { EncryptedDataKey := stubWrappedKey, EncryptedData := [] } (by decide),
    by decide⟩

/-! ## Key acquisition and key-management failures -/

theorem recording_Decrypt {σ : Type} (kms : KMSClient σ) (input : DecryptInput) (w : σ)
    (log : List KMSCall) :
    kms.recording.Decrypt input (w, log) =
      ((kms.Decrypt input w).1, (kms.Decrypt input w).2, log ++ [KMSCall.decrypt input]) := rfl

theorem recording_GenerateDataKey {σ : Type} (kms : KMSClient σ) (input : GenerateDataKeyInput)
    (w : σ) (log : List KMSCall) :
    kms.recording.GenerateDataKey input (w, log) =
      ((kms.GenerateDataKey input w).1, (kms.GenerateDataKey input w).2,
        log ++ [KMSCall.generateDataKey input]) := rfl

/-- With a data key installed, `Encrypt` sends the service exactly one request,
the unwrap of the installed key, and no generation request. -/
theorem Encrypt_requests_of_installed_key {σ : Type} (kms : KMSClient σ) (gcm : AESGCM)
    (keyID : String) (key : List Byte) (w : σ) (log : List KMSCall) (entropy data : List Byte) :
    (KMSEncryptor.Encrypt kms.recording gcm ⟨keyID, some key⟩ (w, log) entropy data).2.2.2 =
      log ++ [KMSCall.decrypt { KeyId := keyID, CiphertextBlob := some key }] := by
  unfold KMSEncryptor.Encrypt
  simp only [recording_Decrypt]
  rcases kms.Decrypt { KeyId := keyID, CiphertextBlob := some key } w with ⟨r, w2⟩
  cases r with
  | error err => rfl
  | ok out =>
    simp only
    repeat' split
    all_goals rfl

/-- With no data key installed, when key generation succeeds `Encrypt` goes on
to send an unwrap request whose `CiphertextBlob` is the generated `Plaintext`. -/
theorem Encrypt_requests_without_key {σ : Type} (kms : KMSClient σ) (gcm : AESGCM)
    (keyID : String) (w w1 : σ) (log : List KMSCall) (entropy data : List Byte)
    (out : GenerateDataKeyOutput)
    (hgen : kms.GenerateDataKey { KeyId := keyID, KeySpec := "AES_256" } w = (.ok out, w1)) :
    (KMSEncryptor.Encrypt kms.recording gcm ⟨keyID, none⟩ (w, log) entropy data).2.2.2 =
      log ++ [KMSCall.generateDataKey { KeyId := keyID, KeySpec := "AES_256" },
        KMSCall.decrypt { KeyId := keyID, CiphertextBlob := out.Plaintext }] := by
  unfold KMSEncryptor.Encrypt KMSEncryptor.GenerateDataKey
  simp only [recording_Decrypt, recording_GenerateDataKey, hgen]
  rcases kms.Decrypt { KeyId := keyID, CiphertextBlob := out.Plaintext } w1 with ⟨r, w2⟩
  cases r with
  | error err => simp
  | ok out2 =>
    simp only [List.append_assoc, List.singleton_append]
    repeat' split
    all_goals rfl

/-- C11: with no data key installed, `Encrypt` does make an unwrap request. On
the stub service the generation request is followed by an unwrap request that
carries the generated plaintext key as `CiphertextBlob`; the service rejects
it and `Encrypt` returns the key-decryption error instead of sealing with the
generated key. -/
theorem Encrypt_without_key_unwraps_plaintext :
    KMSEncryptor.Encrypt stubKMS.recording sumGCM (NewKMSEncryptor "alias/backup") ((), [])
        stubEntropy [1, 2, 3] =
      (.error (.dataKeyDecryption "InvalidCiphertextException"),
        { keyID := "alias/backup", dataKey := some stubPlaintextKey },
        ((), [KMSCall.generateDataKey { KeyId := "alias/backup", KeySpec := "AES_256" },
              KMSCall.decrypt
                { KeyId := "alias/backup", CiphertextBlob := some stubPlaintextKey }])) := by
  decide

/-- C12: a failed key-management request is returned as an error, with no
frame and no plaintext: in `Encrypt` the generation request (no key installed),
the unwrap request after a successful generation, the unwrap request of an
installed key; in `Decrypt` the unwrap request. -/
theorem kms_failure_propagates {σ : Type} (kms : KMSClient σ) (gcm : AESGCM) (keyID : String)
    (w : σ) (entropy data : List Byte) (frame : EncryptedData) :
    (∀ err w1, kms.GenerateDataKey { KeyId := keyID, KeySpec := "AES_256" } w = (.error err, w1) →
      (KMSEncryptor.Encrypt kms gcm ⟨keyID, none⟩ w entropy data).1 =
        .error (.dataKeyGeneration (.generateDataKey err))) ∧
    (∀ out w1 err w2,
      kms.GenerateDataKey { KeyId := keyID, KeySpec := "AES_256" } w = (.ok out, w1) →
      kms.Decrypt { KeyId := keyID, CiphertextBlob := out.Plaintext } w1 = (.error err, w2) →
      (KMSEncryptor.Encrypt kms gcm ⟨keyID, none⟩ w entropy data).1 =
        .error (.dataKeyDecryption err)) ∧
    (∀ key err w1,
      kms.Decrypt { KeyId := keyID, CiphertextBlob := some key } w = (.error err, w1) →
      (KMSEncryptor.Encrypt kms gcm ⟨keyID, some key⟩ w entropy data).1 =
        .error (.dataKeyDecryption err)) ∧
    (∀ dataKey err w1,
      kms.Decrypt { KeyId := keyID, CiphertextBlob := dataKey } w = (.error err, w1) →
      (KMSEncryptor.Decrypt kms gcm ⟨keyID, dataKey⟩ w frame).1 =
        .error (.dataKeyDecryption err)) := by
  refine ⟨?_, ?_, ?_, ?_⟩
  · intro err w1 h
    simp [KMSEncryptor.Encrypt, KMSEncryptor.GenerateDataKey, h]
  · intro out w1 err w2 h1 h2
    simp [KMSEncryptor.Encrypt, KMSEncryptor.GenerateDataKey, h1, h2]
  · intro key err w1 h
    simp [KMSEncryptor.Encrypt, h]
  · intro dataKey err w1 h
    simp [KMSEncryptor.Decrypt, h]

/-- C12 on a service that is down and on the stub service: each of the four
failing requests turns into the error of the operation. -/
theorem kms_failure_propagates_witness :
    (KMSEncryptor.Encrypt downKMS sumGCM ⟨"alias/backup", none⟩ () stubEntropy [1, 2, 3]).1 =
      .error (.dataKeyGeneration (.generateDataKey "KMSInternalException")) ∧
    (KMSEncryptor.Encrypt stubKMS sumGCM ⟨"alias/backup", none⟩ () stubEntropy [1, 2, 3]).1 =
      .error (.dataKeyDecryption "InvalidCiphertextException") ∧
    (KMSEncryptor.Encrypt downKMS sumGCM ⟨"alias/backup", some stubWrappedKey⟩ () stubEntropy
      [1, 2, 3]).1 = .error (.dataKeyDecryption "KMSInternalException") ∧
    (KMSEncryptor.Decrypt downKMS sumGCM ⟨"alias/backup", some stubWrappedKey⟩ ()
      ⟨stubWrappedKey, stubEntropy ++ [1, 2, 3, 56]⟩).1 =
      .error (.dataKeyDecryption "KMSInternalException") :=
  ⟨(kms_failure_propagates downKMS sumGCM "alias/backup" () stubEntropy [1, 2, 3]
      ⟨stubWrappedKey, stubEntropy ++ [1, 2, 3, 56]⟩).1 "KMSInternalException" () (by decide),
   (kms_failure_propagates stubKMS sumGCM "alias/backup" () stubEntropy [1, 2, 3]
      ⟨stubWrappedKey, stubEntropy ++ [1, 2, 3, 56]⟩).2.1
      { Plaintext := some stubPlaintextKey, CiphertextBlob := some stubWrappedKey } ()
      "InvalidCiphertextException" () (by decide) (by decide),
   (kms_failure_propagates downKMS sumGCM "alias/backup" () stubEntropy [1, 2, 3]
      ⟨stubWrappedKey, stubEntropy ++ [1, 2, 3, 56]⟩).2.2.1 stubWrappedKey
      "KMSInternalException" () (by decide),
   (kms_failure_propagates downKMS sumGCM "alias/backup" () stubEntropy [1, 2, 3]
      ⟨stubWrappedKey, stubEntropy ++ [1, 2, 3, 56]⟩).2.2.2 (some stubWrappedKey)
      "KMSInternalException" () (by decide)⟩

/-! ## The encrypted-payload detector -/

theorem isEncryptedData_fields (data : List Byte) :
    (uint32 (data.getD 0 0).val ||| uint32 (data.getD 1 0).val <<< 8
      ||| uint32 (data.getD 2 0).val <<< 16 ||| uint32 (data.getD 3 0).val <<< 24)
      = declaredKeyLen data ∧
    (uint32 (data.getD 4 0).val ||| uint32 (data.getD 5 0).val <<< 8
      ||| uint32 (data.getD 6 0).val <<< 16 ||| uint32 (data.getD 7 0).val <<< 24)
      = declaredDataLen data := by
  have hu : ∀ b : Byte, uint32 b.val = b.val := fun b =>
    Nat.mod_eq_of_lt (Nat.lt_trans b.isLt (by decide))
  simp only [hu, declaredKeyLen, declaredDataLen, Uint32, and_self]

/-- C13: `isEncryptedData d` is true exactly when `d` has at least 8 bytes,
the little-endian field `a` of bytes 0-3 is 12, the little-endian field `b` of
bytes 4-7 lies in `[50, 2000]`, and `len d ≥ 8 + a + b + 16`; every accepted
`d` has at least 86 bytes. -/
theorem isEncryptedData_iff (d : List Byte) :
    (isEncryptedData d = true ↔
      8 ≤ d.length ∧ declaredKeyLen d = 12 ∧
        50 ≤ declaredDataLen d ∧ declaredDataLen d ≤ 2000 ∧
        8 + declaredKeyLen d + declaredDataLen d + 16 ≤ d.length) ∧
    (isEncryptedData d = true → 86 ≤ d.length) := by
  have hiff : isEncryptedData d = true ↔
      8 ≤ d.length ∧ declaredKeyLen d = 12 ∧
        50 ≤ declaredDataLen d ∧ declaredDataLen d ≤ 2000 ∧
        8 + declaredKeyLen d + declaredDataLen d + 16 ≤ d.length := by
    obtain ⟨ha, hb⟩ := isEncryptedData_fields d
    unfold isEncryptedData
    simp only [ha, hb]
    by_cases h8 : d.length < 8
    · rw [if_pos h8]
      constructor
      · intro h; cases h
      · intro h; omega
    · rw [if_neg h8]
      by_cases hf : declaredKeyLen d = 12 ∧ declaredDataLen d ≥ 50 ∧ declaredDataLen d ≤ 2000
      · rw [if_pos hf]
        simp only [decide_eq_true_eq, ge_iff_le]
        obtain ⟨h1, h2, h3⟩ := hf
        constructor
        · intro h; exact ⟨by omega, h1, h2, h3, h⟩
        · intro h; exact h.2.2.2.2
      · rw [if_neg hf]
        constructor
        · intro h; cases h
        · intro h; exact absurd ⟨h.2.1, h.2.2.1, h.2.2.2.1⟩ hf
  refine ⟨hiff, fun h => ?_⟩
  obtain ⟨-, h1, h2, -, h4⟩ := hiff.mp h
  omega

/-- C13 at an 86-byte blob with fields 12 and 50, which the detector accepts. -/
theorem isEncryptedData_iff_witness :
    isEncryptedData ([12, 0, 0, 0, 50, 0, 0, 0] ++ List.replicate 78 0) = true ∧
    86 ≤ (([12, 0, 0, 0, 50, 0, 0, 0] : List Byte) ++ List.replicate 78 0).length :=
  ⟨by decide,
   (isEncryptedData_iff ([12, 0, 0, 0, 50, 0, 0, 0] ++ List.replicate 78 0)).2 (by decide)⟩

/-! ## The staging archive -/

theorem mapGet_mapSet_self {V : Type} (m : GoMap V) (k : String) (v : V) :
    mapGet (mapSet m k v) k = some v := by
  induction m with
  | nil => simp [mapSet, mapGet]
  | cons p rest ih =>
    obtain ⟨k1, v1⟩ := p
    by_cases h : k1 = k
    · simp [mapSet, mapGet, h]
    · simp [mapSet, mapGet, h, ih]

theorem mapGet_mapSet_of_ne {V : Type} (m : GoMap V) (k q : String) (v : V) (h : q ≠ k) :
    mapGet (mapSet m k v) q = mapGet m q := by
  induction m with
  | nil => simp [mapSet, mapGet, Ne.symm h]
  | cons p rest ih =>
    obtain ⟨k1, v1⟩ := p
    by_cases h1 : k1 = k
    · subst h1
      simp [mapSet, mapGet, Ne.symm h]
    · by_cases h2 : k1 = q
      · subst h2
        simp [mapSet, mapGet, h]
      · simp [mapSet, mapGet, h1, h2, ih]

theorem mapGet_stageFile_self (Files : GoMap (List BackupFile)) (userPoolID : String)
    (file : BackupFile) :
    mapGet (stageFile Files userPoolID file) userPoolID =
      some ((mapGet Files userPoolID).getD [] ++ [file]) := by
  unfold stageFile
  rw [mapGet_mapSet_self]
  cases h : mapGet Files userPoolID with
  | none => simp [mapGet_mapSet_self]
  | some files => simp [h]

theorem mapGet_stageFile_of_ne (Files : GoMap (List BackupFile)) (userPoolID q : String)
    (file : BackupFile) (h : q ≠ userPoolID) :
    mapGet (stageFile Files userPoolID file) q = mapGet Files q := by
  unfold stageFile
  rw [mapGet_mapSet_of_ne _ _ _ _ h]
  split
  · exact mapGet_mapSet_of_ne _ _ _ _ h
  · rfl

theorem LocalStorage_SaveJSON_eq (MarshalIndent : JSONValue → Except String (List Byte))
    (s : LocalStorage) (pfx userPoolID filename : String) (data : JSONValue) :
    s.SaveJSON MarshalIndent pfx userPoolID filename data =
      match MarshalIndent data with
      | .error err => (.error (.encodeJSON err), s)
      | .ok jsonData =>
        (.ok (), { s with backupData :=
          { Files := stageFile s.backupData.Files userPoolID
              { Name := filename, Content := jsonData } } }) := rfl

theorem S3Storage_SaveJSON_eq (MarshalIndent : JSONValue → Except String (List Byte))
    (s : S3Storage) (pfx userPoolID filename : String) (data : JSONValue) :
    s.SaveJSON MarshalIndent pfx userPoolID filename data =
      match MarshalIndent data with
      | .error err => (.error (.encodeJSON err), s)
      | .ok jsonData =>
        (.ok (), { s with backupData :=
          { Files := stageFile s.backupData.Files userPoolID
              { Name := filename, Content := jsonData } } }) := rfl

/-- What `Storage.SaveJSON` does to the staging archive, for both implementations. -/
theorem Storage_SaveJSON_spec (MarshalIndent : JSONValue → Except String (List Byte))
    (s : Storage) (pfx userPoolID filename : String) (data : JSONValue) :
    (∀ err, MarshalIndent data = .error err →
      s.SaveJSON MarshalIndent pfx userPoolID filename data = (.error (.encodeJSON err), s)) ∧
    (∀ jsonData, MarshalIndent data = .ok jsonData →
      (s.SaveJSON MarshalIndent pfx userPoolID filename data).1 = .ok () ∧
      (s.SaveJSON MarshalIndent pfx userPoolID filename data).2.GetBackupData.Files =
        stageFile s.GetBackupData.Files userPoolID { Name := filename, Content := jsonData }) := by
  constructor
  · intro err h
    cases s with
    | localStorage l => simp [Storage.SaveJSON, LocalStorage_SaveJSON_eq, h]
    | s3Storage l => simp [Storage.SaveJSON, S3Storage_SaveJSON_eq, h]
  · intro jsonData h
    cases s with
    | localStorage l =>
      simp [Storage.SaveJSON, LocalStorage_SaveJSON_eq, h, Storage.GetBackupData,
        LocalStorage.GetBackupData]
    | s3Storage l =>
      simp [Storage.SaveJSON, S3Storage_SaveJSON_eq, h, Storage.GetBackupData,
        S3Storage.GetBackupData]

theorem SaveJSONs_spec (MarshalIndent : JSONValue → Except String (List Byte))
    (pfx r : String) (calls : List (String × JSONValue × List Byte))
    (hcalls : ∀ c ∈ calls, MarshalIndent c.2.1 = .ok c.2.2) (s : LocalStorage) :
    (LocalStorage.SaveJSONs MarshalIndent pfx r (calls.map (fun c => (c.1, c.2.1))) s).1
      = .ok () ∧
    (mapGet (LocalStorage.SaveJSONs MarshalIndent pfx r
        (calls.map (fun c => (c.1, c.2.1))) s).2.GetBackupData.Files r).getD [] =
      (mapGet s.GetBackupData.Files r).getD [] ++
        calls.map (fun c => { Name := c.1, Content := c.2.2 }) := by
  induction calls generalizing s with
  | nil => simp [LocalStorage.SaveJSONs]
  | cons c calls ih =>
    have hc : MarshalIndent c.2.1 = .ok c.2.2 := hcalls c (List.mem_cons_self _ _)
    have hrest : ∀ c1 ∈ calls, MarshalIndent c1.2.1 = .ok c1.2.2 :=
      fun c1 h1 => hcalls c1 (List.mem_cons_of_mem _ h1)
    simp only [List.map_cons, LocalStorage.SaveJSONs, LocalStorage_SaveJSON_eq, hc]
    obtain ⟨h1, h2⟩ := ih hrest
      { s with backupData :=
          { Files := stageFile s.backupData.Files r { Name := c.1, Content := c.2.2 } } }
    refine ⟨h1, ?_⟩
    rw [h2]
    simp only [LocalStorage.GetBackupData, mapGet_stageFile_self, Option.getD_some,
      List.append_assoc, List.singleton_append]

/-- C19: for a value `v` that `json.MarshalIndent` encodes to `content`,
`SaveJSON(prefix, r, n, v)` succeeds and appends the one file `{n, content}` at
the end of the sequence of `r`; the sequences of the other resources are
unchanged; the prefix plays no part; `S3Storage.SaveJSON` does the same to the
same archive; and after a series of calls for `r` its sequence holds the files
of the calls in call order after those it held, as `GetBackupData` returns them. -/
theorem SaveJSON_appends (MarshalIndent : JSONValue → Except String (List Byte))
    (s : LocalStorage) (pfx r n : String) (v : JSONValue) (content : List Byte)
    (hv : MarshalIndent v = .ok content) :
    (s.SaveJSON MarshalIndent pfx r n v).1 = .ok () ∧
    mapGet (s.SaveJSON MarshalIndent pfx r n v).2.GetBackupData.Files r =
      some ((mapGet s.GetBackupData.Files r).getD [] ++ [{ Name := n, Content := content }]) ∧
    (∀ q, q ≠ r → mapGet (s.SaveJSON MarshalIndent pfx r n v).2.GetBackupData.Files q =
      mapGet s.GetBackupData.Files q) ∧
    (∀ pfx2, s.SaveJSON MarshalIndent pfx2 r n v = s.SaveJSON MarshalIndent pfx r n v) ∧
    (∀ s3 : S3Storage, s3.GetBackupData = s.GetBackupData →
      (s3.SaveJSON MarshalIndent pfx r n v).1 = .ok () ∧
      (s3.SaveJSON MarshalIndent pfx r n v).2.GetBackupData =
        (s.SaveJSON MarshalIndent pfx r n v).2.GetBackupData) ∧
    (∀ calls : List (String × JSONValue × List Byte),
      (∀ c ∈ calls, MarshalIndent c.2.1 = .ok c.2.2) →
      (LocalStorage.SaveJSONs MarshalIndent pfx r (calls.map (fun c => (c.1, c.2.1))) s).1
        = .ok () ∧
      (mapGet (LocalStorage.SaveJSONs MarshalIndent pfx r
          (calls.map (fun c => (c.1, c.2.1))) s).2.GetBackupData.Files r).getD [] =
        (mapGet s.GetBackupData.Files r).getD [] ++
          calls.map (fun c => { Name := c.1, Content := c.2.2 })) := by
  refine ⟨?_, ?_, ?_, ?_, ?_, ?_⟩
  · simp [LocalStorage_SaveJSON_eq, hv]
  · simp [LocalStorage_SaveJSON_eq, hv, LocalStorage.GetBackupData, mapGet_stageFile_self]
  · intro q hq
    simp [LocalStorage_SaveJSON_eq, hv, LocalStorage.GetBackupData,
      mapGet_stageFile_of_ne _ _ _ _ hq]
  · intro pfx2
    rfl
  · intro s3 hs3
    simp only [S3Storage.GetBackupData, LocalStorage.GetBackupData] at hs3
    simp [LocalStorage_SaveJSON_eq, S3Storage_SaveJSON_eq, hv, LocalStorage.GetBackupData,
      S3Storage.GetBackupData, hs3]
  · intro calls hcalls
    exact SaveJSONs_spec MarshalIndent pfx r calls hcalls s

/-- C19 on a fresh local storage: one call stages one file for `A`, and two
calls stage two files in call order. -/
theorem SaveJSON_appends_witness :
    mapGet (NewLocalStorage.SaveJSON stubMarshal "backups" "A" "pool-config.json"
        (.userPool "A")).2.GetBackupData.Files "A" =
      some ((mapGet NewLocalStorage.GetBackupData.Files "A").getD [] ++
        [{ Name := "pool-config.json", Content := [2, 1] }]) ∧
    (mapGet (LocalStorage.SaveJSONs stubMarshal "backups" "A"
        [("pool-config.json", .userPool "A"), ("users.json", .usersBackup { Users := [] })]
        NewLocalStorage).2.GetBackupData.Files "A").getD [] =
      [{ Name := "pool-config.json", Content := [2, 1] },
       { Name := "users.json", Content := [3, 0] }] :=
  have h := SaveJSON_appends stubMarshal NewLocalStorage "backups" "A" "pool-config.json"
    (.userPool "A") [2, 1] (by decide)
  ⟨h.2.1,
   (h.2.2.2.2.2 [("pool-config.json", .userPool "A", [2, 1]),
      ("users.json", .usersBackup { Users := [] }, [3, 0])] (by decide)).2⟩

/-! ## `backupSinglePool` -/

theorem collectUsers_error {σ : Type} (env : BackupEnv σ) (userPoolID : String)
    (users : List UserType) (usersBackup : UsersBackup) (w : σ) (err : PoolError)
    (h : (PoolBackupper.collectUsers env userPoolID users usersBackup w).1 = .error err) :
    err.fromDirectory = true := by
  induction users generalizing usersBackup w with
  | nil => simp [PoolBackupper.collectUsers] at h
  | cons user users ih =>
    unfold PoolBackupper.collectUsers at h
    rcases hg : env.cognitoClient.ListUserGroups userPoolID user.Username w with ⟨r, w1⟩
    rw [hg] at h
    cases r with
    | error e =>
      simp only [Except.error.injEq] at h
      rw [← h]; rfl
    | ok groups => exact ih _ _ h

/-- What one run of `backupSinglePool` does to the staging archive: the
entries of the other resources are untouched; an error of a directory call
leaves the backupper as it was; on success three files are appended to the
entry of the pool, the first of them the encoded metadata record of the pool. -/
theorem backupSinglePool_spec {σ : Type} (env : BackupEnv σ) (b : PoolBackupper) (w : σ)
    (userPoolID pfx : String) :
    (∀ q, q ≠ userPoolID →
      mapGet (PoolBackupper.backupSinglePool env b w userPoolID pfx).2.1.storage.GetBackupData.Files
        q = mapGet b.storage.GetBackupData.Files q) ∧
    (∀ err, (PoolBackupper.backupSinglePool env b w userPoolID pfx).1 = .error err →
      err.fromDirectory = true →
      (PoolBackupper.backupSinglePool env b w userPoolID pfx).2.1 = b) ∧
    ((PoolBackupper.backupSinglePool env b w userPoolID pfx).1 = .ok () →
      ∃ (timestamp : String) (metadata config users : List Byte),
        env.MarshalIndent (.backupMetadata
          { Version := "1.0", Timestamp := timestamp, SourceAccount := "", SourceRegion := "",
            UserPoolID := userPoolID, BackupFiles := ["pool-config.json", "users.json"] })
          = .ok metadata ∧
        mapGet
          (PoolBackupper.backupSinglePool env b w userPoolID pfx).2.1.storage.GetBackupData.Files
          userPoolID =
          some ((mapGet b.storage.GetBackupData.Files userPoolID).getD [] ++
            [{ Name := "metadata.json", Content := metadata },
             { Name := "pool-config.json", Content := config },
             { Name := "users.json", Content := users }])) := by
  unfold PoolBackupper.backupSinglePool
  rcases env.cognitoClient.GetUserPoolConfiguration userPoolID w with ⟨r1, w1⟩
  cases r1 with
  | error e1 => exact ⟨fun _ _ => rfl, fun _ _ _ => rfl, fun h => by cases h⟩
  | ok poolConfig =>
  simp only
  rcases env.cognitoClient.ListUsers userPoolID w1 with ⟨r2, w2⟩
  cases r2 with
  | error e2 => exact ⟨fun _ _ => rfl, fun _ _ _ => rfl, fun h => by cases h⟩
  | ok users =>
  simp only
  rcases hcu : PoolBackupper.collectUsers env userPoolID users { Users := [] } w2 with ⟨r3, w3⟩
  cases r3 with
  | error e3 => exact ⟨fun _ _ => rfl, fun _ _ _ => rfl, fun h => by cases h⟩
  | ok usersBackup =>
  simp only
  obtain ⟨hm1, hm2⟩ := Storage_SaveJSON_spec env.MarshalIndent b.storage pfx userPoolID
    "metadata.json" (.backupMetadata
      { Version := "1.0", Timestamp := env.Now w3, SourceAccount := "", SourceRegion := "",
        UserPoolID := userPoolID, BackupFiles := ["pool-config.json", "users.json"] })
  rcases hM : env.MarshalIndent (.backupMetadata
      { Version := "1.0", Timestamp := env.Now w3, SourceAccount := "", SourceRegion := "",
        UserPoolID := userPoolID, BackupFiles := ["pool-config.json", "users.json"] })
    with e4 | metadata
  · rw [hm1 e4 hM]
    simp only
    refine ⟨fun _ _ => by first | rfl | trivial, ?_, ?_⟩
    · intro err h hd
      injection h with h
      subst h
      cases hd
    · intro h; cases h
  · obtain ⟨hs1, hf1⟩ := hm2 metadata hM
    rcases hsave1 : b.storage.SaveJSON env.MarshalIndent pfx userPoolID "metadata.json"
      (.backupMetadata
        { Version := "1.0", Timestamp := env.Now w3, SourceAccount := "", SourceRegion := "",
          UserPoolID := userPoolID, BackupFiles := ["pool-config.json", "users.json"] })
      with ⟨ra, st1⟩
    rw [hsave1] at hs1 hf1
    simp only at hs1 hf1
    subst hs1
    simp only
    obtain ⟨hc1, hc2⟩ := Storage_SaveJSON_spec env.MarshalIndent st1 pfx userPoolID
      "pool-config.json" (.userPool poolConfig.UserPool)
    rcases hC : env.MarshalIndent (.userPool poolConfig.UserPool) with e5 | config
    · rw [hc1 e5 hC]
      simp only
      refine ⟨fun q hq => ?_, ?_, ?_⟩
      · rw [hf1, mapGet_stageFile_of_ne _ _ _ _ hq]
      · intro err h hd
        injection h with h
        subst h
        cases hd
      · intro h; cases h
    · obtain ⟨hs2, hf2⟩ := hc2 config hC
      rcases hsave2 : st1.SaveJSON env.MarshalIndent pfx userPoolID "pool-config.json"
        (.userPool poolConfig.UserPool) with ⟨rb, st2⟩
      rw [hsave2] at hs2 hf2
      simp only at hs2 hf2
      subst hs2
      simp only
      obtain ⟨hu1, hu2⟩ := Storage_SaveJSON_spec env.MarshalIndent st2 pfx userPoolID
        "users.json" (.usersBackup usersBackup)
      rcases hU : env.MarshalIndent (.usersBackup usersBackup) with e6 | usersData
      · rw [hu1 e6 hU]
        simp only
        refine ⟨fun q hq => ?_, ?_, ?_⟩
        · rw [hf2, mapGet_stageFile_of_ne _ _ _ _ hq, hf1, mapGet_stageFile_of_ne _ _ _ _ hq]
        · intro err h hd
          injection h with h
          subst h
          cases hd
        · intro h; cases h
      · obtain ⟨hs3, hf3⟩ := hu2 usersData hU
        rcases hsave3 : st2.SaveJSON env.MarshalIndent pfx userPoolID "users.json"
          (.usersBackup usersBackup) with ⟨rc, st3⟩
        rw [hsave3] at hs3 hf3
        simp only at hs3 hf3
        subst hs3
        simp only
        refine ⟨fun q hq => ?_, ?_, fun _ => ?_⟩
        · rw [hf3, mapGet_stageFile_of_ne _ _ _ _ hq, hf2, mapGet_stageFile_of_ne _ _ _ _ hq,
            hf1, mapGet_stageFile_of_ne _ _ _ _ hq]
        · intro err h _
          cases h
        · refine ⟨env.Now w3, metadata, config, usersData, hM, ?_⟩
          rw [hf3, mapGet_stageFile_self, hf2, mapGet_stageFile_self, hf1,
            mapGet_stageFile_self]
          simp

/-- C17 as stated fails: the three files staged for a pool are named
`metadata.json`, `pool-config.json` and `users.json`. -/
theorem backupSinglePool_file_names :
    (PoolBackupper.backupSinglePool stubEnv stubBackupper () "A" "backups").1 = .ok () ∧
    (mapGet (PoolBackupper.backupSinglePool stubEnv stubBackupper () "A"
        "backups").2.1.storage.GetBackupData.Files "A").map (List.map BackupFile.Name) =
      some ["metadata.json", "pool-config.json", "users.json"] ∧
    ["metadata.json", "pool-config.json", "users.json"] ≠
      ["metadata.json", "resource-config.json", "members.json"] := by
  decide

/-- C17, amended: for every resource whose collection succeeds on an initially
empty staging archive, the archive holds exactly three files for that resource,
named `metadata.json`, `pool-config.json` and `users.json`, in that order. -/
theorem backupSinglePool_stages_three_files {σ : Type} (env : BackupEnv σ) (b : PoolBackupper)
    (w : σ) (userPoolID pfx : String) (hempty : b.storage.GetBackupData.Files = [])
    (hok : (PoolBackupper.backupSinglePool env b w userPoolID pfx).1 = .ok ()) :
    (mapGet (PoolBackupper.backupSinglePool env b w userPoolID
        pfx).2.1.storage.GetBackupData.Files userPoolID).map (List.map BackupFile.Name) =
      some ["metadata.json", "pool-config.json", "users.json"] := by
  obtain ⟨-, -, h3⟩ := backupSinglePool_spec env b w userPoolID pfx
  obtain ⟨timestamp, metadata, config, users, -, hfiles⟩ := h3 hok
  rw [hfiles, hempty]
  rfl

/-- C17, amended, on the sample directory. -/
theorem backupSinglePool_stages_three_files_witness :
    (mapGet (PoolBackupper.backupSinglePool stubEnv stubBackupper () "C"
        "backups").2.1.storage.GetBackupData.Files "C").map (List.map BackupFile.Name) =
      some ["metadata.json", "pool-config.json", "users.json"] :=
  backupSinglePool_stages_three_files stubEnv stubBackupper () "C" "backups" (by decide)
    (by decide)

theorem readPoolConfig_reads {σ P : Type} (ReadFile : String → σ → Except String (List Byte) × σ)
    (Unmarshal : List Byte → Except String P) (metadata : BackupMetadata) (w : σ)
    (log : List String) :
    (Pool.readPoolConfig (recordingReadFile ReadFile) Unmarshal metadata (w, log)).2.2 =
      log ++ [filepathJoin [metadata.UserPoolID, "pool-config.json"]] := by
  unfold Pool.readPoolConfig recordingReadFile
  simp only
  rcases ReadFile (filepathJoin [metadata.UserPoolID, "pool-config.json"]) w with ⟨r, w1⟩
  cases r with
  | error e => rfl
  | ok configData =>
    simp only
    cases Unmarshal configData <;> rfl

theorem readUsersBackup_reads {σ : Type} (ReadFile : String → σ → Except String (List Byte) × σ)
    (Unmarshal : List Byte → Except String UsersBackup) (metadata : BackupMetadata) (w : σ)
    (log : List String) :
    (Users.readUsersBackup (recordingReadFile ReadFile) Unmarshal metadata (w, log)).2.2 =
      log ++ [filepathJoin [metadata.UserPoolID, "users.json"]] := by
  unfold Users.readUsersBackup recordingReadFile
  simp only
  rcases ReadFile (filepathJoin [metadata.UserPoolID, "users.json"]) w with ⟨r, w1⟩
  cases r with
  | error e => rfl
  | ok userData =>
    simp only
    cases Unmarshal userData <;> rfl

/-- C18: for every resource collected successfully on an initially empty
staging archive, the staged `metadata.json` is the encoding of a metadata
record that carries the resource's id and whose `BackupFiles` are the names of
the other files staged for the resource; and the keys that `RestorePool` and
`RestoreUsers` read from the storage for that record are its `BackupFiles`,
each joined to the resource id. -/
theorem metadata_names_staged_files {σ τ P : Type} (env : BackupEnv σ) (b : PoolBackupper)
    (w : σ) (userPoolID pfx : String) (hempty : b.storage.GetBackupData.Files = [])
    (hok : (PoolBackupper.backupSinglePool env b w userPoolID pfx).1 = .ok ())
    (ReadFile : String → τ → Except String (List Byte) × τ)
    (UnmarshalPool : List Byte → Except String P)
    (UnmarshalUsers : List Byte → Except String UsersBackup) (w1 w2 : τ) :
    ∃ (metadata : BackupMetadata) (metadataJSON : List Byte) (others : List BackupFile),
      env.MarshalIndent (.backupMetadata metadata) = .ok metadataJSON ∧
      mapGet (PoolBackupper.backupSinglePool env b w userPoolID
          pfx).2.1.storage.GetBackupData.Files userPoolID =
        some ({ Name := "metadata.json", Content := metadataJSON } :: others) ∧
      metadata.UserPoolID = userPoolID ∧
      metadata.BackupFiles = others.map BackupFile.Name ∧
      (Pool.readPoolConfig (recordingReadFile ReadFile) UnmarshalPool metadata (w1, [])).2.2 ++
        (Users.readUsersBackup (recordingReadFile ReadFile) UnmarshalUsers metadata
          (w2, [])).2.2 =
        metadata.BackupFiles.map (fun name => filepathJoin [metadata.UserPoolID, name]) := by
  obtain ⟨-, -, h3⟩ := backupSinglePool_spec env b w userPoolID pfx
  obtain ⟨timestamp, metadataJSON, config, users, hM, hfiles⟩ := h3 hok
  refine ⟨_, metadataJSON,
    [{ Name := "pool-config.json", Content := config }, { Name := "users.json", Content := users }],
    hM, ?_, rfl, rfl, ?_⟩
  · rw [hfiles, hempty]
    rfl
  · rw [readPoolConfig_reads, readUsersBackup_reads]
    rfl

/-- C18 on the sample directory, with a storage in which no file is found:
the keys read are `A/pool-config.json` and `A/users.json`. -/
theorem metadata_names_staged_files_witness :
    ∃ (metadata : BackupMetadata) (metadataJSON : List Byte) (others : List BackupFile),
      stubMarshal (.backupMetadata metadata) = .ok metadataJSON ∧
      mapGet (PoolBackupper.backupSinglePool stubEnv stubBackupper () "A"
          "backups").2.1.storage.GetBackupData.Files "A" =
        some ({ Name := "metadata.json", Content := metadataJSON } :: others) ∧
      metadata.UserPoolID = "A" ∧
      metadata.BackupFiles = others.map BackupFile.Name ∧
      (Pool.readPoolConfig (recordingReadFile noFile) (fun _ => Except.ok ()) metadata
          ((), [])).2.2 ++
        (Users.readUsersBackup (recordingReadFile noFile) (fun _ => Except.ok { Users := [] })
          metadata ((), [])).2.2 =
        metadata.BackupFiles.map (fun name => filepathJoin [metadata.UserPoolID, name]) :=
  metadata_names_staged_files stubEnv stubBackupper () "A" "backups" (by decide) (by decide)
    noFile (fun _ => Except.ok ()) (fun _ => Except.ok { Users := [] }) () ()

/-! ### A failing directory call -/

theorem collectUsers_append {σ : Type} (env : BackupEnv σ) (userPoolID : String)
    (pre post : List UserType) (usersBackup : UsersBackup) (w : σ) :
    PoolBackupper.collectUsers env userPoolID (pre ++ post) usersBackup w =
      match PoolBackupper.collectUsers env userPoolID pre usersBackup w with
      | (.error err, w) => (.error err, w)
      | (.ok usersBackup, w) => PoolBackupper.collectUsers env userPoolID post usersBackup w := by
  induction pre generalizing usersBackup w with
  | nil => rfl
  | cons user pre ih =>
    simp only [List.cons_append, PoolBackupper.collectUsers]
    rcases env.cognitoClient.ListUserGroups userPoolID user.Username w with ⟨r, w1⟩
    cases r with
    | error e => rfl
    | ok groups => exact ih _ _

/-- When a call on the directory fails for a pool, be it the description of
the pool, the listing of its users, or the listing of the groups of one of its
users after the calls before it have succeeded, `backupSinglePool` returns the
error of that call and the backupper is the one it was given: no file has been
staged for the pool, and no entry made for it. -/
theorem backupSinglePool_directory_failure {σ : Type} (env : BackupEnv σ) (b : PoolBackupper)
    (w : σ) (userPoolID pfx : String) :
    (∀ err w1, env.cognitoClient.GetUserPoolConfiguration userPoolID w = (.error err, w1) →
      PoolBackupper.backupSinglePool env b w userPoolID pfx =
        (.error (.userPoolConfiguration err), b, w1)) ∧
    (∀ poolConfig w1 err w2,
      env.cognitoClient.GetUserPoolConfiguration userPoolID w = (.ok poolConfig, w1) →
      env.cognitoClient.ListUsers userPoolID w1 = (.error err, w2) →
      PoolBackupper.backupSinglePool env b w userPoolID pfx = (.error (.userList err), b, w2)) ∧
    (∀ poolConfig w1 pre user post w2 usersBackup w3 err w4,
      env.cognitoClient.GetUserPoolConfiguration userPoolID w = (.ok poolConfig, w1) →
      env.cognitoClient.ListUsers userPoolID w1 = (.ok (pre ++ user :: post), w2) →
      PoolBackupper.collectUsers env userPoolID pre { Users := [] } w2 = (.ok usersBackup, w3) →
      env.cognitoClient.ListUserGroups userPoolID user.Username w3 = (.error err, w4) →
      PoolBackupper.backupSinglePool env b w userPoolID pfx =
        (.error (.userGroups err), b, w4)) := by
  refine ⟨?_, ?_, ?_⟩
  · intro err w1 h1
    unfold PoolBackupper.backupSinglePool
    rw [h1]
  · intro poolConfig w1 err w2 h1 h2
    unfold PoolBackupper.backupSinglePool
    rw [h1]
    simp only
    rw [h2]
  · intro poolConfig w1 pre user post w2 usersBackup w3 err w4 h1 h2 h3 h4
    unfold PoolBackupper.backupSinglePool
    rw [h1]
    simp only
    rw [h2]
    simp only
    rw [collectUsers_append, h3]
    simp only [PoolBackupper.collectUsers]
    rw [h4]


/-! ## `BackupPools` -/

/-! ### The goroutines -/

theorem steps_zero {σ : Type} (env : BackupEnv σ) (pfx : String) (g : Goroutine)
    (s : Shared σ) : Goroutine.steps env pfx 0 g s = (g, s) := rfl

theorem steps_succ {σ : Type} (env : BackupEnv σ) (pfx : String) (n : Nat) (g : Goroutine)
    (s : Shared σ) :
    Goroutine.steps env pfx (n + 1) g s =
      Goroutine.steps env pfx n (g.step env pfx s).1 (g.step env pfx s).2 := rfl

theorem steps_done {σ : Type} (env : BackupEnv σ) (pfx : String) (n : Nat) (g : Goroutine)
    (s : Shared σ) (h : g.task = .done) : Goroutine.steps env pfx n g s = (g, s) := by
  induction n with
  | zero => rfl
  | succ n ih =>
    have hstep : g.step env pfx s = (g, s) := by
      unfold Goroutine.step
      rw [h]
    rw [steps_succ, hstep]
    exact ih

theorem steps_add {σ : Type} (env : BackupEnv σ) (pfx : String) (m n : Nat) (g : Goroutine)
    (s : Shared σ) :
    Goroutine.steps env pfx (m + n) g s =
      Goroutine.steps env pfx n (Goroutine.steps env pfx m g s).1
        (Goroutine.steps env pfx m g s).2 := by
  induction m generalizing g s with
  | zero => simp [Goroutine.steps]
  | succ m ih =>
    rw [Nat.succ_add, steps_succ, steps_succ]
    exact ih _ _

/-- A goroutine keeps its pool id. -/
theorem step_pool {σ : Type} (env : BackupEnv σ) (pfx : String) (g : Goroutine) (s : Shared σ) :
    (g.step env pfx s).1.pool = g.pool := by
  unfold Goroutine.step
  repeat' split
  all_goals rfl

/-- Once the list of users is known, each step of a goroutine that has not
ended brings it nearer to its end. -/
theorem step_stepsLeft {σ : Type} (env : BackupEnv σ) (pfx : String) (g : Goroutine)
    (s : Shared σ) (h1 : g.task ≠ .describePool) (h2 : ∀ pc, g.task ≠ .listUsers pc)
    (h3 : g.task ≠ .done) :
    (g.step env pfx s).1.task ≠ .describePool ∧ (∀ pc, (g.step env pfx s).1.task ≠ .listUsers pc) ∧
      (g.step env pfx s).1.task.stepsLeft < g.task.stepsLeft := by
  obtain ⟨pool, task, accessed⟩ := g
  cases task with
  | describePool => exact absurd rfl h1
  | listUsers pc => exact absurd rfl (h2 pc)
  | done => exact absurd rfl h3
  | listGroups pc users ub =>
    cases users with
    | nil => simp [Goroutine.step, PoolTask.stepsLeft]
    | cons user users =>
      simp only [Goroutine.step]
      split <;> simp [PoolTask.stepsLeft]
  | saveMetadata pc ub metadata =>
    simp only [Goroutine.step]
    split <;> simp [PoolTask.stepsLeft]
  | savePoolConfig pc ub =>
    simp only [Goroutine.step]
    split <;> simp [PoolTask.stepsLeft]
  | saveUsers ub =>
    simp only [Goroutine.step]
    split <;> simp [PoolTask.stepsLeft]
  | failed err => simp [Goroutine.step, PoolTask.stepsLeft]

theorem steps_reaches_done {σ : Type} (env : BackupEnv σ) (pfx : String) (n : Nat)
    (g : Goroutine) (s : Shared σ) (h1 : g.task ≠ .describePool)
    (h2 : ∀ pc, g.task ≠ .listUsers pc) (hn : g.task.stepsLeft ≤ n) :
    (Goroutine.steps env pfx n g s).1.task = .done := by
  induction n generalizing g s with
  | zero =>
    obtain ⟨pool, task, accessed⟩ := g
    cases task <;> simp_all [PoolTask.stepsLeft, Goroutine.steps]
  | succ n ih =>
    by_cases h3 : g.task = .done
    · rw [steps_done env pfx _ g s h3]; exact h3
    · obtain ⟨k1, k2, k3⟩ := step_stepsLeft env pfx g s h1 h2 h3
      rw [steps_succ]
      exact ih _ _ k1 k2 (by omega)

/-- No step leads back to the first task. -/
theorem step_ne_describePool {σ : Type} (env : BackupEnv σ) (pfx : String) (g : Goroutine)
    (s : Shared σ) : (g.step env pfx s).1.task ≠ .describePool := by
  obtain ⟨pool, task, accessed⟩ := g
  cases task with
  | listGroups pc users ub =>
    cases users with
    | nil => simp [Goroutine.step]
    | cons user users =>
      simp only [Goroutine.step]
      split <;> simp
  | failed err => simp [Goroutine.step]
  | done => simp [Goroutine.step]
  | _ =>
    simp only [Goroutine.step]
    split <;> simp

/-- Only the first task leads to the call of `ListUsers`. -/
theorem step_ne_listUsers {σ : Type} (env : BackupEnv σ) (pfx : String) (g : Goroutine)
    (s : Shared σ) (h : g.task ≠ .describePool) (pc : DescribeUserPoolOutput) :
    (g.step env pfx s).1.task ≠ .listUsers pc := by
  obtain ⟨pool, task, accessed⟩ := g
  cases task with
  | describePool => exact absurd rfl h
  | listGroups pc users ub =>
    cases users with
    | nil => simp [Goroutine.step]
    | cons user users =>
      simp only [Goroutine.step]
      split <;> simp
  | failed err => simp [Goroutine.step]
  | done => simp [Goroutine.step]
  | _ =>
    simp only [Goroutine.step]
    split <;> simp

/-- After two steps the goroutine is past the call of `ListUsers`. -/
theorem steps_two_late {σ : Type} (env : BackupEnv σ) (pfx : String) (g : Goroutine)
    (s : Shared σ) :
    (Goroutine.steps env pfx 2 g s).1.task ≠ .describePool ∧
      ∀ pc, (Goroutine.steps env pfx 2 g s).1.task ≠ .listUsers pc := by
  rw [steps_succ, steps_succ]
  exact ⟨step_ne_describePool env pfx _ _,
    step_ne_listUsers env pfx _ _ (step_ne_describePool env pfx _ _)⟩

/-- Every goroutine ends: `Goroutine.finish` leaves it at `done`. -/
theorem finish_done {σ : Type} (env : BackupEnv σ) (pfx : String) (g : Goroutine)
    (s : Shared σ) : (g.finish env pfx s).1.task = .done := by
  unfold Goroutine.finish
  obtain ⟨k1, k2⟩ := steps_two_late env pfx g s
  exact steps_reaches_done env pfx _ _ _ k1 k2 (Nat.le_refl _)

/-- The steps of a goroutine through the loop over the users are the loop
`collectUsers` of `backupSinglePool`. -/
theorem steps_listGroups {σ : Type} (env : BackupEnv σ) (pfx pool : String)
    (pc : DescribeUserPoolOutput) (users : List UserType) (ub : UsersBackup) (acc : Bool)
    (s : Shared σ) (m : Nat) :
    Goroutine.steps env pfx (users.length + (m + 1))
        { pool := pool, task := .listGroups pc users ub, accessed := acc } s =
      match PoolBackupper.collectUsers env pool users ub s.w with
      | (.error err, w) =>
        ({ pool := pool, task := .done, accessed := acc },
          { s with errCh := s.errCh ++ [{ pool := pool, cause := err }], w := w })
      | (.ok usersBackup, w) =>
        Goroutine.steps env pfx (m + 1)
          { pool := pool, task := .listGroups pc [] usersBackup, accessed := acc }
          { s with w := w } := by
  induction users generalizing ub s with
  | nil => simp [PoolBackupper.collectUsers]
  | cons user users ih =>
    have hlen : (user :: users).length + (m + 1) = (users.length + (m + 1)) + 1 := by
      simp only [List.length_cons]; omega
    rw [hlen, steps_succ]
    simp only [Goroutine.step, PoolBackupper.collectUsers]
    rcases env.cognitoClient.ListUserGroups pool user.Username s.w with ⟨r, w1⟩
    cases r with
    | error e =>
      simp only
      have h2 : users.length + (m + 1) = (users.length + m) + 1 := by omega
      rw [h2, steps_succ]
      simp only [Goroutine.step]
      rw [steps_done _ _ _ _ _ rfl]
    | ok groups =>
      simp only
      rw [ih]

theorem steps_failed {σ : Type} (env : BackupEnv σ) (pfx pool : String) (err : PoolError)
    (acc : Bool) (s : Shared σ) (n : Nat) :
    Goroutine.steps env pfx (n + 1) { pool := pool, task := .failed err, accessed := acc } s =
      ({ pool := pool, task := .done, accessed := acc },
        { s with errCh := s.errCh ++ [{ pool := pool, cause := err }] }) := by
  rw [steps_succ]
  simp only [Goroutine.step]
  rw [steps_done _ _ _ _ _ rfl]

theorem steps_saveUsers {σ : Type} (env : BackupEnv σ) (pfx pool : String) (ub : UsersBackup)
    (acc : Bool) (s : Shared σ) (n : Nat) :
    Goroutine.steps env pfx (n + 2) { pool := pool, task := .saveUsers ub, accessed := acc } s =
      match s.storage.SaveJSON env.MarshalIndent pfx pool "users.json" (.usersBackup ub) with
      | (.error e, storage) =>
        ({ pool := pool, task := .done, accessed := acc },
          { storage := storage,
            errCh := s.errCh ++ [{ pool := pool, cause := .saveUserInformation e }], w := s.w })
      | (.ok (), storage) =>
        ({ pool := pool, task := .done, accessed := true },
          { storage := storage, errCh := s.errCh, w := s.w }) := by
  rw [steps_succ]
  simp only [Goroutine.step]
  rcases s.storage.SaveJSON env.MarshalIndent pfx pool "users.json" (.usersBackup ub)
    with ⟨r, st⟩
  cases r with
  | error e =>
    simp only
    rw [steps_failed]
  | ok u =>
    simp only
    rw [steps_done _ _ _ _ _ rfl]

theorem steps_savePoolConfig {σ : Type} (env : BackupEnv σ) (pfx pool : String)
    (pc : DescribeUserPoolOutput) (ub : UsersBackup) (acc : Bool) (s : Shared σ) (n : Nat) :
    Goroutine.steps env pfx (n + 3)
        { pool := pool, task := .savePoolConfig pc ub, accessed := acc } s =
      match s.storage.SaveJSON env.MarshalIndent pfx pool "pool-config.json"
          (.userPool pc.UserPool) with
      | (.error e, storage) =>
        ({ pool := pool, task := .done, accessed := acc },
          { storage := storage,
            errCh := s.errCh ++ [{ pool := pool, cause := .savePoolConfiguration e }],
            w := s.w })
      | (.ok (), storage) =>
        Goroutine.steps env pfx (n + 2)
          { pool := pool, task := .saveUsers ub, accessed := true }
          { storage := storage, errCh := s.errCh, w := s.w } := by
  rw [steps_succ]
  simp only [Goroutine.step]
  rcases s.storage.SaveJSON env.MarshalIndent pfx pool "pool-config.json"
    (.userPool pc.UserPool) with ⟨r, st⟩
  cases r with
  | error e =>
    simp only
    rw [steps_failed]
  | ok u => rfl

theorem steps_saveMetadata {σ : Type} (env : BackupEnv σ) (pfx pool : String)
    (pc : DescribeUserPoolOutput) (ub : UsersBackup) (metadata : BackupMetadata) (acc : Bool)
    (s : Shared σ) (n : Nat) :
    Goroutine.steps env pfx (n + 4)
        { pool := pool, task := .saveMetadata pc ub metadata, accessed := acc } s =
      match s.storage.SaveJSON env.MarshalIndent pfx pool "metadata.json"
          (.backupMetadata metadata) with
      | (.error e, storage) =>
        ({ pool := pool, task := .done, accessed := acc },
          { storage := storage,
            errCh := s.errCh ++ [{ pool := pool, cause := .saveMetadata e }], w := s.w })
      | (.ok (), storage) =>
        Goroutine.steps env pfx (n + 3)
          { pool := pool, task := .savePoolConfig pc ub, accessed := true }
          { storage := storage, errCh := s.errCh, w := s.w } := by
  rw [steps_succ]
  simp only [Goroutine.step]
  rcases s.storage.SaveJSON env.MarshalIndent pfx pool "metadata.json"
    (.backupMetadata metadata) with ⟨r, st⟩
  cases r with
  | error e =>
    simp only
    rw [steps_failed]
  | ok u => rfl

theorem steps_listGroups_nil {σ : Type} (env : BackupEnv σ) (pfx pool : String)
    (pc : DescribeUserPoolOutput) (ub : UsersBackup) (acc : Bool) (s : Shared σ) (n : Nat) :
    Goroutine.steps env pfx (n + 5)
        { pool := pool, task := .listGroups pc [] ub, accessed := acc } s =
      Goroutine.steps env pfx (n + 4)
        { pool := pool,
          task := .saveMetadata pc ub
            { Version := "1.0", Timestamp := env.Now s.w, SourceAccount := "",
              SourceRegion := "", UserPoolID := pool,
              BackupFiles := ["pool-config.json", "users.json"] },
          accessed := acc } s := rfl

/-- A goroutine of `BackupPools` run from its launch to its end with the others
standing still does what `backupSinglePool` does: the storage and the directory
service end as `backupSinglePool` leaves them, and `errCh` gains the wrapped
error exactly when `backupSinglePool` returned one. The goroutine has accessed
the map `Files` unless `backupSinglePool` returned before. -/
theorem finish_eq_backupSinglePool {σ : Type} (env : BackupEnv σ) (pfx pool : String)
    (storage : Storage) (errCh : List PoolFailure) (w : σ) :
    Goroutine.finish env pfx { pool := pool, task := .describePool, accessed := false }
        { storage := storage, errCh := errCh, w := w } =
      match PoolBackupper.backupSinglePool env { storage := storage } w pool pfx with
      | (.error err, b, w) =>
        ({ pool := pool, task := .done, accessed := !err.beforeAccess },
          { storage := b.storage, errCh := errCh ++ [{ pool := pool, cause := err }], w := w })
      | (.ok (), b, w) =>
        ({ pool := pool, task := .done, accessed := true },
          { storage := b.storage, errCh := errCh, w := w }) := by
  unfold Goroutine.finish PoolBackupper.backupSinglePool
  rw [steps_succ, steps_succ]
  simp only [Goroutine.step]
  rcases env.cognitoClient.GetUserPoolConfiguration pool w with ⟨r1, w1⟩
  cases r1 with
  | error e1 =>
    simp [Goroutine.step, Goroutine.steps, PoolTask.stepsLeft, PoolError.beforeAccess,
      PoolError.fromDirectory]
  | ok pc =>
  simp only
  rcases env.cognitoClient.ListUsers pool w1 with ⟨r2, w2⟩
  cases r2 with
  | error e2 =>
    simp [Goroutine.step, Goroutine.steps, PoolTask.stepsLeft, PoolError.beforeAccess,
      PoolError.fromDirectory]
  | ok users =>
  simp only [steps_zero, PoolTask.stepsLeft]
  have hloop := steps_listGroups env pfx pool pc users { Users := [] } false
    { storage := storage, errCh := errCh, w := w2 } 5
  rw [show users.length + 6 = users.length + (5 + 1) from rfl, hloop]
  simp only
  rcases hcu : PoolBackupper.collectUsers env pool users { Users := [] } w2 with ⟨r3, w3⟩
  cases r3 with
  | error e3 =>
    have hd := collectUsers_error env pool users { Users := [] } w2 e3 (by rw [hcu])
    cases e3 <;> simp_all [PoolError.beforeAccess, PoolError.fromDirectory]
  | ok ub =>
  simp only
  rw [show (5 : Nat) + 1 = 1 + 5 from rfl, steps_listGroups_nil env pfx pool pc ub false _ 1,
    steps_saveMetadata]
  simp only
  rcases Storage.SaveJSON env.MarshalIndent storage pfx pool "metadata.json"
    (.backupMetadata
      { Version := "1.0", Timestamp := env.Now w3, SourceAccount := "", SourceRegion := "",
        UserPoolID := pool, BackupFiles := ["pool-config.json", "users.json"] }) with ⟨ra, st1⟩
  cases ra with
  | error ea => simp [PoolError.beforeAccess]
  | ok ua =>
  simp only
  rw [steps_savePoolConfig]
  simp only
  rcases Storage.SaveJSON env.MarshalIndent st1 pfx pool "pool-config.json"
    (.userPool pc.UserPool) with ⟨rb, st2⟩
  cases rb with
  | error eb => simp [PoolError.beforeAccess, PoolError.fromDirectory]
  | ok ub2 =>
  simp only
  rw [steps_saveUsers]
  simp only
  rcases Storage.SaveJSON env.MarshalIndent st2 pfx pool "users.json"
    (.usersBackup ub) with ⟨rc, st3⟩
  cases rc with
  | error ec => simp [PoolError.beforeAccess, PoolError.fromDirectory]
  | ok uc => simp

/-- Two runs of one goroutine from one state that both reach its end agree:
the steps are determined, and a goroutine at its end stays as it is. -/
theorem steps_done_unique {σ : Type} (env : BackupEnv σ) (pfx : String) (a b : Nat)
    (g : Goroutine) (s : Shared σ)
    (ha : (Goroutine.steps env pfx a g s).1.task = .done)
    (hb : (Goroutine.steps env pfx b g s).1.task = .done) :
    Goroutine.steps env pfx a g s = Goroutine.steps env pfx b g s := by
  rcases Nat.le_total a b with h | h
  · obtain ⟨c, rfl⟩ := Nat.exists_eq_add_of_le h
    rw [steps_add, steps_done _ _ _ _ _ ha]
  · obtain ⟨c, rfl⟩ := Nat.exists_eq_add_of_le h
    rw [steps_add, steps_done _ _ _ _ _ hb]

theorem finish_eq_steps {σ : Type} (env : BackupEnv σ) (pfx : String) (g : Goroutine)
    (s : Shared σ) : ∃ n, g.finish env pfx s = Goroutine.steps env pfx n g s :=
  ⟨2 + (Goroutine.steps env pfx 2 g s).1.task.stepsLeft, by
    rw [steps_add]; rfl⟩

/-- A step taken earlier does not change where a goroutine ends when the others
stand still. -/
theorem finish_step {σ : Type} (env : BackupEnv σ) (pfx : String) (g : Goroutine)
    (s : Shared σ) :
    Goroutine.finish env pfx (g.step env pfx s).1 (g.step env pfx s).2 =
      g.finish env pfx s := by
  obtain ⟨n1, h1⟩ := finish_eq_steps env pfx (g.step env pfx s).1 (g.step env pfx s).2
  obtain ⟨n0, h0⟩ := finish_eq_steps env pfx g s
  have d1 := finish_done env pfx (g.step env pfx s).1 (g.step env pfx s).2
  have d0 := finish_done env pfx g s
  rw [h1] at d1 ⊢
  rw [h0] at d0 ⊢
  rw [← steps_succ] at d1 ⊢
  exact steps_done_unique env pfx _ _ g s d1 d0

/-- With one goroutine the schedule plays no part. -/
theorem runGoroutines_single {σ : Type} (env : BackupEnv σ) (pfx : String)
    (schedule : List Nat) (g : Goroutine) (s : Shared σ) :
    runGoroutines env pfx schedule [g] s =
      ([(g.finish env pfx s).1], (g.finish env pfx s).2) := by
  unfold runGoroutines
  induction schedule generalizing g s with
  | nil => rfl
  | cons i schedule ih =>
    cases i with
    | zero =>
      have h := ih (g.step env pfx s).1 (g.step env pfx s).2
      rw [finish_step] at h
      exact h
    | succ i =>
      have hstep : stepAt env pfx (i + 1) [g] s = ([g], s) := by
        cases i <;> simp [stepAt]
      rw [runSchedule, hstep]
      exact ih g s

/-- With one matched pool, whatever the scheduler does, `BackupPools` is one
run of `backupSinglePool`: it returns nil when `backupSinglePool` does, and the
aggregated error with the one failure of the pool otherwise; the storage and
the directory service are as `backupSinglePool` leaves them. -/
theorem BackupPools_single_pool {σ : Type} (env : BackupEnv σ) (schedule : List Nat)
    (b : PoolBackupper) (w w1 : σ) (pattern pfx : String) (pool : UserPoolDescriptionType)
    (hlist : env.cognitoClient.ListUserPools pattern w = (.ok [pool], w1)) :
    PoolBackupper.BackupPools env schedule b w pattern pfx =
      match PoolBackupper.backupSinglePool env b w1 pool.Id pfx with
      | (.error err, b, w) =>
        .returned (.error (.errorsOccurred 1 [{ pool := pool.Id, cause := err }]), b, w)
      | (.ok (), b, w) => .returned (.ok (), b, w) := by
  unfold PoolBackupper.BackupPools
  rw [hlist]
  simp only [List.length_singleton, one_ne_zero, if_false, List.map_cons, List.map_nil]
  rw [runGoroutines_single, finish_eq_backupSinglePool]
  obtain ⟨storage⟩ := b
  rcases PoolBackupper.backupSinglePool env { storage := storage } w1 pool.Id pfx
    with ⟨r, b2, w2⟩
  cases r with
  | error err =>
    simp only [writers]
    cases hacc : (!err.beforeAccess) <;> simp [hacc]
  | ok u => simp [writers]

/-! ### All goroutines end -/

theorem steps_pool {σ : Type} (env : BackupEnv σ) (pfx : String) (n : Nat) (g : Goroutine)
    (s : Shared σ) : (Goroutine.steps env pfx n g s).1.pool = g.pool := by
  induction n generalizing g s with
  | zero => rfl
  | succ n ih => rw [steps_succ, ih, step_pool]

theorem finish_pool {σ : Type} (env : BackupEnv σ) (pfx : String) (g : Goroutine)
    (s : Shared σ) : (g.finish env pfx s).1.pool = g.pool := by
  obtain ⟨n, h⟩ := finish_eq_steps env pfx g s
  rw [h, steps_pool]

theorem stepAt_pools {σ : Type} (env : BackupEnv σ) (pfx : String) (i : Nat)
    (gs : List Goroutine) (s : Shared σ) :
    (stepAt env pfx i gs s).1.map (fun g => g.pool) = gs.map (fun g => g.pool) := by
  induction gs generalizing i with
  | nil => cases i <;> rfl
  | cons g gs ih =>
    cases i with
    | zero => simp [stepAt, step_pool]
    | succ i => simp [stepAt, ih]

theorem runSchedule_pools {σ : Type} (env : BackupEnv σ) (pfx : String) (schedule : List Nat)
    (gs : List Goroutine) (s : Shared σ) :
    (runSchedule env pfx schedule gs s).1.map (fun g => g.pool) = gs.map (fun g => g.pool) := by
  induction schedule generalizing gs s with
  | nil => rfl
  | cons i schedule ih =>
    rw [runSchedule]
    exact (ih _ _).trans (stepAt_pools env pfx i gs s)

theorem drain_pools {σ : Type} (env : BackupEnv σ) (pfx : String) (gs : List Goroutine)
    (s : Shared σ) :
    (drain env pfx gs s).1.map (fun g => g.pool) = gs.map (fun g => g.pool) := by
  induction gs generalizing s with
  | nil => rfl
  | cons g gs ih => simp [drain, finish_pool, ih]

theorem stepAt_forall {σ : Type} (env : BackupEnv σ) (pfx : String) (Q : Goroutine → Prop)
    (hstep : ∀ g s, Q g → Q (g.step env pfx s).1) (i : Nat) (gs : List Goroutine)
    (s : Shared σ) (h : ∀ g ∈ gs, Q g) : ∀ g ∈ (stepAt env pfx i gs s).1, Q g := by
  induction gs generalizing i with
  | nil => cases i <;> simp [stepAt]
  | cons g gs ih =>
    cases i with
    | zero =>
      intro g1 hg1
      simp only [stepAt, List.mem_cons] at hg1
      rcases hg1 with rfl | hg1
      · exact hstep g s (h g (List.mem_cons_self _ _))
      · exact h g1 (List.mem_cons_of_mem _ hg1)
    | succ i =>
      intro g1 hg1
      simp only [stepAt, List.mem_cons] at hg1
      rcases hg1 with rfl | hg1
      · exact h _ (List.mem_cons_self _ _)
      · exact ih i (fun g2 hg2 => h g2 (List.mem_cons_of_mem _ hg2)) g1 hg1

theorem runSchedule_forall {σ : Type} (env : BackupEnv σ) (pfx : String)
    (Q : Goroutine → Prop) (hstep : ∀ g s, Q g → Q (g.step env pfx s).1)
    (schedule : List Nat) (gs : List Goroutine) (s : Shared σ) (h : ∀ g ∈ gs, Q g) :
    ∀ g ∈ (runSchedule env pfx schedule gs s).1, Q g := by
  induction schedule generalizing gs s with
  | nil => exact h
  | cons i schedule ih =>
    rw [runSchedule]
    exact ih _ _ (stepAt_forall env pfx Q hstep i gs s h)

theorem drain_forall {σ : Type} (env : BackupEnv σ) (pfx : String) (Q R : Goroutine → Prop)
    (hfinish : ∀ g s, Q g → R (g.finish env pfx s).1) (gs : List Goroutine) (s : Shared σ)
    (h : ∀ g ∈ gs, Q g) : ∀ g ∈ (drain env pfx gs s).1, R g := by
  induction gs generalizing s with
  | nil => simp [drain]
  | cons g gs ih =>
    intro g1 hg1
    simp only [drain, List.mem_cons] at hg1
    rcases hg1 with rfl | hg1
    · exact hfinish g s (h g (List.mem_cons_self _ _))
    · exact ih _ (fun g2 hg2 => h g2 (List.mem_cons_of_mem _ hg2)) g1 hg1

/-- Whatever the scheduler does and whichever calls fail, `wg.Wait()` returns
with one goroutine per matched pool, each at its end: no failure of one pool
stops the body of another. -/
theorem runGoroutines_all_done {σ : Type} (env : BackupEnv σ) (pfx : String)
    (schedule : List Nat) (gs : List Goroutine) (s : Shared σ) :
    (runGoroutines env pfx schedule gs s).1.map (fun g => g.pool) = gs.map (fun g => g.pool) ∧
    ∀ g ∈ (runGoroutines env pfx schedule gs s).1, g.task = .done := by
  unfold runGoroutines
  refine ⟨?_, ?_⟩
  · exact (drain_pools env pfx _ _).trans (runSchedule_pools env pfx schedule gs s)
  · exact drain_forall env pfx (fun _ => True) (fun g => g.task = .done)
      (fun g s _ => finish_done env pfx g s) _ _ (fun _ _ => trivial)

/-! ### Two pools that are collected: a data race -/

theorem step_onTrack {σ : Type} (env : BackupEnv σ) (pfx : String) (g : Goroutine)
    (s : Shared σ) (hc : env.collects g.pool) (h : g.onTrack = true) :
    (g.step env pfx s).1.onTrack = true := by
  obtain ⟨h1, h2, h3, h4⟩ := hc
  obtain ⟨pool, task, accessed⟩ := g
  cases task with
  | describePool =>
    obtain ⟨pc, w1, e⟩ := h1 s.w
    simp [Goroutine.step, e, Goroutine.onTrack]
  | listUsers pc =>
    obtain ⟨users, w1, e⟩ := h2 s.w
    simp [Goroutine.step, e, Goroutine.onTrack]
  | listGroups pc users ub =>
    cases users with
    | nil => simp [Goroutine.step, Goroutine.onTrack]
    | cons user users =>
      obtain ⟨groups, w1, e⟩ := h3 user.Username s.w
      simp [Goroutine.step, e, Goroutine.onTrack]
  | saveMetadata pc ub metadata =>
    obtain ⟨data, e⟩ := h4 metadata
    have hs := ((Storage_SaveJSON_spec env.MarshalIndent s.storage pfx pool "metadata.json"
      (.backupMetadata metadata)).2 data e).1
    simp only [Goroutine.step]
    rcases hsave : s.storage.SaveJSON env.MarshalIndent pfx pool "metadata.json"
      (.backupMetadata metadata) with ⟨r, st⟩
    rw [hsave] at hs
    simp only at hs
    subst hs
    simp [Goroutine.onTrack]
  | savePoolConfig pc ub =>
    simp only [Goroutine.onTrack, Bool.or_false] at h
    simp only [Goroutine.step]
    split <;> simp_all [Goroutine.onTrack]
  | saveUsers ub =>
    simp only [Goroutine.onTrack, Bool.or_false] at h
    simp only [Goroutine.step]
    split <;> simp_all [Goroutine.onTrack]
  | failed err =>
    simp only [Goroutine.onTrack, Bool.or_false] at h
    simp_all [Goroutine.step, Goroutine.onTrack]
  | done => simpa [Goroutine.step] using h

theorem steps_onTrack {σ : Type} (env : BackupEnv σ) (pfx : String) (n : Nat) (g : Goroutine)
    (s : Shared σ) (h : env.collects g.pool → g.onTrack = true) :
    env.collects (Goroutine.steps env pfx n g s).1.pool →
      (Goroutine.steps env pfx n g s).1.onTrack = true := by
  induction n generalizing g s with
  | zero => exact h
  | succ n ih =>
    rw [steps_succ]
    apply ih
    intro hc
    rw [step_pool] at hc
    exact step_onTrack env pfx g s hc (h hc)

/-- A pool that can be collected has its goroutine access the map `Files`,
whatever the scheduler does and whatever the other goroutines do. -/
theorem runGoroutines_accessed {σ : Type} (env : BackupEnv σ) (pfx : String)
    (schedule : List Nat) (pools : List String) (s : Shared σ) (p : String)
    (hp : p ∈ pools) (hc : env.collects p) :
    p ∈ writers (runGoroutines env pfx schedule
      (pools.map (fun pool => { pool := pool, task := .describePool, accessed := false })) s).1 := by
  have hall := runGoroutines_all_done env pfx schedule
    (pools.map (fun pool => { pool := pool, task := .describePool, accessed := false })) s
  have htrack : ∀ g ∈ (runGoroutines env pfx schedule
      (pools.map (fun pool => { pool := pool, task := .describePool, accessed := false })) s).1,
      env.collects g.pool → g.onTrack = true := by
    unfold runGoroutines
    apply drain_forall env pfx (fun g => env.collects g.pool → g.onTrack = true)
    · intro g s h
      obtain ⟨n, hn⟩ := finish_eq_steps env pfx g s
      rw [hn]
      exact steps_onTrack env pfx n g s h
    · apply runSchedule_forall env pfx (fun g => env.collects g.pool → g.onTrack = true)
      · intro g s h hc2
        rw [step_pool] at hc2
        exact step_onTrack env pfx g s hc2 (h hc2)
      · intro g hg _
        simp only [List.mem_map] at hg
        obtain ⟨pool, _, rfl⟩ := hg
        rfl
  obtain ⟨hpools, hdone⟩ := hall
  have hmem : p ∈ (runGoroutines env pfx schedule
      (pools.map (fun pool => { pool := pool, task := .describePool, accessed := false }))
        s).1.map (fun g => g.pool) := by
    rw [hpools]
    simpa using hp
  obtain ⟨g, hg, rfl⟩ := List.mem_map.mp hmem
  have h1 := htrack g hg hc
  have h2 := hdone g hg
  simp only [Goroutine.onTrack, h2, Bool.or_false] at h1
  simp only [writers, List.mem_map, List.mem_filter]
  exact ⟨g, ⟨hg, h1⟩, rfl⟩

theorem length_ge_two_of_mem {α : Type} (l : List α) (p q : α) (hp : p ∈ l) (hq : q ∈ l)
    (hpq : p ≠ q) : l.length ≥ 2 := by
  match l, hp, hq with
  | [], hp, _ => cases hp
  | [a], hp, hq =>
    simp only [List.mem_singleton] at hp hq
    exact absurd (hp.trans hq.symm) hpq
  | _ :: _ :: _, _, _ => simp

/-- When two of the matched pools can be collected, every run of `BackupPools`
has a data race, whatever the scheduler does: both goroutines write the map
`Files` of the one storage, and nothing orders their writes. -/
theorem BackupPools_data_race_of_two_pools {σ : Type} (env : BackupEnv σ) (schedule : List Nat)
    (b : PoolBackupper) (w w1 : σ) (pattern pfx : String) (pools : List UserPoolDescriptionType)
    (p q : String) (hlist : env.cognitoClient.ListUserPools pattern w = (.ok pools, w1))
    (hp : p ∈ pools.map (fun pool => pool.Id)) (hq : q ∈ pools.map (fun pool => pool.Id))
    (hpq : p ≠ q) (hcp : env.collects p) (hcq : env.collects q) :
    PoolBackupper.BackupPools env schedule b w pattern pfx = .dataRace := by
  unfold PoolBackupper.BackupPools
  rw [hlist]
  have hne : ¬ pools.length = 0 := by
    intro h0
    rw [List.length_eq_zero] at h0
    subst h0
    simp at hp
  simp only [hne, if_false]
  have hmap :
      pools.map
        (fun pool => ({ pool := pool.Id, task := .describePool, accessed := false } : Goroutine))
      = (pools.map (fun pool => pool.Id)).map
        (fun pool => { pool := pool, task := .describePool, accessed := false }) := by
    simp
  rw [hmap]
  have h1 := runGoroutines_accessed env pfx schedule (pools.map (fun pool => pool.Id))
    { storage := b.storage, errCh := [], w := w1 } p hp hcp
  have h2 := runGoroutines_accessed env pfx schedule (pools.map (fun pool => pool.Id))
    { storage := b.storage, errCh := [], w := w1 } q hq hcq
  have hlen := length_ge_two_of_mem _ p q h1 h2 hpq
  rw [if_pos hlen]

/-! ### The sample directories -/

theorem stubEnv_collects (p : String) (h : p ≠ "B") : stubEnv.collects p := by
  refine ⟨fun _ => ⟨_, _, rfl⟩, fun _ => ?_, fun _ _ => ⟨_, _, rfl⟩, fun metadata => ⟨_, rfl⟩⟩
  simp [stubEnv, stubCognito, h]

/-- On the sample directory every run of `BackupPools` has a data race: the
goroutines of `A` and of `C` both write the map. -/
theorem stubEnv_data_race (schedule : List Nat) (b : PoolBackupper) (pattern pfx : String) :
    PoolBackupper.BackupPools stubEnv schedule b () pattern pfx = .dataRace :=
  BackupPools_data_race_of_two_pools stubEnv schedule b () () pattern pfx _ "A" "C" rfl
    (by decide) (by decide) (by decide) (stubEnv_collects "A" (by decide))
    (stubEnv_collects "C" (by decide))

set_option maxRecDepth 100000 in
/-- With `A`, `B` and `C` matched and the user listings of `B` and of `C`
failing, one goroutine only writes the map and the run has no data race:
`BackupPools` returns the aggregated error with one failure for `B` and one for
`C`, in the order in which the goroutines have sent them, and the three files of
`A` are staged. -/
theorem BackupPools_two_failures :
    PoolBackupper.BackupPools flakyEnv [] stubBackupper () ".*" "backups" =
      .returned (.error (.errorsOccurred 2
          [{ pool := "B", cause := .userList "InternalErrorException" },
           { pool := "C", cause := .userList "TooManyRequestsException" }]),
        (PoolBackupper.backupSinglePool flakyEnv stubBackupper () "A" "backups").2.1, ()) ∧
    PoolBackupper.BackupPools flakyEnv [2, 2, 2] stubBackupper () ".*" "backups" =
      .returned (.error (.errorsOccurred 2
          [{ pool := "C", cause := .userList "TooManyRequestsException" },
           { pool := "B", cause := .userList "InternalErrorException" }]),
        (PoolBackupper.backupSinglePool flakyEnv stubBackupper () "A" "backups").2.1, ()) ∧
    ((mapGet (PoolBackupper.backupSinglePool flakyEnv stubBackupper () "A"
        "backups").2.1.storage.GetBackupData.Files "A").map
        (fun files => files.map BackupFile.Name)) =
      some ["metadata.json", "pool-config.json", "users.json"] := by
  decide

/-! ### The sample backup of `A`, `B` and `C` -/

set_option maxRecDepth 100000 in
/-- C14 at the pools `A`, `B` and `C` with the listing of the users of `B`
failing. Whatever the scheduler does, `wg.Wait()` returns with the three
goroutines at their end, so `backupSinglePool` has been run for each pool, and
when the goroutines run in launch order the one failure sent to `errCh` is that
of `B`. But the goroutines of `A` and of `C` have both written the map `Files`
of the one storage with nothing ordering their writes: every run has a data
race, and `BackupPools` has no defined result where C14 has it return the
aggregated failure with the one entry for `B`. -/
theorem BackupPools_partial_failure_race (schedule : List Nat) :
    (runGoroutines stubEnv "backups" schedule sampleGoroutines sampleShared).1.map
        (fun g => (g.pool, g.task)) =
      [("A", .done), ("B", .done), ("C", .done)] ∧
    (runGoroutines stubEnv "backups" [] sampleGoroutines sampleShared).2.errCh =
      [{ pool := "B", cause := .userList "InternalErrorException" }] ∧
    "A" ∈ writers (runGoroutines stubEnv "backups" schedule sampleGoroutines sampleShared).1 ∧
    "C" ∈ writers (runGoroutines stubEnv "backups" schedule sampleGoroutines sampleShared).1 ∧
    PoolBackupper.BackupPools stubEnv schedule stubBackupper () ".*" "backups" = .dataRace := by
  refine ⟨?_, by decide,
    runGoroutines_accessed stubEnv "backups" schedule ["A", "B", "C"] sampleShared "A"
      (by decide) (stubEnv_collects "A" (by decide)),
    runGoroutines_accessed stubEnv "backups" schedule ["A", "B", "C"] sampleShared "C"
      (by decide) (stubEnv_collects "C" (by decide)),
    stubEnv_data_race schedule stubBackupper ".*" "backups"⟩
  obtain ⟨hpools, hdone⟩ :=
    runGoroutines_all_done stubEnv "backups" schedule sampleGoroutines sampleShared
  generalize (runGoroutines stubEnv "backups" schedule sampleGoroutines sampleShared).1 = gs
    at hpools hdone
  match gs, hpools, hdone with
  | [a, b, c], hpools, hdone =>
    simp only [List.map_cons, List.map_nil, sampleGoroutines, List.cons.injEq, and_true]
      at hpools
    obtain ⟨ha, hb, hc⟩ := hpools
    simp [ha, hb, hc, hdone]
  | [], hpools, _ => simp [sampleGoroutines] at hpools
  | [_], hpools, _ => simp [sampleGoroutines] at hpools
  | [_, _], hpools, _ => simp [sampleGoroutines] at hpools
  | _ :: _ :: _ :: _ :: _, hpools, _ => simp [sampleGoroutines] at hpools

set_option maxRecDepth 100000 in
/-- C15 at the pools `A`, `B` and `C` with the listing of the users of `B`
failing. `backupSinglePool` for `B` returns the error of the listing and leaves
the backupper as it was, and the goroutine of `B` ends without an access to the
map, in launch order and when it runs first. But the goroutines of `A` and of
`C` both end with the map written, with nothing ordering their writes: every
run has a data race, and the language defines no staging archive for it where
C15 has it hold the entries of `A` and `C`. -/
theorem failing_resource_race :
    PoolBackupper.backupSinglePool stubEnv stubBackupper () "B" "backups" =
      (.error (.userList "InternalErrorException"), stubBackupper, ()) ∧
    (runGoroutines stubEnv "backups" [] sampleGoroutines sampleShared).1 =
      [{ pool := "A", task := .done, accessed := true },
       { pool := "B", task := .done, accessed := false },
       { pool := "C", task := .done, accessed := true }] ∧
    (runGoroutines stubEnv "backups" [1, 1, 1, 2, 0, 2, 0, 2, 0, 2, 0] sampleGoroutines
        sampleShared).1 =
      [{ pool := "A", task := .done, accessed := true },
       { pool := "B", task := .done, accessed := false },
       { pool := "C", task := .done, accessed := true }] ∧
    ∀ schedule : List Nat,
      PoolBackupper.BackupPools stubEnv schedule stubBackupper () ".*" "backups" = .dataRace :=
  ⟨by decide, by decide, by decide,
    fun schedule => stubEnv_data_race schedule stubBackupper ".*" "backups"⟩


/-! ### No matching pool -/

theorem recording_ListUserPools {σ : Type} (env : BackupEnv σ) (pattern : String) (w : σ)
    (log : List CognitoCall) :
    env.recording.cognitoClient.ListUserPools pattern (w, log) =
      ((env.cognitoClient.ListUserPools pattern w).1,
        (env.cognitoClient.ListUserPools pattern w).2,
        log ++ [CognitoCall.listUserPools pattern]) := rfl

/-- C16: when the enumeration returns no pool, `BackupPools` returns the
no-match error, the only call on the directory is the enumeration, and the
backupper with its staging archive is as before; the no-match error differs
from every aggregated error of failed pools. -/
theorem BackupPools_no_match {σ : Type} (env : BackupEnv σ)
    (schedule : List Nat) (b : PoolBackupper) (w w1 : σ)
    (log : List CognitoCall) (pattern pfx : String)
    (hlist : env.cognitoClient.ListUserPools pattern w = (.ok [], w1)) :
    PoolBackupper.BackupPools env.recording schedule b (w, log) pattern pfx =
      .returned (.error (.noUserPools pattern), b,
        (w1, log ++ [CognitoCall.listUserPools pattern])) ∧
    PoolBackupper.BackupPools env schedule b w pattern pfx =
      .returned (.error (.noUserPools pattern), b, w1) ∧
    ∀ n errors, BackupError.noUserPools pattern ≠ BackupError.errorsOccurred n errors := by
  refine ⟨?_, ?_, fun n errors h => by cases h⟩
  · unfold PoolBackupper.BackupPools
    rw [recording_ListUserPools, hlist]
    rfl
  · unfold PoolBackupper.BackupPools
    rw [hlist]
    rfl

/-- C16 on a directory in which no pool matches. -/
theorem BackupPools_no_match_witness :
    PoolBackupper.BackupPools emptyEnv.recording [] stubBackupper ((), []) "prod-.*" "backups" =
      .returned (.error (.noUserPools "prod-.*"), stubBackupper,
        ((), [] ++ [CognitoCall.listUserPools "prod-.*"])) :=
  (BackupPools_no_match emptyEnv [] stubBackupper () () [] "prod-.*" "backups"
    (by decide)).1

/-! ## The container of `CreateTarGz` -/

theorem cleanStep_plain (A B : List Char) (hA1 : A ≠ []) (hA3 : A ≠ ['.'])
    (hA4 : A ≠ ['.', '.']) (hB1 : B ≠ []) (hB3 : B ≠ ['.']) (hB4 : B ≠ ['.', '.']) :
    List.foldl (cleanStep false) [] [A, B] = [B, A] := by
  simp [cleanStep, hA1, hA3, hA4, hB1, hB3, hB4]

theorem filepathJoin_plain (a b : String) (ha : plainName a) (hb : plainName b) :
    filepathJoin [a, b] = a ++ "/" ++ b := by
  obtain ⟨ha1, ha2, ha3, ha4⟩ := ha
  obtain ⟨hb1, hb2, hb3, hb4⟩ := hb
  have hane : a ≠ "" := by
    intro h; apply ha1; rw [h]; rfl
  have hdrop : List.dropWhile (fun e => decide (e = "")) [a, b] = [a, b] := by
    rw [List.dropWhile_cons]
    simp [hane]
  have hpath : ['/'].intercalate ([a, b].map String.toList) = a.toList ++ '/' :: b.toList := by
    simp [List.intercalate, List.intersperse]
  have hsplit : (a.toList ++ '/' :: b.toList).splitOn '/' = [a.toList, b.toList] := by
    have h := List.splitOn_intercalate [a.toList, b.toList] '/'
      (by
        intro l hl
        simp only [List.mem_cons, List.mem_singleton, List.not_mem_nil, or_false] at hl
        rcases hl with rfl | rfl
        · exact ha2
        · exact hb2)
      (by simp)
    simpa [List.intercalate, List.intersperse] using h
  have hne : a.toList ++ '/' :: b.toList ≠ [] := by simp
  have hrooted : (a.toList ++ '/' :: b.toList).head? ≠ some '/' := by
    cases hA : a.toList with
    | nil => exact absurd hA ha1
    | cons c cs =>
      rw [hA] at ha2
      simp only [List.cons_append, List.head?_cons, ne_eq, Option.some.injEq]
      intro h
      exact ha2 (h ▸ List.mem_cons_self _ _)
  have hfold : List.foldl (cleanStep false) [] [a.toList, b.toList] = [b.toList, a.toList] :=
    cleanStep_plain _ _ ha1 ha3 ha4 hb1 hb3 hb4
  unfold filepathJoin
  rw [hdrop]
  simp only [hpath]
  unfold filepathClean
  simp only [hne, if_false, hsplit, hfold, hrooted, decide_False, Bool.false_eq_true]
  apply String.ext
  simp [List.intercalate, List.intersperse, String.data_append, String.toList]

theorem tarWriteFiles_view (tar : TarLib) (clock : Nat → String) (userPoolID : String)
    (files : List BackupFile) (tw tw1 : List TarEntry)
    (h : tarWriteFiles tar clock userPoolID files tw = .ok tw1) :
    tw1.map TarEntry.view = tw.map TarEntry.view ++ files.map (stagedView userPoolID) := by
  induction files generalizing tw with
  | nil =>
    simp only [tarWriteFiles, Except.ok.injEq] at h
    simp [h]
  | cons file files ih =>
    unfold tarWriteFiles at h
    simp only at h
    split at h
    · cases h
    · split at h
      · cases h
      · rw [ih _ h]
        simp [TarEntry.view, stagedView]

theorem tarWritePools_view (tar : TarLib) (clock : Nat → String)
    (Files : GoMap (List BackupFile)) (order : List String) (tw tw1 : List TarEntry)
    (h : tarWritePools tar clock Files order tw = .ok tw1) :
    tw1.map TarEntry.view = tw.map TarEntry.view ++
      order.flatMap (fun userPoolID =>
        ((mapGet Files userPoolID).getD []).map (stagedView userPoolID)) := by
  induction order generalizing tw with
  | nil =>
    simp only [tarWritePools, Except.ok.injEq] at h
    simp [h]
  | cons userPoolID order ih =>
    unfold tarWritePools at h
    cases hget : mapGet Files userPoolID with
    | none =>
      rw [hget] at h
      simp only at h
      rw [ih _ h]
      simp [hget]
    | some files =>
      rw [hget] at h
      simp only at h
      cases hw : tarWriteFiles tar clock userPoolID files tw with
      | error err => rw [hw] at h; cases h
      | ok tw2 =>
        rw [hw] at h
        simp only at h
        rw [ih _ h, tarWriteFiles_view _ _ _ _ _ _ hw]
        simp [hget]

theorem tarWriteFiles_accepted (tar : TarLib) (clock : Nat → String)
    (hheader : ∀ header, tar.WriteHeader header = none)
    (hwrite : ∀ header content, tar.Write header content = none) (userPoolID : String)
    (files : List BackupFile) (tw : List TarEntry) :
    ∃ tw1, tarWriteFiles tar clock userPoolID files tw = .ok tw1 := by
  induction files generalizing tw with
  | nil => exact ⟨tw, rfl⟩
  | cons file files ih =>
    unfold tarWriteFiles
    simp only [hheader, hwrite]
    exact ih _

theorem tarWritePools_accepted (tar : TarLib) (clock : Nat → String)
    (hheader : ∀ header, tar.WriteHeader header = none)
    (hwrite : ∀ header content, tar.Write header content = none)
    (Files : GoMap (List BackupFile)) (order : List String) (tw : List TarEntry) :
    ∃ tw1, tarWritePools tar clock Files order tw = .ok tw1 := by
  induction order generalizing tw with
  | nil => exact ⟨tw, rfl⟩
  | cons userPoolID order ih =>
    unfold tarWritePools
    cases mapGet Files userPoolID with
    | none => exact ih _
    | some files =>
      obtain ⟨tw2, h2⟩ := tarWriteFiles_accepted tar clock hheader hwrite userPoolID files tw
      simp only [h2]
      exact ih _

theorem mapGet_of_mem {V : Type} (m : GoMap V) (hnd : (mapKeys m).Nodup) (k : String) (v : V)
    (h : (k, v) ∈ m) : mapGet m k = some v := by
  induction m with
  | nil => cases h
  | cons p rest ih =>
    obtain ⟨k1, v1⟩ := p
    simp only [mapKeys, List.map_cons, List.nodup_cons, List.mem_map, Prod.exists,
      exists_and_right, exists_eq_right, not_exists] at hnd
    obtain ⟨hnotin, hnd1⟩ := hnd
    simp only [List.mem_cons, Prod.mk.injEq] at h
    rcases h with ⟨hk, hv⟩ | h
    · subst hk hv
      simp [mapGet]
    · have hne : k1 ≠ k := by
        intro hk
        subst hk
        exact hnotin v h
      simp only [mapGet, hne, if_false]
      exact ih hnd1 h

theorem flatMap_keys_eq (Files : GoMap (List BackupFile)) (hnd : (mapKeys Files).Nodup) :
    (mapKeys Files).flatMap (fun userPoolID =>
        ((mapGet Files userPoolID).getD []).map (stagedView userPoolID)) =
      Files.flatMap (fun p => p.2.map (stagedView p.1)) := by
  unfold mapKeys
  rw [List.flatMap_map]
  apply List.flatMap_congr
  intro p hp
  rw [mapGet_of_mem Files hnd p.1 p.2 hp]
  rfl

/-- C20 as stated fails: the path of an entry is `filepath.Join` of the
resource id and the file name, which is not always `<resourceId>/<fileName>`.
For a staging archive holding `metadata.json` under the empty resource id, the
container has the entry `metadata.json`, not `/metadata.json`. -/
theorem tarGz_path_of_empty_id :
    LocalStorage.tarGz okTar (fun _ => "2024-01-01T00:00:00Z")
        { backupData := { Files := [("", [{ Name := "metadata.json", Content := [1] }])] },
          encryptor := none } [""] =
      .ok [{ header := { Name := "metadata.json", Size := 1, Mode := 420,
                         ModTime := "2024-01-01T00:00:00Z" },
             content := [1] }] ∧
    "metadata.json" ≠ "" ++ "/" ++ "metadata.json" := by
  decide

/-- C20, amended: for every staging archive, the container built by
`CreateTarGz` has exactly one entry per staged file and no other entry; the
path of the entry is `filepath.Join(resourceId, fileName)`, which is
`<resourceId>/<fileName>` when both are plain path components; its size and
content are those of the staged file; the entries of one resource appear in
their insertion order; `S3Storage` builds the same container; and a tar library
that accepts every header and content yields a container. For the resources
`A` and `B` with three files each, the paths are the six paths `A/...`, `B/...`. -/
theorem tarGz_entries (tar : TarLib) (clock : Nat → String) (s : LocalStorage)
    (order : List String) (hkeys : (mapKeys s.backupData.Files).Nodup)
    (horder : order.Perm (mapKeys s.backupData.Files)) :
    (∀ tw, s.tarGz tar clock order = .ok tw →
      tw.map TarEntry.view =
        order.flatMap (fun userPoolID =>
          ((mapGet s.backupData.Files userPoolID).getD []).map (stagedView userPoolID)) ∧
      (tw.map TarEntry.view).Perm
        (s.backupData.Files.flatMap (fun p => p.2.map (stagedView p.1)))) ∧
    (∀ (userPoolID : String) (file : BackupFile), plainName userPoolID → plainName file.Name →
      stagedView userPoolID file =
        (userPoolID ++ "/" ++ file.Name, (file.Content.length : Int), file.Content)) ∧
    (∀ s3 : S3Storage, s3.backupData = s.backupData →
      s3.tarGz tar clock order = s.tarGz tar clock order) ∧
    ((∀ header, tar.WriteHeader header = none) →
      (∀ header content, tar.Write header content = none) →
      (∀ tw, tar.tarClose tw = none) → (∀ tw, tar.gzipClose tw = none) →
      ∃ tw, s.tarGz tar clock order = .ok tw) ∧
    (∀ a1 a2 a3 b1 b2 b3 : List Byte,
      s.backupData.Files =
        [("A", [{ Name := "metadata.json", Content := a1 },
                { Name := "pool-config.json", Content := a2 },
                { Name := "users.json", Content := a3 }]),
         ("B", [{ Name := "metadata.json", Content := b1 },
                { Name := "pool-config.json", Content := b2 },
                { Name := "users.json", Content := b3 }])] →
      ∀ tw, s.tarGz tar clock order = .ok tw →
        (tw.map (fun e => e.header.Name)).Perm
          ["A/metadata.json", "A/pool-config.json", "A/users.json",
           "B/metadata.json", "B/pool-config.json", "B/users.json"]) := by
  have hview : ∀ tw, s.tarGz tar clock order = .ok tw →
      tw.map TarEntry.view =
        order.flatMap (fun userPoolID =>
          ((mapGet s.backupData.Files userPoolID).getD []).map (stagedView userPoolID)) := by
    intro tw h
    unfold LocalStorage.tarGz at h
    cases hp : tarWritePools tar clock s.backupData.Files order [] with
    | error err => rw [hp] at h; cases h
    | ok tw1 =>
      rw [hp] at h
      simp only at h
      have htw : tw1 = tw := by
        cases h1 : tar.tarClose tw1 with
        | some e => rw [h1] at h; cases h
        | none =>
          rw [h1] at h
          simp only at h
          cases h2 : tar.gzipClose tw1 with
          | some e => rw [h2] at h; cases h
          | none =>
            rw [h2] at h
            simp only [Except.ok.injEq] at h
            exact h
      subst htw
      simpa using tarWritePools_view tar clock s.backupData.Files order [] tw1 hp
  have hperm : ∀ tw, s.tarGz tar clock order = .ok tw →
      (tw.map TarEntry.view).Perm
        (s.backupData.Files.flatMap (fun p => p.2.map (stagedView p.1))) := by
    intro tw h
    rw [hview tw h, ← flatMap_keys_eq s.backupData.Files hkeys]
    exact List.Perm.flatMap_right _ horder
  refine ⟨fun tw h => ⟨hview tw h, hperm tw h⟩, ?_, ?_, ?_, ?_⟩
  · intro userPoolID file h1 h2
    simp only [stagedView, filepathJoin_plain userPoolID file.Name h1 h2]
  · intro s3 h3
    unfold S3Storage.tarGz LocalStorage.tarGz
    rw [h3]
  · intro hheader hwrite hclose hgzip
    obtain ⟨tw, htw⟩ := tarWritePools_accepted tar clock hheader hwrite s.backupData.Files
      order []
    refine ⟨tw, ?_⟩
    unfold LocalStorage.tarGz
    simp only [htw, hclose, hgzip]
  · intro a1 a2 a3 b1 b2 b3 hfiles tw h
    have hp := (hperm tw h).map (fun v => v.1)
    rw [hfiles] at hp
    simpa [TarEntry.view, stagedView, List.map_map] using hp

/-- C20, amended, on a staging archive of the resources `A` and `B`, the map
iterated in the order `B`, `A`: the container has the entries of `B` then those
of `A`, each with the path, size and content of its staged file. -/
theorem tarGz_entries_witness :
    (∀ tw, LocalStorage.tarGz okTar (fun _ => "2024-01-01T00:00:00Z")
        { backupData := { Files :=
            [("A", [{ Name := "metadata.json", Content := [1, 2] },
                    { Name := "users.json", Content := [3] }]),
             ("B", [{ Name := "metadata.json", Content := [4] }])] },
          encryptor := none } ["B", "A"] = .ok tw →
      tw.map TarEntry.view =
        [("B/metadata.json", 1, [4]), ("A/metadata.json", 2, [1, 2]),
         ("A/users.json", 1, [3])]) ∧
    ∃ tw, LocalStorage.tarGz okTar (fun _ => "2024-01-01T00:00:00Z")
        { backupData := { Files :=
            [("A", [{ Name := "metadata.json", Content := [1, 2] },
                    { Name := "users.json", Content := [3] }]),
             ("B", [{ Name := "metadata.json", Content := [4] }])] },
          encryptor := none } ["B", "A"] = .ok tw :=
  have h := tarGz_entries okTar (fun _ => "2024-01-01T00:00:00Z")
    { backupData := { Files :=
        [("A", [{ Name := "metadata.json", Content := [1, 2] },
                { Name := "users.json", Content := [3] }]),
         ("B", [{ Name := "metadata.json", Content := [4] }])] },
      encryptor := none } ["B", "A"] (by decide) (by decide)
  ⟨fun tw htw => (h.1 tw htw).1.trans (by decide),
   h.2.2.2.1 (fun _ => rfl) (fun _ _ => rfl) (fun _ => rfl) (fun _ => rfl)⟩

/-! ## Zero-length fields -/

/-- The frame of a wrapped key (shorter than `2 ^ 32` bytes) with the empty
payload is the two length fields followed by the key, and
`DeserializeEncryptedData` rejects it: with the error of the key read when the
key is empty too, with the error of the payload read otherwise. -/
theorem Deserialize_Serialize_nil_payload (w : List Byte) (hw : w.length < 2 ^ 32) :
    SerializeEncryptedData ⟨w, []⟩ = .ok (PutUint32 w.length ++ PutUint32 0 ++ w) ∧
    DeserializeEncryptedData (PutUint32 w.length ++ PutUint32 0 ++ w) =
      if w = [] then .error (.readKey .EOF) else .error (.readData .EOF) := by
  have e1 : uint32 w.length = w.length := Nat.mod_eq_of_lt hw
  constructor
  · rw [Serialize_eq, e1]
    simp [uint32]
  · simp only [PutUint32, List.cons_append, List.nil_append]
    rw [Deserialize_cons, Uint32_PutUint32 _ hw, Uint32_PutUint32 0 (by decide)]
    have h1 : ¬ w.length < uint32 (w.length + 0) := by
      rw [Nat.add_zero, e1]; omega
    rw [if_neg h1]
    by_cases hnil : w = []
    · rw [if_pos hnil, if_pos hnil]
    · rw [if_neg hnil, if_neg hnil, if_pos (Nat.le_refl _)]

/-- C27: a frame with zero-length fields does not decode. Serialising the empty
wrapped key with the empty payload gives the eight bytes of the two length
fields, all zero; deserialising them returns the error of the key read
(`io.EOF`: the reader is at the end of the input), not the frame. -/
theorem Deserialize_zero_length_fields :
    SerializeEncryptedData ⟨[], []⟩ = .ok [0, 0, 0, 0, 0, 0, 0, 0] ∧
    DeserializeEncryptedData [0, 0, 0, 0, 0, 0, 0, 0] = .error (.readKey .EOF) := by
  constructor <;> decide

/-! ## The detector on serialised frames -/

/-- The frame of a key and a payload shorter than `2 ^ 32` bytes has
`8 + len w + len p` bytes, its two fields read back as `len w` and `len p`, and
the detector rejects it. -/
theorem isEncryptedData_Serialize (w p : List Byte) (hw : w.length < 2 ^ 32)
    (hp : p.length < 2 ^ 32) :
    ∃ frame, SerializeEncryptedData ⟨w, p⟩ = .ok frame ∧
      frame.length = 8 + w.length + p.length ∧
      declaredKeyLen frame = w.length ∧ declaredDataLen frame = p.length ∧
      isEncryptedData frame = false := by
  have e1 : uint32 w.length = w.length := Nat.mod_eq_of_lt hw
  have e2 : uint32 p.length = p.length := Nat.mod_eq_of_lt hp
  refine ⟨_, Serialize_eq w p, ?_⟩
  rw [e1, e2]
  have hlen : (PutUint32 w.length ++ PutUint32 p.length ++ w ++ p).length
      = 8 + w.length + p.length := by
    simp only [PutUint32, List.length_append, List.length_cons, List.length_nil]
  have hk : declaredKeyLen (PutUint32 w.length ++ PutUint32 p.length ++ w ++ p) = w.length := by
    simp only [PutUint32, List.cons_append, List.nil_append, declaredKeyLen, List.getD_cons_zero,
      List.getD_cons_succ]
    exact Uint32_PutUint32 _ hw
  have hd : declaredDataLen (PutUint32 w.length ++ PutUint32 p.length ++ w ++ p) = p.length := by
    simp only [PutUint32, List.cons_append, List.nil_append, declaredDataLen, List.getD_cons_zero,
      List.getD_cons_succ]
    exact Uint32_PutUint32 _ hp
  refine ⟨hlen, hk, hd, ?_⟩
  obtain ⟨ha, hb⟩ := isEncryptedData_fields (PutUint32 w.length ++ PutUint32 p.length ++ w ++ p)
  unfold isEncryptedData
  simp only [ha, hb, hk, hd, hlen]
  split
  · rfl
  · split
    · rename_i hf
      simp only [decide_eq_false_iff_not]
      omega
    · rfl

/-! ## `parseStorageURI` -/

theorem cut_eq_none (sep : Char) (s : List Char) : cut sep s = none ↔ sep ∉ s := by
  induction s with
  | nil => simp [cut]
  | cons c s ih =>
    by_cases h : c = sep
    · simp [cut, h]
    · have h2 : ¬ sep = c := fun e => h e.symm
      simp [cut, h, h2, ih]

theorem cut_eq_some (sep : Char) (s a b : List Char) (h : cut sep s = some (a, b)) :
    s = a ++ sep :: b ∧ sep ∉ a := by
  induction s generalizing a with
  | nil => simp [cut] at h
  | cons c s ih =>
    by_cases hc : c = sep
    · simp only [cut, hc, if_true, Option.some.injEq, Prod.mk.injEq] at h
      obtain ⟨h1, h2⟩ := h
      subst h1 h2 hc
      simp
    · simp only [cut, hc, if_false, Option.map_eq_some', Prod.mk.injEq] at h
      obtain ⟨⟨a1, b1⟩, h1, h2, h3⟩ := h
      obtain ⟨e1, e2⟩ := ih a1 (by rw [h1, ← h3])
      subst h2
      have h2 : ¬ sep = c := fun e => hc e.symm
      simp [e1, e2, h2]

theorem HasPrefix_iff (s p : String) : HasPrefix s p = true ↔ ∃ t, s = p ++ t := by
  unfold HasPrefix
  rw [List.isPrefixOf_iff_prefix]
  constructor
  · rintro ⟨t, ht⟩
    exact ⟨String.mk t, String.ext (by simp [String.toList] at ht ⊢; exact ht.symm)⟩
  · rintro ⟨t, rfl⟩
    exact ⟨t.toList, by simp [String.toList]⟩

theorem TrimPrefix_append (p t : String) : TrimPrefix (p ++ t) p = t := by
  unfold TrimPrefix
  rw [if_pos ((HasPrefix_iff _ _).mpr ⟨t, rfl⟩)]
  apply String.ext
  simp [String.toList]

theorem parseStorageURI_s3 (rest : String) :
    parseStorageURI ("s3://" ++ rest) =
      match cut '/' rest.toList with
      | none => .error (.invalidS3 rest)
      | some (a, b) => .ok ⟨"s3", String.mk a, String.mk b⟩ := by
  have hne : ¬ ("s3://" ++ rest = "") := by
    intro h
    have := congrArg String.data h
    simp at this
  unfold parseStorageURI
  rw [if_neg hne, if_pos ((HasPrefix_iff _ _).mpr ⟨rest, rfl⟩)]
  simp only [TrimPrefix_append, SplitN, splitN]
  rcases hc : cut '/' rest.toList with _ | ⟨a, b⟩
  · simp
  · simp

theorem parseStorageURI_file (p : String) :
    parseStorageURI ("file://" ++ p) = .ok ⟨"file", "", p⟩ := by
  have hne : ¬ ("file://" ++ p = "") := by
    intro h
    have := congrArg String.data h
    simp at this
  have hs3 : ¬ (HasPrefix ("file://" ++ p) "s3://" = true) := by
    rw [HasPrefix_iff]
    rintro ⟨t, ht⟩
    have := congrArg String.data ht
    simp at this
  unfold parseStorageURI
  rw [if_neg hne, if_neg hs3, if_pos ((HasPrefix_iff _ _).mpr ⟨p, rfl⟩), TrimPrefix_append]

/-- C26: `parseStorageURI u` succeeds exactly when `u` starts with `file://`, or
`u` is `s3://` followed by a text that contains `/`. For an S3 URI the result
has type `s3`, its bucket is the text before the first `/` after the scheme (it
contains no `/`) and its path everything after that `/`, so that
`s3://` + bucket + `/` + path is `u`; for a file URI the result has type `file`,
an empty bucket and the text after the scheme as path. The empty string is
rejected, and a result has type `s3` or `file`. -/
theorem parseStorageURI_spec (u : String) :
    ((∃ info, parseStorageURI u = .ok info) ↔
      ((∃ p, u = "file://" ++ p) ∨ ∃ rest, u = "s3://" ++ rest ∧ '/' ∈ rest.toList)) ∧
    (∀ rest, u = "s3://" ++ rest → '/' ∈ rest.toList →
      ∃ bucket path, parseStorageURI u = .ok ⟨"s3", bucket, path⟩ ∧
        '/' ∉ bucket.toList ∧ rest = bucket ++ "/" ++ path ∧
        "s3://" ++ bucket ++ "/" ++ path = u) ∧
    (∀ p, u = "file://" ++ p → parseStorageURI u = .ok ⟨"file", "", p⟩) ∧
    (u = "" → parseStorageURI u = .error .notSpecified) ∧
    (∀ info, parseStorageURI u = .ok info →
      info.storageType = "s3" ∨ info.storageType = "file") := by
  have hs3 : ∀ rest, u = "s3://" ++ rest → '/' ∈ rest.toList →
      ∃ bucket path, parseStorageURI u = .ok ⟨"s3", bucket, path⟩ ∧
        '/' ∉ bucket.toList ∧ rest = bucket ++ "/" ++ path ∧
        "s3://" ++ bucket ++ "/" ++ path = u := by
    intro rest hu hmem
    subst hu
    rcases hc : cut '/' rest.toList with _ | ⟨a, b⟩
    · exact absurd hmem ((cut_eq_none _ _).mp hc)
    · obtain ⟨e1, e2⟩ := cut_eq_some _ _ _ _ hc
      have hrest : rest = String.mk a ++ "/" ++ String.mk b :=
        String.ext (by simpa [String.toList] using e1)
      refine ⟨String.mk a, String.mk b, ?_, e2, hrest, ?_⟩
      · rw [parseStorageURI_s3, hc]
      · rw [hrest]
        apply String.ext
        simp
  have hcases : (∃ info, parseStorageURI u = .ok info) →
      ((∃ p, u = "file://" ++ p) ∨ ∃ rest, u = "s3://" ++ rest ∧ '/' ∈ rest.toList) := by
    rintro ⟨info, h⟩
    unfold parseStorageURI at h
    split at h
    · cases h
    · split at h
      · rename_i h1 h2
        obtain ⟨rest, hr⟩ := (HasPrefix_iff _ _).mp h2
        right
        refine ⟨rest, hr, ?_⟩
        by_contra hmem
        have hp := parseStorageURI_s3 rest
        rw [(cut_eq_none _ _).mpr hmem, ← hr] at hp
        unfold parseStorageURI at hp
        rw [if_neg h1, if_pos h2] at hp
        rw [hp] at h
        cases h
      · split at h
        · rename_i h3
          exact Or.inl ((HasPrefix_iff _ _).mp h3)
        · cases h
  refine ⟨⟨hcases, ?_⟩, hs3, ?_, ?_, ?_⟩
  · rintro (⟨p, rfl⟩ | ⟨rest, hr, hmem⟩)
    · exact ⟨_, parseStorageURI_file p⟩
    · obtain ⟨bucket, path, h, -⟩ := hs3 rest hr hmem
      exact ⟨_, h⟩
  · rintro p rfl
    exact parseStorageURI_file p
  · rintro rfl
    rfl
  · intro info h
    rcases hcases ⟨info, h⟩ with ⟨p, rfl⟩ | ⟨rest, hr, hmem⟩
    · rw [parseStorageURI_file] at h
      injection h with h
      subst h
      exact Or.inr rfl
    · obtain ⟨bucket, path, h2, -⟩ := hs3 rest hr hmem
      rw [h2] at h
      injection h with h
      subst h
      exact Or.inl rfl

/-- C26 at the URI of an archive in a bucket, and at a URI with no `/` after the bucket. -/
theorem parseStorageURI_spec_witness :
    parseStorageURI "s3://bucket/a/b.tar.gz" = .ok ⟨"s3", "bucket", "a/b.tar.gz"⟩ ∧
    (∃ bucket path, parseStorageURI "s3://bucket/a/b.tar.gz" = .ok ⟨"s3", bucket, path⟩ ∧
        '/' ∉ bucket.toList ∧ "bucket/a/b.tar.gz" = bucket ++ "/" ++ path ∧
        "s3://" ++ bucket ++ "/" ++ path = "s3://bucket/a/b.tar.gz") ∧
    parseStorageURI "s3://bucket" = .error (.invalidS3 "bucket") :=
  ⟨by decide,
   (parseStorageURI_spec "s3://bucket/a/b.tar.gz").2.1 "bucket/a/b.tar.gz" (by decide) (by decide),
   by decide⟩

/-! ## Reading back a sealed archive -/

/-- The key in a frame returned by `Encrypt` is an AES key: 16, 24 or 32 bytes. -/
theorem Encrypt_ok_key_length {σ : Type} (kms : KMSClient σ) (gcm : AESGCM) (e : KMSEncryptor)
    (w : σ) (entropy data : List Byte) (frame : EncryptedData) (e1 : KMSEncryptor) (w1 : σ)
    (h : KMSEncryptor.Encrypt kms gcm e w entropy data = (.ok frame, e1, w1)) :
    frame.EncryptedDataKey.length = 16 ∨ frame.EncryptedDataKey.length = 24 ∨
      frame.EncryptedDataKey.length = 32 := by
  unfold KMSEncryptor.Encrypt at h
  simp only at h
  split at h
  · cases h
  · split at h
    · cases h
    · split at h
      · cases h
      · rename_i block hblock
        split at h
        · cases h
        · split at h
          · cases h
          · simp only [Prod.mk.injEq, Except.ok.injEq] at h
            obtain ⟨hf, -, -⟩ := h
            subst hf
            unfold aesNewCipher at hblock
            split at hblock
            · rename_i hlen
              exact hlen
            · cases hblock

/-- `LocalStorage.ReadFile` hands back, as they are, bytes the detector does
not accept, with or without an encryptor, and asks the key-management service
nothing. -/
theorem LocalStorage_ReadFile_of_not_detected {φ : Type} (env : StorageEnv φ) (s : LocalStorage)
    (d d1 : φ) (key : String) (data : List Byte)
    (hread : env.os.ReadFile key d = (.ok data, d1)) (hdet : isEncryptedData data = false) :
    s.ReadFile env d key = (.ok data, s, d1) := by
  unfold LocalStorage.ReadFile
  rw [hread]
  cases s.encryptor with
  | none => rfl
  | some encryptor => simp only [hdet, Bool.false_eq_true, if_false]

/-- A `LocalStorage.CreateTarGz` that returns nil with an encryptor installed
has built the container, sealed its bytes with `Encrypt`, serialised the frame
and passed the serialised frame to `os.WriteFile` under the target name. -/
theorem CreateTarGz_sealed {φ : Type} (env : StorageEnv φ) (order : List String)
    (entropy : List Byte) (s s1 : LocalStorage) (encryptor : KMSEncryptor) (d d1 : φ)
    (path : String) (henc : s.encryptor = some encryptor)
    (h : s.CreateTarGz env order entropy d path = (.ok (), s1, d1)) :
    ∃ tw dM encryptedData e1 dE frame dW,
      s.tarGz env.tar env.clock order = .ok tw ∧
      encryptor.Encrypt env.kmsClient env.gcm dM entropy (env.Bytes tw)
        = (.ok encryptedData, e1, dE) ∧
      SerializeEncryptedData encryptedData = .ok frame ∧
      env.os.WriteFile (TrimSuffix (TrimPrefix path "file://") ".tar.gz" ++ ".tar.gz") frame dW
        = (none, d1) := by
  unfold LocalStorage.CreateTarGz at h
  simp only [henc] at h
  split at h
  · cases h
  · rename_i tw htw
    split at h
    · cases h
    · rename_i dM hM
      split at h
      · cases h
      · rename_i encryptedData e1 dE hE
        split at h
        · cases h
        · rename_i frame hS
          unfold LocalStorage.WriteFile at h
          simp only at h
          split at h
          · cases h
          · rename_i dW hW
            split at h
            · cases h
            · rename_i dF hF
              simp only [Prod.mk.injEq] at h
              obtain ⟨-, -, hd⟩ := h
              subst hd
              exact ⟨tw, dM, encryptedData, e1, dE, frame, dW, htw, hE, hS, hF⟩

/-- C28: the detector rejects every serialised frame of a key and a payload
shorter than `2 ^ 32` bytes (the frame has `8 + len w + len p` bytes, 16 fewer
than the detector asks for); and when `LocalStorage.CreateTarGz` has sealed and
written an archive, what it wrote is the serialised frame of `Encrypt`, and
`LocalStorage.ReadFile`, with or without an encryptor, returns that blob as it
is when the file system hands it back: nothing is deserialised or decrypted. -/
theorem sealed_blob_read_undecrypted {φ : Type} (env : StorageEnv φ) :
    (∀ w p : List Byte, w.length < 2 ^ 32 → p.length < 2 ^ 32 →
      ∃ frame, SerializeEncryptedData ⟨w, p⟩ = .ok frame ∧
        frame.length = 8 + w.length + p.length ∧ isEncryptedData frame = false) ∧
    (∀ (order : List String) (entropy : List Byte) (s s1 : LocalStorage)
        (encryptor : KMSEncryptor) (d d1 : φ) (path : String),
      s.encryptor = some encryptor →
      s.CreateTarGz env order entropy d path = (.ok (), s1, d1) →
      ∃ encryptedData frame dW,
        SerializeEncryptedData encryptedData = .ok frame ∧
        env.os.WriteFile (TrimSuffix (TrimPrefix path "file://") ".tar.gz" ++ ".tar.gz") frame dW
          = (none, d1) ∧
        (encryptedData.EncryptedData.length < 2 ^ 32 →
          isEncryptedData frame = false ∧
          ∀ (r : LocalStorage) (key : String) (d2 d3 : φ),
            env.os.ReadFile key d2 = (.ok frame, d3) →
              r.ReadFile env d2 key = (.ok frame, r, d3))) := by
  constructor
  · intro w p hw hp
    obtain ⟨frame, h1, h2, -, -, h3⟩ := isEncryptedData_Serialize w p hw hp
    exact ⟨frame, h1, h2, h3⟩
  · intro order entropy s s1 encryptor d d1 path henc h
    obtain ⟨tw, dM, encryptedData, e1, dE, frame, dW, -, hE, hS, hW⟩ :=
      CreateTarGz_sealed env order entropy s s1 encryptor d d1 path henc h
    refine ⟨encryptedData, frame, dW, hS, hW, fun hp => ?_⟩
    have hk : encryptedData.EncryptedDataKey.length < 2 ^ 32 := by
      rcases Encrypt_ok_key_length _ _ _ _ _ _ _ _ _ hE with h | h | h <;> rw [h] <;> decide
    obtain ⟨frame2, h1, -, -, -, h3⟩ :=
      isEncryptedData_Serialize encryptedData.EncryptedDataKey encryptedData.EncryptedData hk hp
    rw [hS] at h1
    injection h1 with h1
    subst h1
    exact ⟨h3, fun r key d2 d3 hread =>
      LocalStorage_ReadFile_of_not_detected env r d2 d3 key frame hread h3⟩

/-- C28 on the sample run: a frame of a 16-byte key is rejected by the detector;
the sealed run writes a serialised frame; and reading `/tmp/backup.tar.gz`
back through a storage with the encryptor installed returns the 40 bytes of
the frame, not the 3 bytes of the container. -/
theorem sealed_blob_read_undecrypted_witness :
    (∃ frame, SerializeEncryptedData ⟨stubPlaintextKey, stubEntropy⟩ = .ok frame ∧
        frame.length = 8 + stubPlaintextKey.length + stubEntropy.length ∧
        isEncryptedData frame = false) ∧
    (∃ encryptedData frame dW,
        SerializeEncryptedData encryptedData = .ok frame ∧
        memEnv.os.WriteFile
          (TrimSuffix (TrimPrefix "file:///tmp/backup.tar.gz" "file://") ".tar.gz" ++ ".tar.gz")
          frame dW = (none, sealedRun.2.2) ∧
        (encryptedData.EncryptedData.length < 2 ^ 32 →
          isEncryptedData frame = false ∧
          ∀ (r : LocalStorage) (key : String) (d2 d3 : MemState),
            memEnv.os.ReadFile key d2 = (.ok frame, d3) →
              r.ReadFile memEnv d2 key = (.ok frame, r, d3))) ∧
    stubBytes [{ header := { Name := "A/metadata.json", Size := 2, Mode := 0o644,
                             ModTime := "2024-01-01T00:00:00Z" },
                 content := [1, 2] }] = [15, 1, 2] ∧
    (LocalStorage.ReadFile memEnv sealedStorage sealedRun.2.2 "/tmp/backup.tar.gz").1 =
      .ok ([16, 0, 0, 0, 16, 0, 0, 0] ++ stubPlaintextKey ++ stubEntropy ++ [15, 1, 2, 68]) :=
  ⟨(sealed_blob_read_undecrypted memEnv).1 stubPlaintextKey stubEntropy (by decide) (by decide),
   (sealed_blob_read_undecrypted memEnv).2 ["A"] stubEntropy sealedStorage sealedRun.2.1
     stubEncryptor ⟨[], []⟩ sealedRun.2.2 "file:///tmp/backup.tar.gz" rfl (by decide),
   by decide, by decide⟩

/-! ## `Backup`: the data key path -/

/-- C29: with an empty `DataKeyPath`, whatever the other flags (a KMS key given
or not) and whatever the environment, `Backup` returns an error that arises in
its set-up, before line 109: `BackupPools` and `CreateTarGz` are not reached,
and the states of the directory and of the storage services are those `Backup`
started in, so nothing was collected, staged or written. When the URI parses and
the clients are built, the error is that of `parseStorageURI` on the empty data
key path. -/
theorem Backup_empty_data_key_path {σ φ : Type} (env : CommandEnv σ φ)
    (schedule : List Nat) (order : List String) (entropy : List Byte)
    (cli : CLI) (w : σ) (d : φ) (h : cli.Backup.DataKeyPath = "") :
    ∃ err, Backup env schedule order entropy cli w d = .returned (.error err, w, d) ∧
      Backup.setup env cli d = (.error err, d) ∧
      (∀ info, parseStorageURI cli.Backup.URI = .ok info →
        (info.storageType = "s3" → env.ValidateAWSCredentials = none) →
        env.NewCognitoClient = none → err = .dataKeyPath .notSpecified) := by
  have hp : parseStorageURI cli.Backup.DataKeyPath = .error .notSpecified := by
    rw [h]; rfl
  have hsetup : ∃ err, Backup.setup env cli d = (.error err, d) ∧
      (∀ info, parseStorageURI cli.Backup.URI = .ok info →
        (info.storageType = "s3" → env.ValidateAWSCredentials = none) →
        env.NewCognitoClient = none → err = .dataKeyPath .notSpecified) := by
    unfold Backup.setup
    rw [hp]
    cases huri : parseStorageURI cli.Backup.URI with
    | error e => exact ⟨_, rfl, fun info hi => by cases hi⟩
    | ok info =>
      simp only
      cases hv : (if info.storageType = "s3" then env.ValidateAWSCredentials else none) with
      | some e =>
        refine ⟨_, rfl, fun info2 hi hcred _ => ?_⟩
        injection hi with hi
        subst hi
        by_cases hs : info.storageType = "s3"
        · rw [if_pos hs, hcred hs] at hv; cases hv
        · rw [if_neg hs] at hv; cases hv
      | none =>
        simp only
        cases hc : env.NewCognitoClient with
        | some e => exact ⟨_, rfl, fun _ _ _ hn => by cases hn⟩
        | none => exact ⟨_, rfl, fun _ _ _ _ => rfl⟩
  obtain ⟨err, hs, hrest⟩ := hsetup
  refine ⟨err, ?_, hs, hrest⟩
  unfold Backup
  rw [hs]

/-- C29 on the sample environment: a backup to a local archive with no KMS key
and no data key path stops at the data key path, with no call logged and no
file written. -/
theorem Backup_empty_data_key_path_witness :
    ∃ err, Backup stubCommandEnv [] ["A", "B", "C"] stubEntropy plainBackupCLI () ⟨[], []⟩
        = .returned (.error err, (), ⟨[], []⟩) ∧
      Backup.setup stubCommandEnv plainBackupCLI ⟨[], []⟩ = (.error err, ⟨[], []⟩) ∧
      (∀ info, parseStorageURI plainBackupCLI.Backup.URI = .ok info →
        (info.storageType = "s3" → stubCommandEnv.ValidateAWSCredentials = none) →
        stubCommandEnv.NewCognitoClient = none → err = .dataKeyPath .notSpecified) :=
  Backup_empty_data_key_path stubCommandEnv [] ["A", "B", "C"] stubEntropy plainBackupCLI ()
    ⟨[], []⟩ rfl


/-! ## `Backup`: collection, then the archive -/

/-- `Backup` (lines 109-123) calls `CreateTarGz` exactly when `BackupPools` has
returned nil. When `BackupPools` returns an error, `Backup` returns it as
`backup failed`, the state of the storage services is left as it was, and the
outcome is the same for every storage environment, iteration order and entropy:
`CreateTarGz` is not called. When `BackupPools` returns nil, the outcome is that
of `CreateTarGz` on the storage the collection has filled. When the run of
`BackupPools` has a data race, so has the run of `Backup`. -/
theorem Backup_execute_cases {σ φ : Type} (env : CommandEnv σ φ)
    (schedule : List Nat) (order : List String) (entropy : List Byte)
    (store : Storage) (w : σ) (d : φ) (pattern path : String) :
    (∀ err b1 w1,
      (NewPoolBackupper store).BackupPools env.backup schedule w pattern path
        = .returned (.error err, b1, w1) →
      ∀ (senv : StorageEnv φ) (order2 : List String) (entropy2 : List Byte),
        Backup.execute { env with storage := senv } schedule order2 entropy2 store w d pattern path
          = .returned (.error (.backupFailed err), b1.storage, w1, d)) ∧
    (∀ b1 w1,
      (NewPoolBackupper store).BackupPools env.backup schedule w pattern path
        = .returned (.ok (), b1, w1) →
      Backup.execute env schedule order entropy store w d pattern path =
        .returned
          ((b1.storage.CreateTarGz env.storage order entropy d path).1.mapError
              CommandError.compress,
            (b1.storage.CreateTarGz env.storage order entropy d path).2.1, w1,
            (b1.storage.CreateTarGz env.storage order entropy d path).2.2)) ∧
    ((NewPoolBackupper store).BackupPools env.backup schedule w pattern path = .dataRace →
      Backup.execute env schedule order entropy store w d pattern path = .dataRace) := by
  refine ⟨?_, ?_, ?_⟩
  · intro err b1 w1 h senv order2 entropy2
    unfold Backup.execute
    simp only [h]
  · intro b1 w1 h
    unfold Backup.execute
    simp only [h]
    rcases b1.storage.CreateTarGz env.storage order entropy d path with ⟨r, s1, d1⟩
    cases r with
    | error e => rfl
    | ok u => rfl
  · intro h
    unfold Backup.execute
    simp only [h]

/-- C30 at the pools `A`, `B` and `C` with the listing of the users of `B`
failing. The collection fails for `B`, but the run of `BackupPools` has a data
race between the goroutines of `A` and of `C`, whatever the scheduler does, and
so has the run of `Backup`: it has no defined result where C30 has it return an
error with nothing packaged, sealed or written. -/
theorem Backup_collection_race (schedule : List Nat) (order : List String)
    (entropy : List Byte) (d : MemState) :
    Backup.execute stubCommandEnv schedule order entropy (.localStorage NewLocalStorage) () d
      ".*" "/tmp/backup.tar.gz" = .dataRace := by
  unfold Backup.execute
  simp only [show stubCommandEnv.backup = stubEnv from rfl, stubEnv_data_race]

set_option maxRecDepth 100000 in
/-- With the user listings of `B` and of `C` failing the run has no data race,
and `Backup` does what its lines 109-123 say: it returns `backup failed` with
the aggregated error, and no directory is made and no file written, while the
three files of `A` stay staged in memory. -/
theorem Backup_two_failures :
    Backup.execute { stubCommandEnv with backup := flakyEnv } [] ["A", "B", "C"] stubEntropy
        (.localStorage NewLocalStorage) () ⟨[], []⟩ ".*" "/tmp/backup.tar.gz" =
      .returned (.error (.backupFailed (.errorsOccurred 2
          [{ pool := "B", cause := .userList "InternalErrorException" },
           { pool := "C", cause := .userList "TooManyRequestsException" }])),
        (PoolBackupper.backupSinglePool flakyEnv stubBackupper () "A" "backups").2.1.storage,
        (), ⟨[], []⟩) := by
  decide

/-! ## The restore: warnings, and panics -/

/-- When the read of a location's `metadata.json` fails, the loop of `Restore`
prints one warning for the location and goes on with the next location from the
state the read has left: nothing else is read and no directory call is made for
the location. -/
theorem restoreEach_read_failure {σ : Type} (env : RestoreEnv σ) (backupPath : String)
    (backups : List String) (w w1 : σ) (err : String)
    (h : env.ReadFile (filepathJoin [backupPath, "metadata.json"]) w = (.error err, w1)) :
    Restore.restoreEach env (backupPath :: backups) w =
      ((Restore.restoreEach env backups w1).1,
        .warnReadMetadata backupPath err :: (Restore.restoreEach env backups w1).2.1,
        (Restore.restoreEach env backups w1).2.2) := by
  rw [Restore.restoreEach]
  simp only [h]

/-- When a location's `metadata.json` is read but does not parse, the loop of
`Restore` prints one warning for the location and goes on with the next
location from the state the read has left. -/
theorem restoreEach_parse_failure {σ : Type} (env : RestoreEnv σ) (backupPath : String)
    (backups : List String) (w w1 : σ) (metadataData : List Byte) (err : String)
    (h : env.ReadFile (filepathJoin [backupPath, "metadata.json"]) w = (.ok metadataData, w1))
    (hparse : env.UnmarshalMetadata metadataData = .error err) :
    Restore.restoreEach env (backupPath :: backups) w =
      ((Restore.restoreEach env backups w1).1,
        .warnParseMetadata backupPath err :: (Restore.restoreEach env backups w1).2.1,
        (Restore.restoreEach env backups w1).2.2) := by
  rw [Restore.restoreEach]
  simp only [h, hparse]

/-- Two locations, the `metadata.json` of the first corrupted: `Restore` prints
one warning for the first, makes no directory call for it, restores the second
to completion and returns nil. -/
theorem Restore_corrupted_first_location :
    (Restore.run (restoreStub filesBadMetadata) ["L1", "L2"] []).1 = .nil ∧
    (Restore.run (restoreStub filesBadMetadata) ["L1", "L2"] []).2.1.take 3 =
      [.backupsToRestore 2, .warnParseMetadata "L1" "invalid character", .starting "B"] ∧
    (Restore.run (restoreStub filesBadMetadata) ["L1", "L2"] []).2.1.drop 6 =
      [.completed "B", .restorationCompleted] ∧
    (Restore.run (restoreStub filesBadMetadata) ["L1", "L2"] []).2.2.take 4 =
      [.readFile "L1/metadata.json", .readFile "L2/metadata.json",
       .readFile "B/pool-config.json",
       .createUserPool { PoolName := "B", Policies := none, MfaConfiguration := "OFF",
                         Schema := none, LambdaConfig := none }] := by
  decide

/-- C21: a location whose pool configuration has a `policies` object without
`password_policy` ends the whole run. Of two locations with readable
`metadata.json`, the first with such a configuration: `RestorePool` panics in
`ToPoolPolicies`, `Restore` does not return, the second location is never
read, and no warning is printed. -/
theorem Restore_panics_on_policies :
    ToPoolPolicies (some []) =
      .error ⟨"interface conversion: interface {} is nil, not map[string]interface {}"⟩ ∧
    Restore.run (restoreStub filesBadPolicies) ["L1", "L2"] [] =
      (.panic ⟨"interface conversion: interface {} is nil, not map[string]interface {}"⟩,
        [.backupsToRestore 2, .starting "A"],
        [.readFile "L1/metadata.json", .readFile "A/pool-config.json"]) ∧
    (Restore.run (restoreStub filesBadPolicies) ["L2"] []).1 = .nil := by
  decide

/-- The attributes of a member are well formed when each has a `Name` and a `Value`. -/
theorem userAttrs_ok (attributes : List (GoMap String))
    (h : ∀ attr ∈ attributes, (mapGet attr "Name").isSome ∧ (mapGet attr "Value").isSome) :
    ∃ userAttrs, Users.userAttrs attributes = .ok userAttrs := by
  induction attributes with
  | nil => exact ⟨[], rfl⟩
  | cons attr attributes ih =>
    obtain ⟨h1, h2⟩ := h attr (List.mem_cons_self _ _)
    obtain ⟨rest, hrest⟩ := ih (fun a ha => h a (List.mem_cons_of_mem _ ha))
    obtain ⟨name, hname⟩ := Option.isSome_iff_exists.mp h1
    obtain ⟨value, hvalue⟩ := Option.isSome_iff_exists.mp h2
    exact ⟨{ Name := name, Value := value } :: rest, by
      rw [Users.userAttrs]; simp only [hname, hvalue, hrest]⟩

/-- For a member with well-formed attributes: when `CreateUser` fails,
`restoreUser` returns the error from the state `CreateUser` has left, so no
group addition is attempted; when `CreateUser` succeeds, `restoreUser` returns
nil whatever the group additions return. -/
theorem restoreUser_spec {σ : Type} (env : RestoreEnv σ) (userPoolID : String) (user : UserInfo)
    (w : σ) (userAttrs : List AttributeType)
    (hattrs : Users.userAttrs user.Attributes = .ok userAttrs) :
    (∀ err w1,
      env.cognito.CreateUser
        { UserPoolId := userPoolID, Username := user.Username, UserAttributes := userAttrs,
          MessageAction := "SUPPRESS", DesiredDeliveryMediums := ["EMAIL"] } w = (.error err, w1) →
      Users.restoreUser env userPoolID user w = (.error (.createUser err), [], w1)) ∧
    (∀ w1,
      env.cognito.CreateUser
        { UserPoolId := userPoolID, Username := user.Username, UserAttributes := userAttrs,
          MessageAction := "SUPPRESS", DesiredDeliveryMediums := ["EMAIL"] } w = (.ok (), w1) →
      Users.restoreUser env userPoolID user w =
        (.nil, Users.addToGroups env userPoolID user.Username user.Groups w1)) := by
  constructor
  · intro err w1 h
    unfold Users.restoreUser
    simp only [hattrs, h]
  · intro w1 h
    unfold Users.restoreUser
    simp only [hattrs, h]

/-- `restoreUser` panics exactly when an attribute of the member lacks `Name` or `Value`. -/
theorem restoreUser_panic_iff {σ : Type} (env : RestoreEnv σ) (userPoolID : String)
    (user : UserInfo) (w : σ) :
    (∃ p, (Users.restoreUser env userPoolID user w).1 = .panic p) ↔
      ∃ p, Users.userAttrs user.Attributes = .error p := by
  unfold Users.restoreUser
  cases hattrs : Users.userAttrs user.Attributes with
  | error p => simp
  | ok userAttrs =>
    simp only
    rcases env.cognito.CreateUser _ w with ⟨r, w1⟩
    cases r with
    | error err => simp
    | ok u => simp

/-- When every member has well-formed attributes, the loop of `RestoreUsers`
returns nil, whatever `CreateUser` and `AddUserToGroup` return. -/
theorem restoreEach_nil {σ : Type} (env : RestoreEnv σ) (userPoolID : String)
    (users : List UserInfo) (w : σ)
    (h : ∀ user ∈ users, ∀ attr ∈ user.Attributes,
      (mapGet attr "Name").isSome ∧ (mapGet attr "Value").isSome) :
    (Users.restoreEach env userPoolID users w).1 = .nil := by
  induction users generalizing w with
  | nil => rfl
  | cons user users ih =>
    obtain ⟨userAttrs, hattrs⟩ := userAttrs_ok user.Attributes (h user (List.mem_cons_self _ _))
    have ih2 := fun w => ih w (fun u hu => h u (List.mem_cons_of_mem _ hu))
    rw [Users.restoreEach]
    rcases hr : Users.restoreUser env userPoolID user w with ⟨r, out, w1⟩
    cases r with
    | nil => simp only; exact ih2 w1
    | error err => simp only; exact ih2 w1
    | panic p =>
      have hp : ∃ p, (Users.restoreUser env userPoolID user w).1 = .panic p := ⟨p, by rw [hr]⟩
      obtain ⟨q, hq⟩ := (restoreUser_panic_iff env userPoolID user w).mp hp
      rw [hattrs] at hq
      cases hq

/-- Members `carol`, whose creation fails, and `alice`, whose second group
addition fails: `RestoreUsers` attempts both members in order and all three
groups of `alice` in order, makes no group addition for `carol`, and returns nil. -/
theorem RestoreUsers_tolerates_failures :
    Users.RestoreUsers (restoreStub filesBadMetadata) (stubMetadata "B") [] =
      (.nil,
        [.warnRestoreUser "carol"
            (.createUser "failed to create user: UsernameExistsException"),
         .warnAddUserToGroup "alice" "staff"
            "failed to add user to group: ResourceNotFoundException"],
        [.readFile "B/users.json",
         .createUser { UserPoolId := "B", Username := "carol",
                       UserAttributes := [{ Name := "email", Value := "a@b.c" }],
                       MessageAction := "SUPPRESS", DesiredDeliveryMediums := ["EMAIL"] },
         .createUser { UserPoolId := "B", Username := "alice",
                       UserAttributes := [{ Name := "email", Value := "a@b.c" }],
                       MessageAction := "SUPPRESS", DesiredDeliveryMediums := ["EMAIL"] },
         .addUserToGroup { UserPoolId := "B", Username := "alice", GroupName := "admins" },
         .addUserToGroup { UserPoolId := "B", Username := "alice", GroupName := "staff" },
         .addUserToGroup { UserPoolId := "B", Username := "alice", GroupName := "ops" }]) := by
  decide

/-- C22: a member with an attribute that has no `Name` ends `RestoreUsers`. Of
the members `alice`, `bob` and `carol`, `bob` having such an attribute:
`alice` is restored, `restoreUser` panics on `bob` before any directory call
for it, `RestoreUsers` does not return, and `carol` is never attempted. -/
theorem RestoreUsers_panics_on_attribute :
    Users.userAttrs [[("Value", "b@b.c")]] =
      .error ⟨"interface conversion: interface {} is nil, not string"⟩ ∧
    Users.RestoreUsers (restoreStub filesBadMember) (stubMetadata "B") [] =
      (.panic ⟨"interface conversion: interface {} is nil, not string"⟩,
        [.warnAddUserToGroup "alice" "staff"
            "failed to add user to group: ResourceNotFoundException"],
        [.readFile "B/users.json",
         .createUser { UserPoolId := "B", Username := "alice",
                       UserAttributes := [{ Name := "email", Value := "a@b.c" }],
                       MessageAction := "SUPPRESS", DesiredDeliveryMediums := ["EMAIL"] },
         .addUserToGroup { UserPoolId := "B", Username := "alice", GroupName := "admins" },
         .addUserToGroup { UserPoolId := "B", Username := "alice", GroupName := "staff" },
         .addUserToGroup { UserPoolId := "B", Username := "alice", GroupName := "ops" }]) := by
  decide

/-! ## `generate-datakey` -/

/-- When `writeOutput` returns nil with an output file given, the text was
passed to `os.WriteFile` as bytes under the name of the file. -/
theorem writeOutput_ok {φ : Type} (env : GenerateEnv φ) (cli : CLI) (saved output : String)
    (d d2 : φ) (out : List String) (hout : cli.GenerateDatakey.Output ≠ "")
    (h : writeOutput env cli saved output d = (.ok (), out, d2)) :
    env.storage.os.WriteFile cli.GenerateDatakey.Output (stringBytes output) d = (none, d2) := by
  unfold writeOutput at h
  rw [if_pos hout] at h
  split at h
  · cases h
  · rename_i d3 hw
    simp only [Prod.mk.injEq] at h
    obtain ⟨-, -, hd⟩ := h
    rw [hw, hd]

/-- C23, amended: a run of `generate-datakey` that writes its output file has
written the text composed from the wrapped key and the plaintext key, both in
Base64, so both keys are persisted.
In test mode the two keys are the first 32 and the next 128 bytes of entropy; in
KMS mode they are the two fields of the answer to the `GenerateDataKey` request.
In `base64` format the text is the two labelled sections; in `json` format it is
the encoding of the record with both keys. -/
theorem GenerateDatakey_output {φ : Type} (env : GenerateEnv φ) (entropy : List Byte)
    (cli : CLI) (d d2 : φ) (out : List String) (hout : cli.GenerateDatakey.Output ≠ "")
    (h : GenerateDatakey env entropy cli d = (.ok (), out, d2)) :
    ∃ (wrapped plaintext : List Byte) (output : String) (d1 : φ),
      env.storage.os.WriteFile cli.GenerateDatakey.Output (stringBytes output) d1 = (none, d2) ∧
      (cli.GenerateDatakey.Test = true →
        plaintext = entropy.take 32 ∧ wrapped = (entropy.drop 32).take 128 ∧ d1 = d) ∧
      (cli.GenerateDatakey.Test = false →
        ∃ dataKeyInfo,
          env.storage.kmsClient.GenerateDataKey
            { KeyId := cli.GenerateDatakey.KMSKeyID, KeySpec := "AES_256" } d
            = (.ok dataKeyInfo, d1) ∧
          plaintext = dataKeyInfo.Plaintext.bytes ∧ wrapped = dataKeyInfo.CiphertextBlob.bytes) ∧
      (cli.GenerateDatakey.Format = "base64" →
        output =
          (if cli.GenerateDatakey.Test then "# Test Encrypted Data Key (Base64)\n"
            else "# Encrypted Data Key (Base64)\n") ++ EncodeToString wrapped ++
          (if cli.GenerateDatakey.Test then "\n\n# Test Plaintext Data Key (Base64)\n"
            else "\n\n# Plaintext Data Key (Base64) - Handle with care\n") ++
          EncodeToString plaintext ++ "\n") ∧
      (cli.GenerateDatakey.Format = "json" →
        env.MarshalIndent
          { KMSKeyID := cli.GenerateDatakey.KMSKeyID ++
              (if cli.GenerateDatakey.Test then "-TEST" else "")
            EncryptedDataKey := EncodeToString wrapped
            PlaintextDataKey := EncodeToString plaintext
            KeySpec := cli.GenerateDatakey.Spec
            GeneratedAt := env.Now } = .ok output) := by
  unfold GenerateDatakey at h
  by_cases htest : cli.GenerateDatakey.Test = true
  · rw [if_pos htest] at h
    unfold generateTestDatakey at h
    split at h
    · cases h
    · rename_i plaintextKey hp
      split at h
      · cases h
      · rename_i encryptedKey he
        obtain ⟨hp1, -⟩ := randRead_ok _ _ _ hp
        obtain ⟨he1, -⟩ := randRead_ok _ _ _ he
        simp only at h
        split at h
        · cases h
        · rename_i output hc
          refine ⟨encryptedKey, plaintextKey, output, d,
            writeOutput_ok env cli _ output d d2 out hout h, fun _ => ⟨hp1, he1, rfl⟩,
            fun hf => ?_, fun hb => ?_, fun hj => ?_⟩
          · rw [htest] at hf; cases hf
          · have hnj : ¬ cli.GenerateDatakey.Format = "json" := by rw [hb]; decide
            rw [if_neg hnj, if_pos hb] at hc
            injection hc with hc
            rw [← hc, htest]
            rfl
          · rw [if_pos hj] at hc
            rw [htest]
            simp only [if_true]
            split at hc
            · cases hc
            · rename_i jsonData hm
              injection hc with hc
              rw [← hc, ← hm]
  · have hfalse : cli.GenerateDatakey.Test = false := by
      cases hT : cli.GenerateDatakey.Test with
      | true => exact absurd hT htest
      | false => rfl
    rw [if_neg htest] at h
    cases hv : env.ValidateAWSCredentials with
    | some e => simp only [hv] at h; cases h
    | none =>
      cases hn : env.NewKMSEncryptor with
      | some e => simp only [hv, hn] at h; cases h
      | none =>
        simp only [hv, hn, KMSEncryptor.GenerateDataKey, NewKMSEncryptor] at h
        rcases hk : env.storage.kmsClient.GenerateDataKey
          { KeyId := cli.GenerateDatakey.KMSKeyID, KeySpec := "AES_256" } d with ⟨r, d3⟩
        rw [hk] at h
        cases r with
        | error e => simp only at h; cases h
        | ok info =>
          simp only at h
          split at h
          · cases h
          · rename_i output hc
            refine ⟨info.CiphertextBlob.bytes, info.Plaintext.bytes, output, d3,
              writeOutput_ok env cli _ output d3 d2 out hout h, fun ht => ?_,
              fun _ => ⟨info, rfl, rfl, rfl⟩, fun hb => ?_, fun hj => ?_⟩
            · rw [hfalse] at ht; cases ht
            · have hnj : ¬ cli.GenerateDatakey.Format = "json" := by rw [hb]; decide
              rw [if_neg hnj, if_pos hb] at hc
              injection hc with hc
              rw [← hc, hfalse]
              rfl
            · rw [if_pos hj] at hc
              rw [hfalse]
              simp only [Bool.false_eq_true, if_false, String.append_empty]
              split at hc
              · cases hc
              · rename_i jsonData hm
                injection hc with hc
                rw [← hc, ← hm]

set_option maxRecDepth 100000 in
/-- C23 as stated fails: a run of `generate-datakey` writes the plaintext data
key to its output file. In KMS mode and `base64` format, with the service answering with the
plaintext key `stubPlaintextKey`, the run writes `key.out`, and the bytes
written contain the Base64 text of the plaintext key. -/
theorem GenerateDatakey_writes_plaintext_key :
    (stubGenerateEnv.storage.kmsClient.GenerateDataKey
        { KeyId := "alias/backup", KeySpec := "AES_256" } ⟨[], []⟩).1 =
      .ok { Plaintext := some stubPlaintextKey, CiphertextBlob := some stubWrappedKey } ∧
    EncodeToString stubPlaintextKey = "AQIDBAUGBwgJCgsMDQ4PEA==" ∧
    (GenerateDatakey stubGenerateEnv [] (generateCLI "base64" "AES_256" false) ⟨[], []⟩).1
      = .ok () ∧
    ∃ written,
      mapGet (GenerateDatakey stubGenerateEnv [] (generateCLI "base64" "AES_256" false)
        ⟨[], []⟩).2.2.files "key.out" = some written ∧
      stringBytes (EncodeToString stubPlaintextKey) <:+: written := by
  refine ⟨by decide, by decide, by decide, _, rfl, ?_⟩
  decide

set_option maxRecDepth 100000 in
/-- C23, amended, on the sample run in KMS mode and `base64` format. -/
theorem GenerateDatakey_output_witness :
    ∃ (wrapped plaintext : List Byte) (output : String) (d1 : MemState),
      stubGenerateEnv.storage.os.WriteFile "key.out" (stringBytes output) d1 =
        (none, (GenerateDatakey stubGenerateEnv [] (generateCLI "base64" "AES_256" false)
          ⟨[], []⟩).2.2) ∧
      ((generateCLI "base64" "AES_256" false).GenerateDatakey.Test = true →
        plaintext = ([] : List Byte).take 32 ∧ wrapped = (([] : List Byte).drop 32).take 128 ∧
          d1 = ⟨[], []⟩) ∧
      ((generateCLI "base64" "AES_256" false).GenerateDatakey.Test = false →
        ∃ dataKeyInfo,
          stubGenerateEnv.storage.kmsClient.GenerateDataKey
            { KeyId := "alias/backup", KeySpec := "AES_256" } ⟨[], []⟩ = (.ok dataKeyInfo, d1) ∧
          plaintext = dataKeyInfo.Plaintext.bytes ∧ wrapped = dataKeyInfo.CiphertextBlob.bytes) ∧
      ((generateCLI "base64" "AES_256" false).GenerateDatakey.Format = "base64" →
        output =
          (if (generateCLI "base64" "AES_256" false).GenerateDatakey.Test then
              "# Test Encrypted Data Key (Base64)\n"
            else "# Encrypted Data Key (Base64)\n") ++ EncodeToString wrapped ++
          (if (generateCLI "base64" "AES_256" false).GenerateDatakey.Test then
              "\n\n# Test Plaintext Data Key (Base64)\n"
            else "\n\n# Plaintext Data Key (Base64) - Handle with care\n") ++
          EncodeToString plaintext ++ "\n") ∧
      ((generateCLI "base64" "AES_256" false).GenerateDatakey.Format = "json" →
        stubGenerateEnv.MarshalIndent
          { KMSKeyID := "alias/backup" ++
              (if (generateCLI "base64" "AES_256" false).GenerateDatakey.Test then "-TEST" else "")
            EncryptedDataKey := EncodeToString wrapped
            PlaintextDataKey := EncodeToString plaintext
            KeySpec := "AES_256"
            GeneratedAt := stubGenerateEnv.Now } = .ok output) :=
  GenerateDatakey_output stubGenerateEnv [] (generateCLI "base64" "AES_256" false) ⟨[], []⟩
    (GenerateDatakey stubGenerateEnv [] (generateCLI "base64" "AES_256" false) ⟨[], []⟩).2.2
    ["Data key saved to key.out\n"] (by decide) (by decide)

/-- The request `KMSEncryptor.GenerateDataKey` sends asks for an `AES_256` key,
whatever the encryptor and the service. -/
theorem GenerateDataKey_request {σ : Type} (kms : KMSClient σ) (e : KMSEncryptor) (w : σ) :
    (KMSEncryptor.GenerateDataKey kms.recording e (w, [])).2.2 =
      [.generateDataKey { KeyId := e.keyID, KeySpec := "AES_256" }] := by
  unfold KMSEncryptor.GenerateDataKey
  rw [recording_GenerateDataKey]
  rcases kms.GenerateDataKey { KeyId := e.keyID, KeySpec := "AES_256" } w with ⟨r, w1⟩
  cases r <;> rfl

/-- In `base64` format, `generate-datakey` does the same whatever `--spec` is:
the flag reaches neither the key-management request nor the test key. -/
theorem GenerateDatakey_spec_unused {φ : Type} (env : GenerateEnv φ) (entropy : List Byte)
    (cli : CLI) (d : φ) (spec : String) (hb : cli.GenerateDatakey.Format = "base64") :
    GenerateDatakey env entropy
        { cli with GenerateDatakey := { cli.GenerateDatakey with Spec := spec } } d =
      GenerateDatakey env entropy cli d := by
  have hne : ¬ (("base64" : String) = "json") := by decide
  unfold GenerateDatakey generateTestDatakey writeOutput
  simp only [hb, hne, if_false, if_true]

set_option maxRecDepth 100000 in
/-- C24: `generate-datakey --spec AES_128` does not produce an `AES_128` key. In
KMS mode the request sent asks for `AES_256`, while the record written names
`AES_128`; in test mode the plaintext key written has 32 bytes (44 characters
of Base64), not 16, and the record names `AES_128`. -/
theorem GenerateDatakey_ignores_spec :
    (GenerateDatakey stubGenerateEnv [] (generateCLI "json" "AES_128" false) ⟨[], []⟩).2.2.log.head?
      = some (.kms (.generateDataKey { KeyId := "alias/backup", KeySpec := "AES_256" })) ∧
    mapGet (GenerateDatakey stubGenerateEnv [] (generateCLI "json" "AES_128" false)
        ⟨[], []⟩).2.2.files "key.out" =
      some (stringBytes
        "alias/backup\nq83v\nAQIDBAUGBwgJCgsMDQ4PEA==\nAES_128\n2024-01-01T00:00:00Z\n") ∧
    (testEntropy.take 32).length = 32 ∧
    (EncodeToString (testEntropy.take 32)).length = 44 ∧
    mapGet (GenerateDatakey stubGenerateEnv testEntropy (generateCLI "json" "AES_128" true)
        ⟨[], []⟩).2.2.files "key.out" =
      some (stringBytes ("alias/backup-TEST\n" ++
        EncodeToString ((testEntropy.drop 32).take 128) ++ "\n" ++
        EncodeToString (testEntropy.take 32) ++ "\nAES_128\n2024-01-01T00:00:00Z\n")) := by
  refine ⟨by decide, by decide, by decide, by decide, by decide⟩

/-! ## The storage `Backup` builds -/

/-- A URI `parseStorageURI` accepts has the type `s3` or `file`. -/
theorem parseStorageURI_type (uri : String) (info : storageInfo)
    (h : parseStorageURI uri = .ok info) :
    info.storageType = "s3" ∨ info.storageType = "file" := by
  unfold parseStorageURI at h
  split at h
  · cases h
  · split at h
    · simp only at h
      split at h
      · cases h
      · injection h with h
        subst h
        exact Or.inl rfl
    · split at h
      · injection h with h
        subst h
        exact Or.inr rfl
      · cases h

/-- The `switch` of `Backup` on the storage type always builds a storage: the
set-up never ends with a nil `store`. -/
theorem Backup_setup_builds_storage {σ φ : Type} (env : CommandEnv σ φ) (cli : CLI) (d : φ) :
    (Backup.setup env cli d).1 ≠ .error .nilStorage := by
  unfold Backup.setup
  cases huri : parseStorageURI cli.Backup.URI with
  | error e => simp
  | ok info =>
    simp only
    split
    · simp
    · split
      · simp
      · split
        · simp
        · rename_i dataKeyInfo hkey
          have htype := parseStorageURI_type _ _ huri
          by_cases hs3 : info.storageType = "s3"
          · simp only [hs3, if_true]
            rcases env.NewS3Storage info.bucket d with ⟨r, d1⟩
            cases r with
            | some e => simp
            | none =>
              simp only
              repeat' split
              all_goals simp
          · have hfile : info.storageType = "file" := htype.resolve_left hs3
            have hne : ¬ (("file" : String) = "s3") := by decide
            simp only [hfile, hne, if_false, if_true]
            repeat' split
            all_goals simp

end Acb
